import Mathlib

/-!
# Verification of the ferieplan vacation ledger engine

A shallow embedding of `src/lib/vacationCalculations.ts` (the vacation
ledger engine of the ferieplan repository) together with theorems that
settle the specification claims about it.

Conventions of the embedding:

* ISO date strings `yyyy-MM-dd` become the structure `YMD`; the source
  compares such strings lexicographically, which for fixed-width
  components coincides with lexicographic comparison of the
  `(year, month, day)` triple, embodied in `YMD.leb` / `YMD.ltb`.
* JavaScript numbers are embedded as `ℚ` (the engine works with exact
  decimal fractions such as 2.08 and an epsilon of 1e-9).  The one claim
  that is genuinely about non-finite doubles (`NaN`, `Infinity`) uses the
  dedicated type `JSNum`, which models IEEE comparison semantics for the
  comparisons performed by `statusFromBalance`.
* `date-fns` helpers (`startOfMonth`, `addMonths`, `differenceInMonths`)
  are embedded for the arguments at which the source applies them: every
  call to `differenceInMonths`/`addMonths` in the engine receives
  first-of-month dates, where the result is plain month-index arithmetic.
* JavaScript `Record<string, boolean>` lookups become `YMD → Bool`,
  `Record<string, DayStatus>` becomes the function map
  `YMD → Option DayStatus` (updated key by key exactly as the source
  assigns), and `Array.sort()` on date strings becomes `List.insertionSort`
  by the lexicographic date order (stability is irrelevant here because
  equal dates are identical values).
-/

set_option maxRecDepth 2000000

namespace Ferie

/-- A calendar date `yyyy-MM-dd`.  Fields are integers; the engine never
relies on calendar validity beyond the month/day ranges of the dates it
constructs itself. -/
structure YMD where
  y : Int
  m : Int
  d : Int
deriving DecidableEq, Repr

/-- Lexicographic `≤` on dates; agrees with JS string comparison of
ISO-formatted dates. -/
def YMD.leb (a b : YMD) : Bool :=
  decide (a.y < b.y) ||
    (decide (a.y = b.y) &&
      (decide (a.m < b.m) || (decide (a.m = b.m) && decide (a.d ≤ b.d))))

/-- Lexicographic `<` on dates. -/
def YMD.ltb (a b : YMD) : Bool :=
  decide (a.y < b.y) ||
    (decide (a.y = b.y) &&
      (decide (a.m < b.m) || (decide (a.m = b.m) && decide (a.d < b.d))))

/-- The propositional form of `YMD.leb`, used as the sorting relation. -/
def dateLe (a b : YMD) : Prop := YMD.leb a b = true

instance : DecidableRel dateLe := fun _ _ => inferInstanceAs (Decidable (_ = true))

instance : IsTotal YMD dateLe where
  total a b := by
    simp only [dateLe, YMD.leb, Bool.or_eq_true, Bool.and_eq_true, decide_eq_true_eq]
    omega

instance : IsTrans YMD dateLe where
  trans a b c := by
    simp only [dateLe, YMD.leb, Bool.or_eq_true, Bool.and_eq_true, decide_eq_true_eq]
    intro h₁ h₂
    omega

instance : IsAntisymm YMD dateLe where
  antisymm a b h₁ h₂ := by
    simp only [dateLe, YMD.leb, Bool.or_eq_true, Bool.and_eq_true, decide_eq_true_eq] at h₁ h₂
    obtain ⟨ay, am, ad⟩ := a
    obtain ⟨by', bm, bd⟩ := b
    simp only at h₁ h₂
    simp only [YMD.mk.injEq]
    omega

/-- `[...dates].sort()`: lexicographic sort of date strings. -/
def sortDates (l : List YMD) : List YMD := List.insertionSort dateLe l

/-- Epsilon for floating-point balance comparisons (`EPS = 1e-9`). -/
def EPS : ℚ := 1 / 1000000000

/-- The monthly accrual increment, `2.08` vacation days. -/
def monthlyRate : ℚ := 208 / 100

/-- `startOfMonth` of date-fns: first day of the date's month. -/
def startOfMonth (a : YMD) : YMD := ⟨a.y, a.m, 1⟩

/-- Month index of a date (months since year 0); on first-of-month dates
this is the quantity that `differenceInMonths` and `addMonths` act on. -/
def mIdx (a : YMD) : Int := a.y * 12 + (a.m - 1)

/-- `addMonths` of date-fns, restricted to first-of-month dates (the only
arguments the engine passes it). -/
def addMonthsMS (a : YMD) (k : Int) : YMD :=
  let i := mIdx a + k
  ⟨i / 12, i % 12 + 1, 1⟩

/-- `differenceInMonths(endDate, startDate)` of date-fns, restricted to
first-of-month dates (the only arguments the engine passes it): the number
of full months is exactly the month-index difference. -/
def diffMonthsMS (endDate startDate : YMD) : Int := mIdx endDate - mIdx startDate

/-- `getVacationYearForDate`: vacation year N runs Sep 1 Year N → Aug 31
Year N+1; Jan–Aug belongs to the previous year's period. -/
def getVacationYearForDate (a : YMD) : Int :=
  if 9 ≤ a.m then a.y else a.y - 1

/-- Start of the obtain period of vacation year N (`${N}-09-01`). -/
def obtainStart (vacationYear : Int) : YMD := ⟨vacationYear, 9, 1⟩

/-- End marker of the obtain period (`${N+1}-09-01`, used exclusively for
month counting per the source comment, but compared inclusively by the
extra-day logic). -/
def obtainEnd (vacationYear : Int) : YMD := ⟨vacationYear + 1, 9, 1⟩

/-- `usablePeriodEnd`: Dec 31 of vacationYear+1. -/
def usablePeriodEnd (vacationYear : Int) : YMD := ⟨vacationYear + 1, 12, 31⟩

/-- `earnedInVacationYear`: days credited to a vacation year at a given
date.  Credits one `monthlyRate` per month from the later of the obtain
start and the employment-start month, to the earlier of the obtain end and
the start of the month after `atDate` (the running month counts in full). -/
def earnedInVacationYear (vacationYear : Int) (atDate employmentStartDate : YMD) : ℚ :=
  let obtainS := obtainStart vacationYear
  let obtainE := obtainEnd vacationYear
  let employmentStartMonthStart := startOfMonth employmentStartDate
  let effectiveStart :=
    if YMD.ltb employmentStartMonthStart obtainS then obtainS
    else employmentStartMonthStart
  let nextMonthStart := addMonthsMS (startOfMonth atDate) 1
  let effectiveEnd := if YMD.ltb obtainE nextMonthStart then obtainE else nextMonthStart
  if YMD.ltb effectiveEnd effectiveStart then 0
  else
    let months := diffMonthsMS effectiveEnd effectiveStart
    if months ≤ 0 then 0 else (months : ℚ) * monthlyRate

/-- The clamped month count underlying `earnedInVacationYear` (auxiliary
form with the same branch structure, used to derive the closed form). -/
def earnedMonthsInt (vacationYear : Int) (atDate employmentStartDate : YMD) : Int :=
  let obtainS := obtainStart vacationYear
  let obtainE := obtainEnd vacationYear
  let employmentStartMonthStart := startOfMonth employmentStartDate
  let effectiveStart :=
    if YMD.ltb employmentStartMonthStart obtainS then obtainS
    else employmentStartMonthStart
  let nextMonthStart := addMonthsMS (startOfMonth atDate) 1
  let effectiveEnd := if YMD.ltb obtainE nextMonthStart then obtainE else nextMonthStart
  if YMD.ltb effectiveEnd effectiveStart then 0
  else
    let months := diffMonthsMS effectiveEnd effectiveStart
    if months ≤ 0 then 0 else months

/-- `extraInVacationYear`: extra days granted to a vacation year at a given
date.  Checks the first of `extraDaysMonth` in each calendar year
overlapping the obtain period. -/
def extraInVacationYear (vacationYear : Int) (atDate employmentStartDate : YMD)
    (extraDaysMonth : Int) (extraDaysCount : ℚ) : ℚ :=
  let obtainS := obtainStart vacationYear
  let obtainE := obtainEnd vacationYear
  let effectiveStart :=
    if YMD.ltb employmentStartDate obtainS then obtainS else employmentStartDate
  List.foldl
    (fun total yr =>
      let extraDate : YMD := ⟨yr, extraDaysMonth, 1⟩
      if YMD.leb effectiveStart extraDate && YMD.leb extraDate obtainE &&
          YMD.leb extraDate atDate then
        total + extraDaysCount
      else total)
    0 [vacationYear, vacationYear + 1]

/-- The per-vacation-year ledger returned by the snapshot evaluator. -/
structure VacationYearBalance where
  year : Int
  earned : ℚ
  extra : ℚ
  used : ℚ
  transferred : ℚ
  balance : ℚ
  lost : ℚ
  expired : Bool
deriving DecidableEq, Repr

/-- The inclusive integer range `[a, a+1, …, b]` (empty when `b < a`),
embedding `for (let y = a; y <= b; y++)`. -/
def intRange (a b : Int) : List Int :=
  (List.range (b - a + 1).toNat).map (fun (i : Nat) => a + (i : Int))

/-- Snapshot allocation pass 1: walk the ledgers oldest→newest, consuming
`min(available, remaining)` from each ledger whose usable window contains
`d` and whose available balance (`balance − used`, with the `balance`
field frozen at its pre-allocation value) exceeds `EPS`; stops once
`remaining ≤ EPS`.  Returns the updated ledgers and the remainder. -/
def snapPass1 (d : YMD) : List VacationYearBalance → ℚ → List VacationYearBalance × ℚ
  | [], remaining => ([], remaining)
  | b :: rest, remaining =>
    if remaining ≤ EPS then (b :: rest, remaining)
    else
      let step :=
        if YMD.leb d (usablePeriodEnd b.year) then
          let available := b.balance - b.used
          if EPS < available then
            let consume := min available remaining
            ({ b with used := b.used + consume }, remaining - consume)
          else (b, remaining)
        else (b, remaining)
      let tail := snapPass1 d rest step.2
      (step.1 :: tail.1, tail.2)

/-- Snapshot allocation pass 2: charge the full remainder to the latest
ledger whose usable window contains `d` (borrowing).  The `Bool` reports
whether a ledger was charged. -/
def snapPass2 (d : YMD) (remaining : ℚ) :
    List VacationYearBalance → List VacationYearBalance × Bool
  | [] => ([], false)
  | b :: rest =>
    let tail := snapPass2 d remaining rest
    if tail.2 then (b :: tail.1, true)
    else if YMD.leb d (usablePeriodEnd b.year) then
      ({ b with used := b.used + remaining } :: tail.1, true)
    else (b :: tail.1, false)

/-- One consumed date in the snapshot evaluator: pass 1, then pass 2 if
more than `EPS` remains. -/
def snapAllocateDate (d : YMD) (balances : List VacationYearBalance) :
    List VacationYearBalance :=
  let r := snapPass1 d balances 1
  if EPS < r.2 then (snapPass2 d r.2 r.1).1 else r.1

/-- Step 2 of the snapshot evaluator for one ledger: recompute `balance`
from the components (`initialDaysHere` is `initialDays` for the first
ledger and `0` otherwise), rounding values within `EPS` of zero to zero. -/
def recomputeBalance (initialDaysHere : ℚ) (b : VacationYearBalance) :
    VacationYearBalance :=
  let bal := b.earned + b.extra + b.transferred - b.used + initialDaysHere
  { b with balance := if |bal| < EPS then 0 else bal }

/-- Step 2 of the snapshot evaluator: recompute every `balance` field
(`initialDays` goes to the first ledger only). -/
def recomputeBalances (initialDays : ℚ) : List VacationYearBalance → List VacationYearBalance
  | [] => []
  | b :: rest => recomputeBalance initialDays b :: rest.map (recomputeBalance 0)

/-- Step 3 of the snapshot evaluator: walk adjacent pairs oldest→newest;
when an expired ledger has positive balance, move `min(balance,
maxTransferDays)` into the successor's `transferred`/`balance` and record
the excess as `lost`. -/
def processTransfersAux (maxTransferDays : ℚ) (b : VacationYearBalance) :
    List VacationYearBalance → List VacationYearBalance
  | [] => [b]
  | next :: rest =>
    if b.expired && decide (0 < b.balance) then
      let transferable := min b.balance maxTransferDays
      { b with lost := max 0 (b.balance - maxTransferDays) } ::
        processTransfersAux maxTransferDays
          { next with transferred := transferable, balance := next.balance + transferable }
          rest
    else b :: processTransfersAux maxTransferDays next rest

/-- Entry point of step 3 (the last ledger is never the source of a
transfer, matching the loop bound `i < balances.length - 1`). -/
def processTransfers (maxTransferDays : ℚ) : List VacationYearBalance → List VacationYearBalance
  | [] => []
  | b :: rest => processTransfersAux maxTransferDays b rest

/-- `getVacationYearBalances`: the snapshot evaluator.  Builds one ledger
per vacation year from the employment-start period to the period of
`atDate`, allocates every consumed non-holiday date `≤ atDate`
earliest-first, recomputes balances, and processes expiry transfers. -/
def getVacationYearBalances (startDate : YMD) (initialDays : ℚ) (extraDaysMonth : Int)
    (extraDaysCount : ℚ) (selectedDates : List YMD) (enabledHolidays : YMD → Bool)
    (atDate : YMD) (maxTransferDays : ℚ) : List VacationYearBalance :=
  let startVacationYear := getVacationYearForDate startDate
  let endVacationYear := getVacationYearForDate atDate
  let vacationYears := intRange startVacationYear endVacationYear
  let balances := vacationYears.map (fun year =>
    let earned := earnedInVacationYear year atDate startDate
    let extra := extraInVacationYear year atDate startDate extraDaysMonth extraDaysCount
    let expired := YMD.ltb (usablePeriodEnd year) atDate
    ({ year := year, earned := earned, extra := extra, used := 0, transferred := 0,
       balance := earned + extra, lost := 0, expired := expired } : VacationYearBalance))
  let balances :=
    match balances with
    | [] => []
    | b :: rest => { b with balance := b.balance + initialDays } :: rest
  let usedDates := sortDates
    (selectedDates.filter (fun d => !enabledHolidays d && YMD.leb d atDate))
  let balances := usedDates.foldl (fun bs d => snapAllocateDate d bs) balances
  let balances := recomputeBalances initialDays balances
  processTransfers maxTransferDays balances

/-- The day statuses produced by the engine (`DayStatus` of `types/index.ts`
plus `before-start`, which the engine also assigns). -/
inductive DayStatus where
  | normal
  | weekend
  | holiday
  | selectedOk
  | selectedWarning
  | selectedOverdrawn
  | beforeStart
deriving DecidableEq, Repr

/-- Per-vacation-year running state of the batch evaluator
(`VacationYearState`). -/
structure VacationYearState where
  earned : ℚ
  extra : ℚ
  used : ℚ
  transferred : ℚ
  expired : Bool
  usableEnd : YMD
deriving DecidableEq, Repr

/-- The three timeline event kinds. -/
inductive EventKind where
  | earn
  | extra
  | expiry
deriving DecidableEq, Repr

/-- A timeline event (`TimelineEvent`).  `priority` 0 = earn/extra,
1 = expiry. -/
structure TimelineEvent where
  date : YMD
  priority : Int
  yearIndex : Nat
  kind : EventKind
deriving DecidableEq, Repr

/-- The sort order of the timeline: date ascending, then priority
(earn/extra before expiry at the same date). -/
def eventLe (a b : TimelineEvent) : Prop :=
  YMD.ltb a.date b.date = true ∨ (a.date = b.date ∧ a.priority ≤ b.priority)

instance : DecidableRel eventLe := fun _ _ => by
  unfold eventLe; infer_instance

instance : IsTotal TimelineEvent eventLe where
  total a b := by
    simp only [eventLe, YMD.ltb, Bool.or_eq_true, Bool.and_eq_true, decide_eq_true_eq]
    obtain ⟨⟨ay, am, ad⟩, ap, ai, ak⟩ := a
    obtain ⟨⟨by', bm, bd⟩, bp, bi, bk⟩ := b
    simp only [YMD.mk.injEq]
    omega

instance : IsTrans TimelineEvent eventLe where
  trans a b c hab hbc := by
    simp only [eventLe, YMD.ltb, Bool.or_eq_true, Bool.and_eq_true,
      decide_eq_true_eq] at hab hbc ⊢
    obtain ⟨⟨ay, am, ad⟩, ap, ai, ak⟩ := a
    obtain ⟨⟨by', bm, bd⟩, bp, bi, bk⟩ := b
    obtain ⟨⟨cy, cm, cd⟩, cp, ci, ck⟩ := c
    simp only [YMD.mk.injEq] at hab hbc ⊢
    omega

/-- `events.sort(...)` of the timeline builder: a stable sort by
`(date, priority)` (`List.insertionSort` is stable, like JS `sort`). -/
def sortEvents (l : List TimelineEvent) : List TimelineEvent :=
  List.insertionSort eventLe l

/-- `buildTimelineEvents`: per vacation year, one earn event per month of
the effective earning range, extra events for each overlapping calendar
year whose grant date lies in the (inclusively compared) obtain window,
and one expiry event at Jan 1 of year+2; all sorted by (date, priority). -/
def buildTimelineEvents (firstVacationYear : Int) (vacationYearCount : Nat)
    (employmentMonthStart startDate : YMD) (extraDaysMonth : Int) : List TimelineEvent :=
  sortEvents ((List.range vacationYearCount).flatMap (fun i =>
    let year := firstVacationYear + (i : Int)
    let obtainS := obtainStart year
    let obtainEndStr := obtainEnd year
    let effectiveEarnStart :=
      if YMD.ltb employmentMonthStart obtainS then obtainS else employmentMonthStart
    let monthCount := diffMonthsMS obtainEndStr effectiveEarnStart
    let earnEvents := (List.range monthCount.toNat).map (fun (m : Nat) =>
      ({ date := addMonthsMS effectiveEarnStart (m : Int), priority := 0,
         yearIndex := i, kind := .earn } : TimelineEvent))
    let effectiveExtraStart :=
      if YMD.ltb startDate obtainS then obtainS else startDate
    let extraEvents := [year, year + 1].filterMap (fun calendarYear =>
      let extraDate : YMD := ⟨calendarYear, extraDaysMonth, 1⟩
      if YMD.leb effectiveExtraStart extraDate && YMD.leb extraDate obtainEndStr then
        some ({ date := extraDate, priority := 0, yearIndex := i, kind := .extra }
          : TimelineEvent)
      else none)
    earnEvents ++ extraEvents ++
      [{ date := ⟨year + 2, 1, 1⟩, priority := 1, yearIndex := i, kind := .expiry }]))

/-- `applyEvent`: apply one timeline event to the vacation-year states.
An earn event credits `monthlyRate`, an extra event credits
`extraDaysCount`, an expiry event marks the year expired and transfers
`min(balance, maxTransferDays)` to the successor when the final balance is
positive and a successor exists. -/
def applyEvent (event : TimelineEvent) (vacationYears : List VacationYearState)
    (extraDaysCount initialDays maxTransferDays : ℚ) : List VacationYearState :=
  match vacationYears.get? event.yearIndex with
  | none => vacationYears
  | some target =>
    match event.kind with
    | .earn =>
      vacationYears.set event.yearIndex { target with earned := target.earned + monthlyRate }
    | .extra =>
      vacationYears.set event.yearIndex { target with extra := target.extra + extraDaysCount }
    | .expiry =>
      let balance := target.earned + target.extra + target.transferred - target.used +
        (if event.yearIndex = 0 then initialDays else 0)
      let ys := vacationYears.set event.yearIndex { target with expired := true }
      if 0 < balance then
        match ys.get? (event.yearIndex + 1) with
        | none => ys
        | some succ =>
          ys.set (event.yearIndex + 1)
            { succ with transferred := min balance maxTransferDays }
      else ys

/-- The current balance of a batch vacation-year state (`initHere` is
`initialDays` when the state is the first of the list, else `0`). -/
def stateBalance (initHere : ℚ) (vy : VacationYearState) : ℚ :=
  vy.earned + vy.extra + vy.transferred - vy.used + initHere

/-- The body of the pass-1 loop of `allocateDay` for one year: consume
`min(balance, remaining)` when the date is usable and the balance exceeds
`EPS`. -/
def allocStep (dateStr : YMD) (initHere remaining : ℚ) (vy : VacationYearState) :
    VacationYearState × ℚ :=
  if YMD.leb dateStr vy.usableEnd then
    let balance := stateBalance initHere vy
    if EPS < balance then
      let consume := min balance remaining
      ({ vy with used := vy.used + consume }, remaining - consume)
    else (vy, remaining)
  else (vy, remaining)

/-- Batch allocation pass 1 (`allocateDay`, first loop): walk the years
oldest→newest, consuming `min(balance, remaining)` from each year whose
usable window contains the date and whose current balance exceeds `EPS`;
stops once `remaining ≤ EPS`.  `initHere` is `initialDays` for the head
year of the full list and `0` in recursive calls (the `i === 0` check). -/
def allocPass1 (dateStr : YMD) :
    List VacationYearState → ℚ → ℚ → List VacationYearState × ℚ
  | [], remaining, _ => ([], remaining)
  | vy :: rest, remaining, initHere =>
    if remaining ≤ EPS then (vy :: rest, remaining)
    else
      let step := allocStep dateStr initHere remaining vy
      let tail := allocPass1 dateStr rest step.2 0
      (step.1 :: tail.1, tail.2)

/-- Batch allocation pass 2 (`allocateDay`, second loop): charge the full
remainder to the latest year whose usable window contains the date. -/
def allocPass2 (dateStr : YMD) (remaining : ℚ) :
    List VacationYearState → List VacationYearState × Bool
  | [] => ([], false)
  | vy :: rest =>
    let tail := allocPass2 dateStr remaining rest
    if tail.2 then (vy :: tail.1, true)
    else if YMD.leb dateStr vy.usableEnd then
      ({ vy with used := vy.used + remaining } :: tail.1, true)
    else (vy :: tail.1, false)

/-- `allocateDay`: allocate one used day across the vacation years
(waterfall pass 1, then borrowing pass 2 if more than `EPS` remains). -/
def allocateDay (dateStr : YMD) (vacationYears : List VacationYearState)
    (initialDays : ℚ) : List VacationYearState :=
  let r := allocPass1 dateStr vacationYears 1 initialDays
  if EPS < r.2 then (allocPass2 dateStr r.2 r.1).1 else r.1

/-- Recursive core of `computeTotalActiveBalance` (`initHere` is
`initialDays` at the head of the full list, `0` below). -/
def activeBalanceSum : List VacationYearState → ℚ → ℚ
  | [], _ => 0
  | vy :: rest, initHere =>
    (if vy.expired then 0
     else vy.earned + vy.extra + vy.transferred - vy.used + initHere) +
      activeBalanceSum rest 0

/-- `computeTotalActiveBalance`: sum of `earned + extra + transferred −
used` over the non-expired years, plus `initialDays` when the first year
is non-expired. -/
def computeTotalActiveBalance (vacationYears : List VacationYearState)
    (initialDays : ℚ) : ℚ :=
  activeBalanceSum vacationYears initialDays

/-- `statusFromBalance` over exact rationals. -/
def statusFromBalance (balance advanceDays : ℚ) : DayStatus :=
  if 0 ≤ balance then .selectedOk
  else if -advanceDays ≤ balance then .selectedWarning
  else .selectedOverdrawn

/-- A JavaScript double for the purposes of `statusFromBalance`: either a
finite rational or one of the non-finite values. -/
inductive JSNum where
  | nan
  | posInf
  | negInf
  | fin (q : ℚ)
deriving DecidableEq, Repr

/-- JS unary minus on doubles. -/
def JSNum.negJS : JSNum → JSNum
  | nan => nan
  | posInf => negInf
  | negInf => posInf
  | fin q => fin (-q)

/-- JS `>=` on doubles: any comparison involving NaN is false; infinities
compare as extreme values (`Infinity >= Infinity` is true). -/
def JSNum.geJS : JSNum → JSNum → Bool
  | nan, _ => false
  | _, nan => false
  | posInf, _ => true
  | _, posInf => false
  | _, negInf => true
  | negInf, _ => false
  | fin a, fin b => decide (b ≤ a)

/-- `statusFromBalance` with IEEE comparison semantics: the literal
`balance >= 0` / `balance >= -advanceDays` tests of the source. -/
def statusFromBalanceJS (balance advanceDays : JSNum) : DayStatus :=
  if JSNum.geJS balance (.fin 0) then .selectedOk
  else if JSNum.geJS balance (JSNum.negJS advanceDays) then .selectedWarning
  else .selectedOverdrawn

/-- Day of week as JS `Date.prototype.getDay()` (0 = Sunday … 6 =
Saturday), via Zeller's congruence on the proleptic Gregorian calendar. -/
def jsDayOfWeek (a : YMD) : Int :=
  let yy := if a.m ≤ 2 then a.y - 1 else a.y
  let mm := if a.m ≤ 2 then a.m + 12 else a.m
  let k := yy % 100
  let j := yy / 100
  let h := (a.d + 13 * (mm + 1) / 5 + k + k / 4 + j / 4 + 5 * j) % 7
  (h + 6) % 7

/-- `isWeekend` of date-fns: Saturday or Sunday. -/
def isWeekend (a : YMD) : Bool :=
  decide (jsDayOfWeek a = 0) || decide (jsDayOfWeek a = 6)

/-- `result[dateStr] = v` on a JS object used as a string-keyed map. -/
def updStatus (r : YMD → Option DayStatus) (k : YMD) (v : DayStatus) :
    YMD → Option DayStatus :=
  fun x => if x = k then some v else r x

/-- The loop body of `classifyStaticDates` for one date. -/
def classifyStep (startDate : YMD) (enabledHolidays selectedSet : YMD → Bool)
    (result : YMD → Option DayStatus) (dateStr : YMD) : YMD → Option DayStatus :=
  if YMD.ltb dateStr startDate then updStatus result dateStr .beforeStart
  else if enabledHolidays dateStr then updStatus result dateStr .holiday
  else if !selectedSet dateStr then
    updStatus result dateStr (if isWeekend dateStr then .weekend else .normal)
  else result

/-- The static classification a single date receives (`none` when the date
is a selected non-holiday date at or after the start date, which the loop
skips). -/
def staticStatus (startDate : YMD) (enabledHolidays selectedSet : YMD → Bool)
    (dateStr : YMD) : Option DayStatus :=
  if YMD.ltb dateStr startDate then some .beforeStart
  else if enabledHolidays dateStr then some .holiday
  else if !selectedSet dateStr then
    some (if isWeekend dateStr then .weekend else .normal)
  else none

/-- `classifyStaticDates`: before-start, holiday, weekend and normal
classifications; selected non-holiday dates at or after the start date are
skipped. -/
def classifyStaticDates (dates : List YMD) (startDate : YMD)
    (enabledHolidays : YMD → Bool) (selectedSet : YMD → Bool) :
    YMD → Option DayStatus :=
  dates.foldl (classifyStep startDate enabledHolidays selectedSet) (fun _ => none)

/-- Apply every pending timeline event with date `≤ d`; returns the
un-applied remainder of the (sorted) event list and the updated states. -/
def applyEventsUpTo (d : YMD) (extraDaysCount initialDays maxTransferDays : ℚ) :
    List TimelineEvent → List VacationYearState →
      List TimelineEvent × List VacationYearState
  | [], ys => ([], ys)
  | e :: rest, ys =>
    if YMD.leb e.date d then
      applyEventsUpTo d extraDaysCount initialDays maxTransferDays rest
        (applyEvent e ys extraDaysCount initialDays maxTransferDays)
    else (e :: rest, ys)

/-- The merge-walk of `computeAllStatuses`: for each selected date in
sorted order, apply pending events, allocate the day, and classify the
date from the total active balance unless it already has a status. -/
def statusWalk (extraDaysCount initialDays maxTransferDays advanceDays : ℚ) :
    List YMD → List TimelineEvent → List VacationYearState →
      (YMD → Option DayStatus) → (YMD → Option DayStatus)
  | [], _, _, result => result
  | dateStr :: ds, events, ys, result =>
    let st := applyEventsUpTo dateStr extraDaysCount initialDays maxTransferDays events ys
    let ys2 := allocateDay dateStr st.2 initialDays
    let result2 :=
      if (result dateStr).isSome then result
      else
        updStatus result dateStr
          (statusFromBalance (computeTotalActiveBalance ys2 initialDays) advanceDays)
    statusWalk extraDaysCount initialDays maxTransferDays advanceDays ds st.1 ys2 result2

/-- `[...selectedDates].filter(d => !enabledHolidays[d]).sort()`: the
consumption list fed to the merge-walk (filtered only for holidays). -/
def sortedNonHolidaySelected (selectedDates : List YMD)
    (enabledHolidays : YMD → Bool) : List YMD :=
  sortDates (selectedDates.filter (fun d => !enabledHolidays d))

/-- The zero-initialized per-year states of the batch evaluator. -/
def initialVacationYearStates (firstVacationYear : Int) (vacationYearCount : Nat) :
    List VacationYearState :=
  (List.range vacationYearCount).map (fun (i : Nat) =>
    { earned := 0, extra := 0, used := 0, transferred := 0, expired := false,
      usableEnd := ⟨firstVacationYear + (i : Int) + 1, 12, 31⟩ })

/-- `computeAllStatuses`: the batch evaluator.  Static classification,
then a single merge-walk of the sorted consumption dates against the
sorted timeline. -/
def computeAllStatuses (dates selectedDates : List YMD)
    (enabledHolidays : YMD → Bool) (startDate : YMD) (initialDays : ℚ)
    (extraDaysMonth : Int) (extraDaysCount advanceDays maxTransferDays : ℚ) :
    YMD → Option DayStatus :=
  let selectedSet := fun x => decide (x ∈ selectedDates)
  let result := classifyStaticDates dates startDate enabledHolidays selectedSet
  let sortedSelected := sortedNonHolidaySelected selectedDates enabledHolidays
  if sortedSelected.isEmpty then result
  else
    let firstVacationYear := getVacationYearForDate startDate
    let lastVacationYear := getVacationYearForDate (sortedSelected.getLastD ⟨0, 0, 0⟩)
    let vacationYearCount := (lastVacationYear - firstVacationYear + 1).toNat
    let employmentMonthStart := startOfMonth startDate
    let events := buildTimelineEvents firstVacationYear vacationYearCount
      employmentMonthStart startDate extraDaysMonth
    let vacationYears := initialVacationYearStates firstVacationYear vacationYearCount
    statusWalk extraDaysCount initialDays maxTransferDays advanceDays
      sortedSelected events vacationYears result

/-- State evolution of the merge-walk without the result map: fold the
consumption dates, applying pending events then allocating each date. -/
def runConsume (extraDaysCount initialDays maxTransferDays : ℚ)
    (ds : List YMD) (st : List TimelineEvent × List VacationYearState) :
    List TimelineEvent × List VacationYearState :=
  ds.foldl
    (fun st d =>
      let st1 := applyEventsUpTo d extraDaysCount initialDays maxTransferDays st.1 st.2
      (st1.1, allocateDay d st1.2 initialDays))
    st

/-- The timeline and initial states that `computeAllStatuses` builds for a
given configuration and selection. -/
def batchEnv (selectedDates : List YMD) (enabledHolidays : YMD → Bool)
    (startDate : YMD) (extraDaysMonth : Int) :
    List TimelineEvent × List VacationYearState :=
  let sortedSelected := sortedNonHolidaySelected selectedDates enabledHolidays
  let firstVacationYear := getVacationYearForDate startDate
  let lastVacationYear := getVacationYearForDate (sortedSelected.getLastD ⟨0, 0, 0⟩)
  let vacationYearCount := (lastVacationYear - firstVacationYear + 1).toNat
  (buildTimelineEvents firstVacationYear vacationYearCount (startOfMonth startDate)
      startDate extraDaysMonth,
    initialVacationYearStates firstVacationYear vacationYearCount)

/-- The ledger state of the merge-walk immediately after allocating `upTo`,
starting from an arbitrary environment: process all consumption dates
strictly before `upTo`, then apply the pending events with date `≤ upTo`,
then allocate `upTo`. -/
def walkStateAt (extraDaysCount initialDays maxTransferDays : ℚ) (l : List YMD)
    (env : List TimelineEvent × List VacationYearState) (upTo : YMD) :
    List VacationYearState :=
  let pre := runConsume extraDaysCount initialDays maxTransferDays
    (l.takeWhile (fun d => YMD.ltb d upTo)) env
  let st := applyEventsUpTo upTo extraDaysCount initialDays maxTransferDays pre.1 pre.2
  allocateDay upTo st.2 initialDays

/-- The batch evaluator's ledger state immediately after allocating the
consumed date `upTo`. -/
def batchStateAt (selectedDates : List YMD) (enabledHolidays : YMD → Bool)
    (startDate : YMD) (initialDays : ℚ) (extraDaysMonth : Int)
    (extraDaysCount maxTransferDays : ℚ) (upTo : YMD) : List VacationYearState :=
  walkStateAt extraDaysCount initialDays maxTransferDays
    (sortedNonHolidaySelected selectedDates enabledHolidays)
    (batchEnv selectedDates enabledHolidays startDate extraDaysMonth) upTo

/-- The total balance derived from a snapshot-evaluator result as the
specification describes it: sum of `earned + extra + transferred − used`
over the non-expired ledgers, plus the initial grant when the earliest
ledger is non-expired. -/
def snapActiveTotal : List VacationYearBalance → ℚ → ℚ
  | [], _ => 0
  | b :: rest, initHere =>
    (if b.expired then 0
     else b.earned + b.extra + b.transferred - b.used + initHere) +
      snapActiveTotal rest 0

/-- Default vacation-year state used with `List.getD` in index-wise
statements (never semantically relevant: all indices are in bounds). -/
def dfltVY : VacationYearState :=
  { earned := 0, extra := 0, used := 0, transferred := 0, expired := false,
    usableEnd := ⟨0, 0, 0⟩ }

/-- The initial-grant contribution at list index `i` (`initialDays` at the
first index, `0` elsewhere: the `i === 0` checks of the source). -/
def initAt (initialDays : ℚ) (i : Nat) : ℚ := if i = 0 then initialDays else 0

/-- Default snapshot ledger used with `List.getD` in index-wise statements
(never semantically relevant: all indices are in bounds). -/
def dfltB : VacationYearBalance :=
  { year := 0, earned := 0, extra := 0, used := 0, transferred := 0, balance := 0,
    lost := 0, expired := false }

/-- Two snapshot ledgers agree on every field the transfer step never
writes (`year`, `earned`, `extra`, `used`, `expired`). -/
def sameCore (x y : VacationYearBalance) : Prop :=
  x.year = y.year ∧ x.earned = y.earned ∧ x.extra = y.extra ∧
    x.used = y.used ∧ x.expired = y.expired

/-- Total `used` across a list of batch vacation-year states. -/
def sumUsed : List VacationYearState → ℚ
  | [] => 0
  | vy :: rest => vy.used + sumUsed rest

/-- Sum of the accrual components (`earned + extra + transferred`) of the
batch states. -/
def sumAccrued : List VacationYearState → ℚ
  | [] => 0
  | vy :: rest => vy.earned + vy.extra + vy.transferred + sumAccrued rest

/-- Total `used` across the snapshot ledgers. -/
def snapSumUsed : List VacationYearBalance → ℚ
  | [] => 0
  | b :: rest => b.used + snapSumUsed rest

/-- Sum of the accrual components (`earned + extra + transferred`) of the
snapshot ledgers. -/
def snapSumAccrued : List VacationYearBalance → ℚ
  | [] => 0
  | b :: rest => b.earned + b.extra + b.transferred + snapSumAccrued rest

/-- Multiples of `1/25 = 0.04`: the granularity of all engine quantities
when the configured day counts are multiples of `0.04` (the accrual rate
`2.08 = 52/25` is one).  Such values can never land strictly between `0`
and `EPS`, which rules out the sub-epsilon allocation drop. -/
def Q25 (r : ℚ) : Prop := ∃ k : ℤ, r = (k : ℚ) / 25

/-- The event is an earn event of ledger `i`. -/
def isEarnAt (i : Nat) (e : TimelineEvent) : Bool :=
  decide (e.yearIndex = i) && decide (e.kind = EventKind.earn)

/-- The event is an extra-grant event of ledger `i`. -/
def isExtraAt (i : Nat) (e : TimelineEvent) : Bool :=
  decide (e.yearIndex = i) && decide (e.kind = EventKind.extra)

/-- Fold a list of timeline events over the batch states. -/
def applyEvents (extraDaysCount initialDays maxTransferDays : ℚ)
    (es : List TimelineEvent) (ys : List VacationYearState) : List VacationYearState :=
  es.foldl (fun ys e => applyEvent e ys extraDaysCount initialDays maxTransferDays) ys

/-- The head-adjust step of the snapshot evaluator: add the initial grant
to the first ledger's starting balance (the inline `match` of
`getVacationYearBalances`). -/
def addInitialToFirst (initialDays : ℚ) : List VacationYearBalance → List VacationYearBalance
  | [] => []
  | b :: rest => { b with balance := b.balance + initialDays } :: rest

/-- All accumulating fields of every batch state are multiples of `0.04`. -/
def QFields (ys : List VacationYearState) : Prop :=
  ∀ i, i < ys.length →
    Q25 (ys.getD i dfltVY).earned ∧ Q25 (ys.getD i dfltVY).extra ∧
      Q25 (ys.getD i dfltVY).transferred ∧ Q25 (ys.getD i dfltVY).used

/-! ## Helper theorems -/

theorem dateLe_iff {a b : YMD} :
    dateLe a b ↔ (a.y < b.y ∨ (a.y = b.y ∧ (a.m < b.m ∨ (a.m = b.m ∧ a.d ≤ b.d)))) := by
  simp [dateLe, YMD.leb]

theorem ltb_iff {a b : YMD} :
    YMD.ltb a b = true ↔
      (a.y < b.y ∨ (a.y = b.y ∧ (a.m < b.m ∨ (a.m = b.m ∧ a.d < b.d)))) := by
  simp [YMD.ltb]

theorem leb_iff {a b : YMD} : YMD.leb a b = true ↔ dateLe a b := Iff.rfl

theorem ltb_iff_not_leb {a b : YMD} : YMD.ltb a b = true ↔ ¬ dateLe b a := by
  rw [ltb_iff, dateLe_iff]
  obtain ⟨ay, am, ad⟩ := a
  obtain ⟨by', bm, bd⟩ := b
  simp only
  omega

theorem leb_iff_not_ltb {a b : YMD} : YMD.leb a b = true ↔ ¬ (YMD.ltb b a = true) := by
  rw [ltb_iff, leb_iff, dateLe_iff]
  obtain ⟨ay, am, ad⟩ := a
  obtain ⟨by', bm, bd⟩ := b
  simp only
  omega

theorem dateLe_refl (a : YMD) : dateLe a a := by rw [dateLe_iff]; omega

theorem dateLe_trans {a b c : YMD} (h₁ : dateLe a b) (h₂ : dateLe b c) : dateLe a c :=
  Trans.trans h₁ h₂

theorem sortDates_perm (l : List YMD) : (sortDates l).Perm l :=
  List.perm_insertionSort dateLe l

theorem sortDates_sorted (l : List YMD) : List.Sorted dateLe (sortDates l) :=
  List.sorted_insertionSort dateLe l

theorem sortDates_eq_of_perm {l₁ l₂ : List YMD} (h : l₁.Perm l₂) :
    sortDates l₁ = sortDates l₂ :=
  List.eq_of_perm_of_sorted ((sortDates_perm l₁).trans (h.trans (sortDates_perm l₂).symm))
    (sortDates_sorted l₁) (sortDates_sorted l₂)

/-! ### Allocation lemmas (`allocateDay`) -/

theorem allocStep_cases (d : YMD) (ih rem : ℚ) (vy : VacationYearState) :
    (allocStep d ih rem vy = (vy, rem) ∧
      (YMD.leb d vy.usableEnd = false ∨ stateBalance ih vy ≤ EPS)) ∨
    (YMD.leb d vy.usableEnd = true ∧ EPS < stateBalance ih vy ∧
      allocStep d ih rem vy =
        ({ vy with used := vy.used + min (stateBalance ih vy) rem },
          rem - min (stateBalance ih vy) rem)) := by
  unfold allocStep
  by_cases h1 : YMD.leb d vy.usableEnd = true
  · by_cases h2 : EPS < stateBalance ih vy
    · right; exact ⟨h1, h2, by simp [h1, h2]⟩
    · left; exact ⟨by simp [h1, h2], Or.inr (le_of_not_lt h2)⟩
  · left
    refine ⟨?_, Or.inl (Bool.not_eq_true _ ▸ h1)⟩
    simp [h1]

theorem allocPass1_length (d : YMD) :
    ∀ (ys : List VacationYearState) (rem ih : ℚ),
      (allocPass1 d ys rem ih).1.length = ys.length := by
  intro ys
  induction ys with
  | nil => intro rem ih; simp [allocPass1]
  | cons vy rest ihl =>
    intro rem ih
    by_cases hre : rem ≤ EPS
    · simp [allocPass1, hre]
    · simp [allocPass1, hre, ihl]

theorem EPS_pos : (0 : ℚ) < EPS := by norm_num [EPS]

theorem allocPass1_rem_le (d : YMD) :
    ∀ (ys : List VacationYearState) (rem ih : ℚ),
      (allocPass1 d ys rem ih).2 ≤ rem := by
  intro ys
  induction ys with
  | nil => intro rem ih; simp [allocPass1]
  | cons vy rest ihl =>
    intro rem ih
    by_cases hre : rem ≤ EPS
    · simp [allocPass1, hre]
    · have hrem : EPS < rem := lt_of_not_le hre
      simp only [allocPass1, if_neg hre]
      rcases allocStep_cases d ih rem vy with ⟨heq, _⟩ | ⟨_, h2, heq⟩
      · rw [heq]; exact ihl rem 0
      · rw [heq]
        have hmin : 0 ≤ min (stateBalance ih vy) rem :=
          le_min (le_trans EPS_pos.le h2.le) (le_trans EPS_pos.le hrem.le)
        calc (allocPass1 d rest (rem - min (stateBalance ih vy) rem) 0).2
            ≤ rem - min (stateBalance ih vy) rem := ihl _ 0
          _ ≤ rem := by linarith

theorem allocPass1_rem_nonneg (d : YMD) :
    ∀ (ys : List VacationYearState) (rem ih : ℚ),
      0 ≤ rem → 0 ≤ (allocPass1 d ys rem ih).2 := by
  intro ys
  induction ys with
  | nil => intro rem ih h; simpa [allocPass1] using h
  | cons vy rest ihl =>
    intro rem ih h
    by_cases hre : rem ≤ EPS
    · simpa [allocPass1, hre] using h
    · simp only [allocPass1, if_neg hre]
      rcases allocStep_cases d ih rem vy with ⟨heq, _⟩ | ⟨_, h2, heq⟩
      · rw [heq]; exact ihl rem 0 h
      · rw [heq]
        exact ihl _ 0 (by simp only [sub_nonneg]; exact min_le_right _ _)

theorem stateBalance_addUsed (ih c : ℚ) (vy : VacationYearState) :
    stateBalance ih { vy with used := vy.used + c } = stateBalance ih vy - c := by
  simp only [stateBalance]
  ring

theorem allocPass1_stop (d : YMD) (ys : List VacationYearState) (rem ih : ℚ)
    (h : rem ≤ EPS) : allocPass1 d ys rem ih = (ys, rem) := by
  cases ys with
  | nil => simp [allocPass1]
  | cons vy rest => simp [allocPass1, h]

theorem allocPass1_elem (d : YMD) :
    ∀ (ys : List VacationYearState) (rem ih : ℚ) (i : Nat), i < ys.length →
      ((allocPass1 d ys rem ih).1.getD i dfltVY = ys.getD i dfltVY) ∨
      (YMD.leb d ((ys.getD i dfltVY).usableEnd) = true ∧
        EPS < stateBalance (if i = 0 then ih else 0) (ys.getD i dfltVY) ∧
        ∃ c, 0 < c ∧ c ≤ stateBalance (if i = 0 then ih else 0) (ys.getD i dfltVY) ∧
          (allocPass1 d ys rem ih).1.getD i dfltVY =
            { ys.getD i dfltVY with used := (ys.getD i dfltVY).used + c }) := by
  intro ys
  induction ys with
  | nil => intro rem ih i hi; simp at hi
  | cons vy rest ihl =>
    intro rem ih i hi
    by_cases hre : rem ≤ EPS
    · left; rw [allocPass1_stop d _ rem ih hre]
    · have hrem : EPS < rem := lt_of_not_le hre
      simp only [allocPass1, if_neg hre]
      cases i with
      | zero =>
        rcases allocStep_cases d ih rem vy with ⟨heq, _⟩ | ⟨h1, h2, heq⟩
        · left; rw [heq]; simp
        · right
          simp only [List.getD_cons_zero, if_pos rfl]
          refine ⟨h1, h2, min (stateBalance ih vy) rem, ?_, min_le_left _ _, ?_⟩
          · exact lt_min (lt_trans EPS_pos h2) (lt_trans EPS_pos hrem)
          · rw [heq]
      | succ n =>
        have hn : n < rest.length := by simpa using hi
        rcases allocStep_cases d ih rem vy with ⟨heq, _⟩ | ⟨h1, h2, heq⟩
        · rw [heq]
          simp only [List.getD_cons_succ]
          have h := ihl rem 0 n hn
          simpa using h
        · rw [heq]
          simp only [List.getD_cons_succ]
          have h := ihl (rem - min (stateBalance ih vy) rem) 0 n hn
          simpa using h

theorem allocPass1_usableEnd (d : YMD) (ys : List VacationYearState) (rem ih : ℚ)
    (i : Nat) (hi : i < ys.length) :
    ((allocPass1 d ys rem ih).1.getD i dfltVY).usableEnd =
      (ys.getD i dfltVY).usableEnd := by
  rcases allocPass1_elem d ys rem ih i hi with h | ⟨_, _, c, _, _, h⟩ <;> rw [h]

theorem allocPass1_allvisited (d : YMD) :
    ∀ (ys : List VacationYearState) (rem ih : ℚ),
      EPS < (allocPass1 d ys rem ih).2 →
      ∀ i, i < ys.length → YMD.leb d ((ys.getD i dfltVY).usableEnd) = true →
        stateBalance (if i = 0 then ih else 0)
          ((allocPass1 d ys rem ih).1.getD i dfltVY) ≤ EPS := by
  intro ys
  induction ys with
  | nil => intro rem ih hr i hi; simp at hi
  | cons vy rest ihl =>
    intro rem ih hr i hi hel
    by_cases hre : rem ≤ EPS
    · rw [allocPass1_stop d _ rem ih hre] at hr
      exact absurd hre (not_le_of_lt hr)
    · have hrem : EPS < rem := lt_of_not_le hre
      simp only [allocPass1, if_neg hre] at hr ⊢
      cases i with
      | zero =>
        simp only [List.getD_cons_zero] at hel ⊢
        rcases allocStep_cases d ih rem vy with ⟨heq, hwhy⟩ | ⟨h1, h2, heq⟩
        · rw [heq]
          rcases hwhy with h | h
          · rw [hel] at h; cases h
          · simpa using h
        · rw [heq] at hr ⊢
          dsimp only at hr ⊢
          rcases le_total (stateBalance ih vy) rem with hmin | hmin
          · simp only [if_true]
            rw [min_eq_left hmin, stateBalance_addUsed]
            linarith [EPS_pos]
          · exfalso
            have hz : rem - min (stateBalance ih vy) rem = 0 := by
              rw [min_eq_right hmin]; ring
            simp only [hz] at hr
            rw [allocPass1_stop d rest 0 0 EPS_pos.le] at hr
            exact absurd hr (not_lt_of_le EPS_pos.le)
      | succ n =>
        have hn : n < rest.length := by simpa using hi
        simp only [List.getD_cons_succ] at hel ⊢
        rcases allocStep_cases d ih rem vy with ⟨heq, _⟩ | ⟨h1, h2, heq⟩ <;>
          · rw [heq] at hr ⊢
            have h := ihl _ 0 hr n hn hel
            simpa using h

theorem allocPass1_order (d : YMD) :
    ∀ (ys : List VacationYearState) (rem ih : ℚ) (j : Nat), j < ys.length →
      ((allocPass1 d ys rem ih).1.getD j dfltVY).used ≠ (ys.getD j dfltVY).used →
      ∀ i, i < j → YMD.leb d ((ys.getD i dfltVY).usableEnd) = true →
        stateBalance (if i = 0 then ih else 0)
          ((allocPass1 d ys rem ih).1.getD i dfltVY) ≤ EPS := by
  intro ys
  induction ys with
  | nil => intro rem ih j hj; simp at hj
  | cons vy rest ihl =>
    intro rem ih j hj hju i hij hel
    by_cases hre : rem ≤ EPS
    · rw [allocPass1_stop d _ rem ih hre] at hju
      exact absurd rfl hju
    · have hrem : EPS < rem := lt_of_not_le hre
      simp only [allocPass1, if_neg hre] at hju ⊢
      cases j with
      | zero => exact absurd hij (Nat.not_lt_zero i)
      | succ n =>
        have hn : n < rest.length := by simpa using hj
        cases i with
        | zero =>
          simp only [List.getD_cons_zero] at hel ⊢
          rcases allocStep_cases d ih rem vy with ⟨heq, hwhy⟩ | ⟨h1, h2, heq⟩
          · rw [heq]
            rcases hwhy with h | h
            · rw [hel] at h; cases h
            · simpa using h
          · rw [heq] at hju ⊢
            dsimp only at hju ⊢
            rcases le_total (stateBalance ih vy) rem with hmin | hmin
            · simp only [if_true]
              rw [min_eq_left hmin, stateBalance_addUsed]
              linarith [EPS_pos]
            · exfalso
              have hz : rem - min (stateBalance ih vy) rem = 0 := by
                rw [min_eq_right hmin]; ring
              simp only [List.getD_cons_succ, hz] at hju
              rw [allocPass1_stop d rest 0 0 EPS_pos.le] at hju
              exact hju rfl
        | succ m =>
          have hm : m < n := by omega
          simp only [List.getD_cons_succ] at hel ⊢
          rcases allocStep_cases d ih rem vy with ⟨heq, _⟩ | ⟨h1, h2, heq⟩ <;>
            · rw [heq] at hju ⊢
              simp only [List.getD_cons_succ] at hju
              have h := ihl _ 0 n hn hju m hm hel
              simpa using h

theorem allocPass1_sumUsed (d : YMD) :
    ∀ (ys : List VacationYearState) (rem ih : ℚ),
      sumUsed (allocPass1 d ys rem ih).1 =
        sumUsed ys + (rem - (allocPass1 d ys rem ih).2) := by
  intro ys
  induction ys with
  | nil => intro rem ih; simp [allocPass1, sumUsed]
  | cons vy rest ihl =>
    intro rem ih
    by_cases hre : rem ≤ EPS
    · rw [allocPass1_stop d _ rem ih hre]; ring
    · simp only [allocPass1, if_neg hre]
      rcases allocStep_cases d ih rem vy with ⟨heq, _⟩ | ⟨h1, h2, heq⟩
      · rw [heq]
        simp only [sumUsed]
        rw [ihl rem 0]
        ring
      · rw [heq]
        simp only [sumUsed]
        rw [ihl (rem - min (stateBalance ih vy) rem) 0]
        ring

theorem getD_set_ne {α : Type} (v dflt : α) :
    ∀ (l : List α) (t i : Nat), t ≠ i → (l.set t v).getD i dflt = l.getD i dflt := by
  intro l
  induction l with
  | nil => intro t i h; simp
  | cons x xs ihl =>
    intro t i h
    cases t with
    | zero =>
      cases i with
      | zero => exact absurd rfl h
      | succ m => simp
    | succ n =>
      cases i with
      | zero => simp
      | succ m =>
        simp only [List.set_cons_succ, List.getD_cons_succ]
        exact ihl n m (fun he => h (by rw [he]))

theorem getD_set_self {α : Type} (v dflt : α) :
    ∀ (l : List α) (t : Nat), t < l.length → (l.set t v).getD t dflt = v := by
  intro l
  induction l with
  | nil => intro t h; simp at h
  | cons x xs ihl =>
    intro t h
    cases t with
    | zero => simp
    | succ n =>
      simp only [List.set_cons_succ, List.getD_cons_succ]
      exact ihl n (by simpa using h)

theorem sumUsed_set (v : VacationYearState) :
    ∀ (ys : List VacationYearState) (t : Nat), t < ys.length →
      sumUsed (ys.set t v) = sumUsed ys - (ys.getD t dfltVY).used + v.used := by
  intro ys
  induction ys with
  | nil => intro t h; simp at h
  | cons vy rest ihl =>
    intro t h
    cases t with
    | zero => simp [sumUsed]; ring
    | succ n =>
      simp only [List.set_cons_succ, List.getD_cons_succ, sumUsed]
      rw [ihl n (by simpa using h)]
      ring

theorem allocPass2_spec (d : YMD) (rem : ℚ) :
    ∀ ys : List VacationYearState,
      ((allocPass2 d rem ys).2 = false →
        (allocPass2 d rem ys).1 = ys ∧
        ∀ i, i < ys.length → YMD.leb d ((ys.getD i dfltVY).usableEnd) = false) ∧
      ((allocPass2 d rem ys).2 = true →
        ∃ t, t < ys.length ∧ YMD.leb d ((ys.getD t dfltVY).usableEnd) = true ∧
          (∀ k, t < k → k < ys.length → YMD.leb d ((ys.getD k dfltVY).usableEnd) = false) ∧
          (allocPass2 d rem ys).1 =
            ys.set t { ys.getD t dfltVY with
              used := (ys.getD t dfltVY).used + rem }) := by
  intro ys
  induction ys with
  | nil =>
    constructor
    · intro _; exact ⟨rfl, fun i hi => by simp at hi⟩
    · intro h; simp [allocPass2] at h
  | cons vy rest ihl =>
    by_cases ht : (allocPass2 d rem rest).2 = true
    · have hout : allocPass2 d rem (vy :: rest) =
          (vy :: (allocPass2 d rem rest).1, true) := by
        simp [allocPass2, ht]
      constructor
      · intro h; rw [hout] at h; cases h
      · intro _
        obtain ⟨t, htl, hel, hlat, heq⟩ := ihl.2 ht
        refine ⟨t + 1, by simpa using htl, by simpa using hel, ?_, ?_⟩
        · intro k hk1 hk2
          cases k with
          | zero => omega
          | succ m =>
            simp only [List.getD_cons_succ]
            exact hlat m (by omega) (by simpa using hk2)
        · rw [hout]
          simp only [List.getD_cons_succ, List.set_cons_succ]
          rw [heq]
    · have ht' : (allocPass2 d rem rest).2 = false := by
        simpa using ht
      obtain ⟨hrest, hnone⟩ := ihl.1 ht'
      by_cases he : YMD.leb d vy.usableEnd = true
      · have hout : allocPass2 d rem (vy :: rest) =
            ({ vy with used := vy.used + rem } :: (allocPass2 d rem rest).1, true) := by
          simp [allocPass2, ht', he]
        constructor
        · intro h; rw [hout] at h; cases h
        · intro _
          refine ⟨0, by simp, by simpa using he, ?_, ?_⟩
          · intro k hk1 hk2
            cases k with
            | zero => omega
            | succ m =>
              simp only [List.getD_cons_succ]
              exact hnone m (by simpa using hk2)
          · rw [hout, hrest]
            simp
      · have he' : YMD.leb d vy.usableEnd = false := by simpa using he
        have hout : allocPass2 d rem (vy :: rest) =
            (vy :: (allocPass2 d rem rest).1, false) := by
          simp [allocPass2, ht', he']
        constructor
        · intro _
          constructor
          · rw [hout, hrest]
          · intro i hi
            cases i with
            | zero => simpa using he'
            | succ m =>
              simp only [List.getD_cons_succ]
              exact hnone m (by simpa using hi)
        · intro h; rw [hout] at h; cases h


/-! ### Transfer lemmas (snapshot step 3 and `applyEvent` expiry) -/

theorem sameCore_refl (x : VacationYearBalance) : sameCore x x :=
  ⟨rfl, rfl, rfl, rfl, rfl⟩

theorem sameCore_trans {x y z : VacationYearBalance} (h₁ : sameCore x y)
    (h₂ : sameCore y z) : sameCore x z := by
  obtain ⟨a1, a2, a3, a4, a5⟩ := h₁
  obtain ⟨b1, b2, b3, b4, b5⟩ := h₂
  exact ⟨a1.trans b1, a2.trans b2, a3.trans b3, a4.trans b4, a5.trans b5⟩

theorem processTransfersAux_spec (cap : ℚ) :
    ∀ (l : List VacationYearBalance) (b : VacationYearBalance),
      (processTransfersAux cap b l).length = l.length + 1 ∧
      (∀ i, sameCore ((processTransfersAux cap b l).getD i dfltB)
        ((b :: l).getD i dfltB)) ∧
      ((processTransfersAux cap b l).getD 0 dfltB).transferred = b.transferred ∧
      ((processTransfersAux cap b l).getD 0 dfltB).balance = b.balance ∧
      (∀ i, i < l.length →
        (((processTransfersAux cap b l).getD i dfltB).expired = true ∧
            0 < ((processTransfersAux cap b l).getD i dfltB).balance →
          ((processTransfersAux cap b l).getD (i+1) dfltB).transferred =
              min ((processTransfersAux cap b l).getD i dfltB).balance cap ∧
            ((processTransfersAux cap b l).getD (i+1) dfltB).balance =
              ((b :: l).getD (i+1) dfltB).balance +
                min ((processTransfersAux cap b l).getD i dfltB).balance cap ∧
            ((processTransfersAux cap b l).getD i dfltB).lost =
              max 0 (((processTransfersAux cap b l).getD i dfltB).balance - cap)) ∧
        (¬ (((processTransfersAux cap b l).getD i dfltB).expired = true ∧
              0 < ((processTransfersAux cap b l).getD i dfltB).balance) →
          ((processTransfersAux cap b l).getD (i+1) dfltB).transferred =
              ((b :: l).getD (i+1) dfltB).transferred ∧
            ((processTransfersAux cap b l).getD (i+1) dfltB).balance =
              ((b :: l).getD (i+1) dfltB).balance ∧
            ((processTransfersAux cap b l).getD i dfltB).lost =
              ((b :: l).getD i dfltB).lost)) := by
  intro l
  induction l with
  | nil =>
    intro b
    refine ⟨rfl, ?_, rfl, rfl, ?_⟩
    · intro i
      cases i with
      | zero => exact sameCore_refl b
      | succ n =>
        show sameCore (List.getD [b] (n+1) dfltB) _
        simp only [List.getD_cons_succ]
        exact sameCore_refl _
    · intro i hi; simp at hi
  | cons next rest ihl =>
    intro b
    by_cases hf : (b.expired && decide (0 < b.balance)) = true
    · have hexp : b.expired = true := by
        simp only [Bool.and_eq_true, decide_eq_true_eq] at hf; exact hf.1
      have hbal : 0 < b.balance := by
        simp only [Bool.and_eq_true, decide_eq_true_eq] at hf; exact hf.2
      have hout : processTransfersAux cap b (next :: rest) =
          { b with lost := max 0 (b.balance - cap) } ::
            processTransfersAux cap
              { next with
                  transferred := min b.balance cap,
                  balance := next.balance + min b.balance cap }
              rest := by
        simp [processTransfersAux, hf]
      obtain ⟨ihlen, ihcore, ihtr, ihbal, ihpairs⟩ := ihl
        { next with
            transferred := min b.balance cap,
            balance := next.balance + min b.balance cap }
      have hbase : ∀ n, sameCore
          (({ next with
                transferred := min b.balance cap,
                balance := next.balance + min b.balance cap } :: rest).getD n dfltB)
          ((next :: rest).getD n dfltB) := by
        intro n
        cases n with
        | zero => exact ⟨rfl, rfl, rfl, rfl, rfl⟩
        | succ m =>
          simp only [List.getD_cons_succ]
          exact sameCore_refl _
      refine ⟨?_, ?_, ?_, ?_, ?_⟩
      · rw [hout]; simp [ihlen]
      · intro i
        cases i with
        | zero =>
          rw [hout]
          exact ⟨rfl, rfl, rfl, rfl, rfl⟩
        | succ n =>
          rw [hout]
          simp only [List.getD_cons_succ]
          exact sameCore_trans (ihcore n) (hbase n)
      · rw [hout]; rfl
      · rw [hout]; rfl
      · intro i hi
        cases i with
        | zero =>
          constructor
          · intro _
            rw [hout]
            simp only [List.getD_cons_succ, List.getD_cons_zero]
            exact ⟨ihtr, by rw [ihbal], by trivial⟩
          · intro hnot
            exfalso
            apply hnot
            rw [hout]
            exact ⟨hexp, hbal⟩
        | succ k =>
          have hk : k < rest.length := by simpa using hi
          have hp := ihpairs k hk
          rw [hout]
          simp only [List.getD_cons_succ]
          constructor
          · intro hcond
            obtain ⟨g1, g2, g3⟩ := hp.1 hcond
            refine ⟨g1, ?_, g3⟩
            rw [g2]
            cases k with
            | zero => rfl
            | succ m => rfl
          · intro hcond
            obtain ⟨g1, g2, g3⟩ := hp.2 hcond
            cases k with
            | zero => exact ⟨g1, g2, g3⟩
            | succ m => exact ⟨g1, g2, g3⟩
    · have hout : processTransfersAux cap b (next :: rest) =
          b :: processTransfersAux cap next rest := by
        simp only [processTransfersAux]
        rw [if_neg hf]
      obtain ⟨ihlen, ihcore, ihtr, ihbal, ihpairs⟩ := ihl next
      refine ⟨?_, ?_, ?_, ?_, ?_⟩
      · rw [hout]; simp [ihlen]
      · intro i
        cases i with
        | zero => rw [hout]; exact sameCore_refl b
        | succ n =>
          rw [hout]
          simp only [List.getD_cons_succ]
          exact ihcore n
      · rw [hout]; rfl
      · rw [hout]; rfl
      · intro i hi
        cases i with
        | zero =>
          constructor
          · intro hcond
            exfalso
            rw [hout] at hcond
            simp only [List.getD_cons_zero] at hcond
            apply hf
            simp only [Bool.and_eq_true, decide_eq_true_eq]
            exact hcond
          · intro _
            rw [hout]
            simp only [List.getD_cons_succ, List.getD_cons_zero]
            exact ⟨ihtr, ihbal, by trivial⟩
        | succ k =>
          have hk : k < rest.length := by simpa using hi
          have hp := ihpairs k hk
          rw [hout]
          simp only [List.getD_cons_succ]
          exact hp

theorem processTransfers_spec (cap : ℚ) (bs : List VacationYearBalance) :
    (processTransfers cap bs).length = bs.length ∧
    (∀ i, sameCore ((processTransfers cap bs).getD i dfltB) (bs.getD i dfltB)) ∧
    (∀ i, i + 1 < bs.length →
      (((processTransfers cap bs).getD i dfltB).expired = true ∧
          0 < ((processTransfers cap bs).getD i dfltB).balance →
        ((processTransfers cap bs).getD (i+1) dfltB).transferred =
            min ((processTransfers cap bs).getD i dfltB).balance cap ∧
          ((processTransfers cap bs).getD (i+1) dfltB).balance =
            (bs.getD (i+1) dfltB).balance +
              min ((processTransfers cap bs).getD i dfltB).balance cap ∧
          ((processTransfers cap bs).getD i dfltB).lost =
            max 0 (((processTransfers cap bs).getD i dfltB).balance - cap)) ∧
      (¬ (((processTransfers cap bs).getD i dfltB).expired = true ∧
            0 < ((processTransfers cap bs).getD i dfltB).balance) →
        ((processTransfers cap bs).getD (i+1) dfltB).transferred =
            (bs.getD (i+1) dfltB).transferred ∧
          ((processTransfers cap bs).getD (i+1) dfltB).balance =
            (bs.getD (i+1) dfltB).balance ∧
          ((processTransfers cap bs).getD i dfltB).lost =
            (bs.getD i dfltB).lost)) := by
  cases bs with
  | nil =>
    refine ⟨rfl, ?_, ?_⟩
    · intro i
      cases i <;> exact sameCore_refl _
    · intro i hi; simp at hi
  | cons b rest =>
    obtain ⟨hlen, hcore, _, _, hpairs⟩ := processTransfersAux_spec cap rest b
    exact ⟨by simpa using hlen, hcore, fun i hi => hpairs i (by simpa using hi)⟩

theorem get?_eq_some_getD {α : Type} (l : List α) (i : Nat) (dflt : α)
    (h : i < l.length) : l.get? i = some (l.getD i dflt) := by
  induction l generalizing i with
  | nil => simp at h
  | cons x xs ihl =>
    cases i with
    | zero => rfl
    | succ n =>
      simp only [List.get?, List.getD_cons_succ]
      exact ihl n (by simpa using h)

theorem applyEvent_expiry_spec (e : TimelineEvent) (ys : List VacationYearState)
    (xc init cap : ℚ) (hk : e.kind = EventKind.expiry) (hidx : e.yearIndex < ys.length) :
    (applyEvent e ys xc init cap).getD e.yearIndex dfltVY =
      { ys.getD e.yearIndex dfltVY with expired := true } ∧
    (0 < stateBalance (initAt init e.yearIndex) (ys.getD e.yearIndex dfltVY) →
      e.yearIndex + 1 < ys.length →
      (applyEvent e ys xc init cap).getD (e.yearIndex + 1) dfltVY =
        { ys.getD (e.yearIndex + 1) dfltVY with
            transferred :=
              min (stateBalance (initAt init e.yearIndex) (ys.getD e.yearIndex dfltVY))
                cap }) ∧
    (¬ 0 < stateBalance (initAt init e.yearIndex) (ys.getD e.yearIndex dfltVY) →
      ∀ k, k ≠ e.yearIndex →
        (applyEvent e ys xc init cap).getD k dfltVY = ys.getD k dfltVY) ∧
    (∀ k, k ≠ e.yearIndex → k ≠ e.yearIndex + 1 →
      (applyEvent e ys xc init cap).getD k dfltVY = ys.getD k dfltVY) := by
  have htgt := get?_eq_some_getD ys e.yearIndex dfltVY hidx
  have hbal : (ys.getD e.yearIndex dfltVY).earned + (ys.getD e.yearIndex dfltVY).extra +
      (ys.getD e.yearIndex dfltVY).transferred - (ys.getD e.yearIndex dfltVY).used +
      (if e.yearIndex = 0 then init else 0) =
      stateBalance (initAt init e.yearIndex) (ys.getD e.yearIndex dfltVY) := by
    simp only [stateBalance, initAt]
  have hout : applyEvent e ys xc init cap =
      (if 0 < stateBalance (initAt init e.yearIndex) (ys.getD e.yearIndex dfltVY) then
         match (ys.set e.yearIndex
             { ys.getD e.yearIndex dfltVY with expired := true }).get?
             (e.yearIndex + 1) with
         | none => ys.set e.yearIndex { ys.getD e.yearIndex dfltVY with expired := true }
         | some succ =>
           (ys.set e.yearIndex
               { ys.getD e.yearIndex dfltVY with expired := true }).set
             (e.yearIndex + 1)
             { succ with
                 transferred :=
                   min (stateBalance (initAt init e.yearIndex)
                     (ys.getD e.yearIndex dfltVY)) cap }
       else ys.set e.yearIndex { ys.getD e.yearIndex dfltVY with expired := true }) := by
    unfold applyEvent
    rw [htgt, hk]
    rw [← hbal]
  by_cases hb : 0 < stateBalance (initAt init e.yearIndex) (ys.getD e.yearIndex dfltVY)
  · by_cases hsucc : e.yearIndex + 1 < ys.length
    · have hsucc1 : e.yearIndex + 1 <
          (ys.set e.yearIndex { ys.getD e.yearIndex dfltVY with expired := true }).length := by
        simpa using hsucc
      have hget1 : (ys.set e.yearIndex
            { ys.getD e.yearIndex dfltVY with expired := true }).getD
            (e.yearIndex + 1) dfltVY = ys.getD (e.yearIndex + 1) dfltVY :=
        getD_set_ne _ _ _ _ _ (by omega)
      have hout2 : applyEvent e ys xc init cap =
          (ys.set e.yearIndex { ys.getD e.yearIndex dfltVY with expired := true }).set
            (e.yearIndex + 1)
            { ys.getD (e.yearIndex + 1) dfltVY with
                transferred :=
                  min (stateBalance (initAt init e.yearIndex) (ys.getD e.yearIndex dfltVY))
                    cap } := by
        rw [hout]
        simp only [if_pos hb]
        rw [get?_eq_some_getD _ _ dfltVY hsucc1, hget1]
      refine ⟨?_, ?_, ?_, ?_⟩
      · rw [hout2, getD_set_ne _ _ _ _ _ (by omega),
          getD_set_self _ _ _ _ hidx]
      · intro _ _
        rw [hout2, getD_set_self _ _ _ _ hsucc1]
      · intro hnb; exact absurd hb hnb
      · intro k hk1 hk2
        rw [hout2, getD_set_ne _ _ _ _ _ (fun h => hk2 h.symm),
          getD_set_ne _ _ _ _ _ (fun h => hk1 h.symm)]
    · have hnone : (ys.set e.yearIndex
            { ys.getD e.yearIndex dfltVY with expired := true }).get?
            (e.yearIndex + 1) = none := by
        rw [List.get?_eq_none]
        simpa using Nat.le_of_not_lt hsucc
      have hout2 : applyEvent e ys xc init cap =
          ys.set e.yearIndex { ys.getD e.yearIndex dfltVY with expired := true } := by
        rw [hout]
        simp only [if_pos hb]
        rw [hnone]
      refine ⟨?_, ?_, ?_, ?_⟩
      · rw [hout2, getD_set_self _ _ _ _ hidx]
      · intro _ h; exact absurd h hsucc
      · intro hnb; exact absurd hb hnb
      · intro k hk1 _
        rw [hout2, getD_set_ne _ _ _ _ _ (fun h => hk1 h.symm)]
  · have hout2 : applyEvent e ys xc init cap =
        ys.set e.yearIndex { ys.getD e.yearIndex dfltVY with expired := true } := by
      rw [hout]
      simp only [if_neg hb]
    refine ⟨?_, ?_, ?_, ?_⟩
    · rw [hout2, getD_set_self _ _ _ _ hidx]
    · intro h; exact absurd h hb
    · intro _ k hk1
      rw [hout2, getD_set_ne _ _ _ _ _ (fun h => hk1 h.symm)]
    · intro k hk1 _
      rw [hout2, getD_set_ne _ _ _ _ _ (fun h => hk1 h.symm)]

/-- **C5**.  Waterfall allocation (`allocateDay`) of one unit of
consumption on a date `d`: (1) a ledger whose usable window does not
include `d` is untouched; (2) earliest-first: whenever the allocation
increased a later ledger's `used`, every earlier eligible ledger is left
with balance at most `EPS`; (3) a ledger's balance only becomes negative
if it already was negative, or it is the latest eligible ledger (the
pass-2 borrowing target); (4) when any eligible ledger exists, the unit is
charged in full (up to a sub-`EPS` residue that pass 1 may strand). -/
theorem C5_theorem (d : YMD) (ys : List VacationYearState) (init : ℚ) :
    (∀ i, i < ys.length → YMD.leb d ((ys.getD i dfltVY).usableEnd) = false →
      (allocateDay d ys init).getD i dfltVY = ys.getD i dfltVY) ∧
    (∀ j, j < ys.length →
      ((allocateDay d ys init).getD j dfltVY).used ≠ (ys.getD j dfltVY).used →
      ∀ i, i < j → YMD.leb d ((ys.getD i dfltVY).usableEnd) = true →
        stateBalance (initAt init i) ((allocateDay d ys init).getD i dfltVY) ≤ EPS) ∧
    (∀ i, i < ys.length →
      stateBalance (initAt init i) ((allocateDay d ys init).getD i dfltVY) < 0 →
      stateBalance (initAt init i) (ys.getD i dfltVY) < 0 ∨
        (YMD.leb d ((ys.getD i dfltVY).usableEnd) = true ∧
          ∀ k, i < k → k < ys.length →
            YMD.leb d ((ys.getD k dfltVY).usableEnd) = false)) ∧
    ((∃ i, i < ys.length ∧ YMD.leb d ((ys.getD i dfltVY).usableEnd) = true) →
      1 - EPS ≤ sumUsed (allocateDay d ys init) - sumUsed ys ∧
        sumUsed (allocateDay d ys init) - sumUsed ys ≤ 1) := by
  have hlen := allocPass1_length d ys 1 init
  have hrle := allocPass1_rem_le d ys 1 init
  have hrnn := allocPass1_rem_nonneg d ys 1 init (by norm_num)
  by_cases hp2 : EPS < (allocPass1 d ys 1 init).2
  · -- pass 2 runs
    have hout : allocateDay d ys init =
        (allocPass2 d (allocPass1 d ys 1 init).2 (allocPass1 d ys 1 init).1).1 := by
      simp [allocateDay, hp2]
    have hspec := allocPass2_spec d (allocPass1 d ys 1 init).2 (allocPass1 d ys 1 init).1
    by_cases hflag :
        (allocPass2 d (allocPass1 d ys 1 init).2 (allocPass1 d ys 1 init).1).2 = true
    · obtain ⟨t, htl, helt, hlat, heqset⟩ := hspec.2 hflag
      have htl' : t < ys.length := hlen ▸ htl
      have houtset : allocateDay d ys init =
          (allocPass1 d ys 1 init).1.set t
            { (allocPass1 d ys 1 init).1.getD t dfltVY with
              used := ((allocPass1 d ys 1 init).1.getD t dfltVY).used +
                (allocPass1 d ys 1 init).2 } := by
        rw [hout, heqset]
      refine ⟨?_, ?_, ?_, ?_⟩
      · -- (1) untouched when ineligible
        intro i hi hin
        have hne : t ≠ i := by
          intro he
          subst he
          rw [allocPass1_usableEnd d ys 1 init t htl'] at helt
          rw [helt] at hin
          cases hin
        rw [houtset, getD_set_ne _ _ _ _ _ hne]
        rcases allocPass1_elem d ys 1 init i hi with h | ⟨hel, _, _, _, _, _⟩
        · exact h
        · rw [hel] at hin; cases hin
      · -- (2) ordering
        intro j hj hju i hij hel
        have hiy : i < ys.length := lt_trans hij hj
        have hbal := allocPass1_allvisited d ys 1 init hp2 i hiy hel
        simp only [initAt]
        by_cases hit : t = i
        · subst hit
          rw [houtset, getD_set_self _ _ _ _ htl, stateBalance_addUsed]
          have : (0:ℚ) < (allocPass1 d ys 1 init).2 := lt_trans EPS_pos hp2
          linarith
        · rw [houtset, getD_set_ne _ _ _ _ _ hit]
          exact hbal
      · -- (3) negativity
        intro i hi hneg
        by_cases hit : t = i
        · subst hit
          right
          constructor
          · rw [← allocPass1_usableEnd d ys 1 init t htl']
            exact helt
          · intro k htk hky
            have hk1 : k < (allocPass1 d ys 1 init).1.length := hlen ▸ hky
            have := hlat k htk hk1
            rw [allocPass1_usableEnd d ys 1 init k hky] at this
            exact this
        · rw [houtset, getD_set_ne _ _ _ _ _ hit] at hneg
          rcases allocPass1_elem d ys 1 init i hi with h | ⟨_, _, c, _, hcle, heq⟩
          · left; rw [← h]; exact hneg
          · exfalso
            rw [heq, stateBalance_addUsed] at hneg
            simp only [initAt] at hneg hcle
            linarith
      · -- (4) conservation
        intro _
        have hsum1 := allocPass1_sumUsed d ys 1 init
        have hsum2 := sumUsed_set
          { (allocPass1 d ys 1 init).1.getD t dfltVY with
            used := ((allocPass1 d ys 1 init).1.getD t dfltVY).used +
              (allocPass1 d ys 1 init).2 }
          (allocPass1 d ys 1 init).1 t htl
        rw [houtset, hsum2]
        simp only
        rw [hsum1]
        constructor <;> [linarith [EPS_pos]; linarith]
    · have hflag' :
          (allocPass2 d (allocPass1 d ys 1 init).2 (allocPass1 d ys 1 init).1).2 = false := by
        simpa using hflag
      obtain ⟨hid, hnone⟩ := hspec.1 hflag'
      have houtid : allocateDay d ys init = (allocPass1 d ys 1 init).1 := by
        rw [hout, hid]
      have hnoelig : ∀ i, i < ys.length →
          YMD.leb d ((ys.getD i dfltVY).usableEnd) = false := by
        intro i hi
        have := hnone i (hlen ▸ hi)
        rw [allocPass1_usableEnd d ys 1 init i hi] at this
        exact this
      refine ⟨?_, ?_, ?_, ?_⟩
      · intro i hi _
        rw [houtid]
        rcases allocPass1_elem d ys 1 init i hi with h | ⟨hel, _, _, _, _, _⟩
        · exact h
        · rw [hnoelig i hi] at hel; cases hel
      · intro j hj _ i hij hel
        rw [hnoelig i (lt_trans hij hj)] at hel; cases hel
      · intro i hi hneg
        rw [houtid] at hneg
        rcases allocPass1_elem d ys 1 init i hi with h | ⟨hel, _, _, _, _, _⟩
        · left; rw [← h]; exact hneg
        · rw [hnoelig i hi] at hel; cases hel
      · intro ⟨i, hi, hel⟩
        rw [hnoelig i hi] at hel; cases hel
  · -- pass 2 does not run
    have hout : allocateDay d ys init = (allocPass1 d ys 1 init).1 := by
      simp [allocateDay, hp2]
    refine ⟨?_, ?_, ?_, ?_⟩
    · intro i hi hin
      rw [hout]
      rcases allocPass1_elem d ys 1 init i hi with h | ⟨hel, _, _, _, _, _⟩
      · exact h
      · rw [hel] at hin; cases hin
    · intro j hj hju i hij hel
      rw [hout] at hju ⊢
      simp only [initAt]
      exact allocPass1_order d ys 1 init j hj hju i hij hel
    · intro i hi hneg
      rw [hout] at hneg
      rcases allocPass1_elem d ys 1 init i hi with h | ⟨_, _, c, _, hcle, heq⟩
      · left; rw [← h]; exact hneg
      · exfalso
        rw [heq, stateBalance_addUsed] at hneg
        simp only [initAt] at hneg hcle
        linarith
    · intro _
      rw [hout, allocPass1_sumUsed d ys 1 init]
      have hle : (allocPass1 d ys 1 init).2 ≤ EPS := le_of_not_lt hp2
      constructor <;> linarith

/-- **C5** (witness).  A concrete two-ledger instance of `C5_theorem`: the
first ledger's usable window ends before the consumed date, so it is
untouched; the second is eligible, so the full unit is charged. -/
theorem C5_witness :
    (allocateDay ⟨2026, 6, 1⟩
        [{ earned := 5, extra := 0, used := 0, transferred := 0, expired := false,
           usableEnd := ⟨2026, 5, 31⟩ },
         { earned := 5, extra := 0, used := 0, transferred := 0, expired := false,
           usableEnd := ⟨2027, 12, 31⟩ }] 0).getD 0 dfltVY =
      { earned := 5, extra := 0, used := 0, transferred := 0, expired := false,
        usableEnd := ⟨2026, 5, 31⟩ } ∧
    (1 : ℚ) - EPS ≤
        sumUsed (allocateDay ⟨2026, 6, 1⟩
          [{ earned := 5, extra := 0, used := 0, transferred := 0, expired := false,
             usableEnd := ⟨2026, 5, 31⟩ },
           { earned := 5, extra := 0, used := 0, transferred := 0, expired := false,
             usableEnd := ⟨2027, 12, 31⟩ }] 0) -
        sumUsed
          [{ earned := 5, extra := 0, used := 0, transferred := 0, expired := false,
             usableEnd := ⟨2026, 5, 31⟩ },
           { earned := 5, extra := 0, used := 0, transferred := 0, expired := false,
             usableEnd := ⟨2027, 12, 31⟩ }] := by
  constructor
  · exact (C5_theorem ⟨2026, 6, 1⟩
      [{ earned := 5, extra := 0, used := 0, transferred := 0, expired := false,
         usableEnd := ⟨2026, 5, 31⟩ },
       { earned := 5, extra := 0, used := 0, transferred := 0, expired := false,
         usableEnd := ⟨2027, 12, 31⟩ }] 0).1 0 (by norm_num)
      (by with_unfolding_all decide)
  · exact ((C5_theorem ⟨2026, 6, 1⟩
      [{ earned := 5, extra := 0, used := 0, transferred := 0, expired := false,
         usableEnd := ⟨2026, 5, 31⟩ },
       { earned := 5, extra := 0, used := 0, transferred := 0, expired := false,
         usableEnd := ⟨2027, 12, 31⟩ }] 0).2.2.2
      ⟨1, by norm_num, by with_unfolding_all decide⟩).1

/-- **C6**.  Expiry and transfer.  First conjunct — the snapshot
evaluator's transfer step (`processTransfers`): for adjacent ledgers, when
ledger `i` is expired with final balance `b > 0`, its successor's
`transferred` becomes `min(b, maxTransferDays)` and `i`'s `lost` becomes
`max(0, b − maxTransferDays)`; recording `lost` changes no ledger's
`used`, and the only balance changed is the successor's, by exactly the
transferred amount.  When the final balance is `≤ 0` (or the ledger is not
expired), nothing is transferred and nothing is lost.  Second conjunct —
the batch evaluator's expiry event (`applyEvent`): the period is marked
expired; with positive final balance and an in-range successor the
successor's `transferred` becomes `min(balance, maxTransferDays)`; with
non-positive balance every other ledger is untouched. -/
theorem C6_theorem :
    (∀ (cap : ℚ) (bs : List VacationYearBalance) (i : Nat), i + 1 < bs.length →
      ((((processTransfers cap bs).getD i dfltB).expired = true ∧
          0 < ((processTransfers cap bs).getD i dfltB).balance) →
        ((processTransfers cap bs).getD (i+1) dfltB).transferred =
            min ((processTransfers cap bs).getD i dfltB).balance cap ∧
          ((processTransfers cap bs).getD i dfltB).lost =
            max 0 (((processTransfers cap bs).getD i dfltB).balance - cap) ∧
          ((processTransfers cap bs).getD i dfltB).used = (bs.getD i dfltB).used ∧
          ((processTransfers cap bs).getD (i+1) dfltB).used =
            (bs.getD (i+1) dfltB).used ∧
          ((processTransfers cap bs).getD (i+1) dfltB).balance =
            (bs.getD (i+1) dfltB).balance +
              min ((processTransfers cap bs).getD i dfltB).balance cap) ∧
      (¬ (((processTransfers cap bs).getD i dfltB).expired = true ∧
            0 < ((processTransfers cap bs).getD i dfltB).balance) →
        ((processTransfers cap bs).getD (i+1) dfltB).transferred =
            (bs.getD (i+1) dfltB).transferred ∧
          ((processTransfers cap bs).getD (i+1) dfltB).balance =
            (bs.getD (i+1) dfltB).balance ∧
          ((processTransfers cap bs).getD i dfltB).lost = (bs.getD i dfltB).lost)) ∧
    (∀ (e : TimelineEvent) (ys : List VacationYearState) (xc init cap : ℚ),
      e.kind = EventKind.expiry → e.yearIndex < ys.length →
      (applyEvent e ys xc init cap).getD e.yearIndex dfltVY =
        { ys.getD e.yearIndex dfltVY with expired := true } ∧
      (0 < stateBalance (initAt init e.yearIndex) (ys.getD e.yearIndex dfltVY) →
        e.yearIndex + 1 < ys.length →
        (applyEvent e ys xc init cap).getD (e.yearIndex + 1) dfltVY =
          { ys.getD (e.yearIndex + 1) dfltVY with
              transferred :=
                min (stateBalance (initAt init e.yearIndex)
                  (ys.getD e.yearIndex dfltVY)) cap }) ∧
      (¬ 0 < stateBalance (initAt init e.yearIndex) (ys.getD e.yearIndex dfltVY) →
        ∀ k, k ≠ e.yearIndex →
          (applyEvent e ys xc init cap).getD k dfltVY = ys.getD k dfltVY)) := by
  constructor
  · intro cap bs i hi
    obtain ⟨hlen, hcore, hpairs⟩ := processTransfers_spec cap bs
    obtain ⟨hfire, hnofire⟩ := hpairs i hi
    constructor
    · intro hcond
      obtain ⟨g1, g2, g3⟩ := hfire hcond
      exact ⟨g1, g3, (hcore i).2.2.2.1, (hcore (i+1)).2.2.2.1, g2⟩
    · intro hcond
      obtain ⟨g1, g2, g3⟩ := hnofire hcond
      exact ⟨g1, g2, g3⟩
  · intro e ys xc init cap hk hidx
    obtain ⟨g1, g2, g3, _⟩ := applyEvent_expiry_spec e ys xc init cap hk hidx
    exact ⟨g1, g2, g3⟩

/-- **C6** (witness).  A concrete instance: an expired ledger with balance
29.96 and transfer cap 5 transfers 5 to its successor and records 24.96 as
lost; the concrete expiry event of the batch evaluator transfers
`min(20, 5) = 5`. -/
theorem C6_witness :
    ((processTransfers 5
        [{ year := 2025, earned := 624/25, extra := 5, used := 0, transferred := 0,
           balance := 749/25, lost := 0, expired := true },
         { year := 2026, earned := 52/5, extra := 0, used := 0, transferred := 0,
           balance := 52/5, lost := 0, expired := false }]).getD 1 dfltB).transferred =
      min ((processTransfers 5
        [{ year := 2025, earned := 624/25, extra := 5, used := 0, transferred := 0,
           balance := 749/25, lost := 0, expired := true },
         { year := 2026, earned := 52/5, extra := 0, used := 0, transferred := 0,
           balance := 52/5, lost := 0, expired := false }]).getD 0 dfltB).balance 5 ∧
    (applyEvent ⟨⟨2027, 1, 1⟩, 1, 0, EventKind.expiry⟩
        [{ earned := 20, extra := 0, used := 0, transferred := 0, expired := false,
           usableEnd := ⟨2026, 12, 31⟩ },
         { earned := 0, extra := 0, used := 0, transferred := 0, expired := false,
           usableEnd := ⟨2027, 12, 31⟩ }] 5 0 5).getD 1 dfltVY =
      { ({ earned := 0, extra := 0, used := 0, transferred := 0, expired := false,
           usableEnd := ⟨2027, 12, 31⟩ } : VacationYearState) with
          transferred :=
            min (stateBalance (initAt 0 0)
              ({ earned := 20, extra := 0, used := 0, transferred := 0, expired := false,
                 usableEnd := ⟨2026, 12, 31⟩ } : VacationYearState)) 5 } := by
  constructor
  · exact ((C6_theorem.1 5
      [{ year := 2025, earned := 624/25, extra := 5, used := 0, transferred := 0,
         balance := 749/25, lost := 0, expired := true },
       { year := 2026, earned := 52/5, extra := 0, used := 0, transferred := 0,
         balance := 52/5, lost := 0, expired := false }] 0 (by norm_num)).1
      (by with_unfolding_all decide)).1
  · exact (C6_theorem.2 ⟨⟨2027, 1, 1⟩, 1, 0, EventKind.expiry⟩
      [{ earned := 20, extra := 0, used := 0, transferred := 0, expired := false,
         usableEnd := ⟨2026, 12, 31⟩ },
       { earned := 0, extra := 0, used := 0, transferred := 0, expired := false,
         usableEnd := ⟨2027, 12, 31⟩ }] 5 0 5 rfl (by norm_num)).2.1
      (by with_unfolding_all decide) (by norm_num)

/-! ### Accrual lemmas (`earnedInVacationYear`) -/

theorem mIdx_addMonthsMS (a : YMD) (k : Int) : mIdx (addMonthsMS a k) = mIdx a + k := by
  simp only [addMonthsMS, mIdx]
  omega

theorem monthlyRate_pos : (0 : ℚ) < monthlyRate := by norm_num [monthlyRate]

theorem earned_eq_months (vy : Int) (atDate emp : YMD) :
    earnedInVacationYear vy atDate emp =
      (earnedMonthsInt vy atDate emp : ℚ) * monthlyRate := by
  unfold earnedInVacationYear earnedMonthsInt
  dsimp only
  split_ifs <;> simp

theorem YMD_y_mk (y m d : Int) : (YMD.mk y m d).y = y := rfl

theorem YMD_m_mk (y m d : Int) : (YMD.mk y m d).m = m := rfl

theorem YMD_d_mk (y m d : Int) : (YMD.mk y m d).d = d := rfl

theorem earnedMonthsInt_closed (vy : Int) (atDate emp : YMD)
    (he1 : 1 ≤ emp.m) (he2 : emp.m ≤ 12) :
    earnedMonthsInt vy atDate emp =
      max 0 (min (mIdx (obtainEnd vy)) (mIdx atDate + 1) -
        max (mIdx (obtainStart vy)) (mIdx emp)) := by
  unfold earnedMonthsInt
  simp only [obtainStart, obtainEnd, startOfMonth, addMonthsMS, diffMonthsMS, mIdx,
    YMD.ltb, decide_eq_true_eq, Bool.or_eq_true, Bool.and_eq_true]
  split_ifs <;> (try simp only [YMD_y_mk, YMD_m_mk, YMD_d_mk] at *) <;> omega

/-- **C8**.  Monotonic earning (no consumption: `earnedInVacationYear` is
a pure function of the as-of date).  For any fixed period and valid
configuration: (1) the earned amount is non-decreasing in the as-of date;
(2) it depends only on the as-of date's calendar month (so it can change
only when the as-of date crosses into a new month); (3) between
consecutive months it changes by exactly one 2.08 increment or not at
all. -/
theorem C8_theorem (vy : Int) (emp : YMD) (he1 : 1 ≤ emp.m) (he2 : emp.m ≤ 12) :
    (∀ d d' : YMD, 1 ≤ d.m → d.m ≤ 12 → 1 ≤ d'.m → d'.m ≤ 12 → dateLe d d' →
      earnedInVacationYear vy d emp ≤ earnedInVacationYear vy d' emp) ∧
    (∀ d d' : YMD, d.y = d'.y → d.m = d'.m →
      earnedInVacationYear vy d emp = earnedInVacationYear vy d' emp) ∧
    (∀ d d' : YMD, mIdx d' = mIdx d + 1 →
      earnedInVacationYear vy d' emp - earnedInVacationYear vy d emp = 0 ∨
        earnedInVacationYear vy d' emp - earnedInVacationYear vy d emp = monthlyRate) := by
  refine ⟨?_, ?_, ?_⟩
  · intro d d' h1 h2 h3 h4 hle
    have hm : mIdx d ≤ mIdx d' := by
      rw [dateLe_iff] at hle
      simp only [mIdx]
      omega
    rw [earned_eq_months, earned_eq_months,
      earnedMonthsInt_closed vy d emp he1 he2, earnedMonthsInt_closed vy d' emp he1 he2]
    exact mul_le_mul_of_nonneg_right (Int.cast_le.mpr (by omega)) monthlyRate_pos.le
  · intro d d' hy hm
    have hsm : startOfMonth d = startOfMonth d' := by
      simp [startOfMonth, hy, hm]
    unfold earnedInVacationYear
    rw [hsm]
  · intro d d' hinc
    rw [earned_eq_months, earned_eq_months,
      earnedMonthsInt_closed vy d emp he1 he2, earnedMonthsInt_closed vy d' emp he1 he2,
      hinc]
    have key : max 0 (min (mIdx (obtainEnd vy)) (mIdx d + 1 + 1) -
          max (mIdx (obtainStart vy)) (mIdx emp)) =
        max 0 (min (mIdx (obtainEnd vy)) (mIdx d + 1) -
          max (mIdx (obtainStart vy)) (mIdx emp)) ∨
        max 0 (min (mIdx (obtainEnd vy)) (mIdx d + 1 + 1) -
          max (mIdx (obtainStart vy)) (mIdx emp)) =
        max 0 (min (mIdx (obtainEnd vy)) (mIdx d + 1) -
          max (mIdx (obtainStart vy)) (mIdx emp)) + 1 := by
      omega
    rcases key with h | h <;> rw [h]
    · left; ring
    · right; push_cast; ring

/-- **C8** (witness).  Concrete instances: from mid-October 2025 to
early November 2025 the earned amount for period 2025 does not decrease,
and the step between those months is 0 or exactly one 2.08 increment. -/
theorem C8_witness :
    earnedInVacationYear 2025 ⟨2025, 10, 15⟩ ⟨2025, 9, 1⟩ ≤
        earnedInVacationYear 2025 ⟨2025, 11, 3⟩ ⟨2025, 9, 1⟩ ∧
      (earnedInVacationYear 2025 ⟨2025, 11, 20⟩ ⟨2025, 9, 1⟩ -
          earnedInVacationYear 2025 ⟨2025, 10, 15⟩ ⟨2025, 9, 1⟩ = 0 ∨
        earnedInVacationYear 2025 ⟨2025, 11, 20⟩ ⟨2025, 9, 1⟩ -
          earnedInVacationYear 2025 ⟨2025, 10, 15⟩ ⟨2025, 9, 1⟩ = monthlyRate) := by
  constructor
  · exact (C8_theorem 2025 ⟨2025, 9, 1⟩ (by norm_num) (by norm_num)).1
      ⟨2025, 10, 15⟩ ⟨2025, 11, 3⟩ (by norm_num) (by norm_num) (by norm_num)
      (by norm_num) (by decide)
  · exact (C8_theorem 2025 ⟨2025, 9, 1⟩ (by norm_num) (by norm_num)).2.2
      ⟨2025, 10, 15⟩ ⟨2025, 11, 20⟩ (by decide)

/-! ### Classification and merge-walk lemmas -/

theorem classifyStep_lookup (startDate : YMD) (hol sel : YMD → Bool)
    (r : YMD → Option DayStatus) (d x : YMD) :
    classifyStep startDate hol sel r d x =
      if d = x ∧ (staticStatus startDate hol sel d).isSome then
        staticStatus startDate hol sel d
      else r x := by
  unfold classifyStep staticStatus updStatus
  split_ifs with h1 h2 h3 h4 h5 h6 h7 <;>
    simp_all <;> tauto

theorem classifyFold_lookup (startDate : YMD) (hol sel : YMD → Bool) :
    ∀ (dates : List YMD) (r : YMD → Option DayStatus) (x : YMD),
      dates.foldl (classifyStep startDate hol sel) r x =
        if x ∈ dates ∧ (staticStatus startDate hol sel x).isSome then
          staticStatus startDate hol sel x
        else r x := by
  intro dates
  induction dates with
  | nil => intro r x; simp
  | cons d ds ihl =>
    intro r x
    simp only [List.foldl_cons]
    rw [ihl]
    rw [classifyStep_lookup]
    by_cases hx : x ∈ ds ∧ (staticStatus startDate hol sel x).isSome
    · rw [if_pos hx, if_pos ⟨List.mem_cons_of_mem d hx.1, hx.2⟩]
    · rw [if_neg hx]
      by_cases hd : d = x ∧ (staticStatus startDate hol sel d).isSome
      · obtain ⟨hdx, hds⟩ := hd
        subst hdx
        rw [if_pos ⟨rfl, hds⟩, if_pos ⟨List.mem_cons_self d ds, hds⟩]
      · rw [if_neg hd]
        by_cases hmem : x ∈ d :: ds ∧ (staticStatus startDate hol sel x).isSome
        · exfalso
          rcases List.mem_cons.mp hmem.1 with h | h
          · exact hd ⟨h.symm, h ▸ hmem.2⟩
          · exact hx ⟨h, hmem.2⟩
        · rw [if_neg hmem]

theorem classifyStaticDates_lookup (dates : List YMD) (startDate : YMD)
    (hol sel : YMD → Bool) (x : YMD) :
    classifyStaticDates dates startDate hol sel x =
      if x ∈ dates ∧ (staticStatus startDate hol sel x).isSome then
        staticStatus startDate hol sel x
      else none := by
  unfold classifyStaticDates
  rw [classifyFold_lookup]

theorem statusWalk_preserves (xc init cap adv : ℚ) :
    ∀ (l : List YMD) (events : List TimelineEvent) (ys : List VacationYearState)
      (result : YMD → Option DayStatus) (x : YMD),
      (result x).isSome →
      statusWalk xc init cap adv l events ys result x = result x := by
  intro l
  induction l with
  | nil => intro events ys result x _; rfl
  | cons d ds ihl =>
    intro events ys result x hx
    simp only [statusWalk]
    by_cases hd : (result d).isSome
    · rw [if_pos hd]
      exact ihl _ _ result x hx
    · rw [if_neg hd]
      have hupd : (updStatus result d
          (statusFromBalance
            (computeTotalActiveBalance
              (allocateDay d (applyEventsUpTo d xc init cap events ys).2 init) init)
            adv) x).isSome := by
        unfold updStatus
        by_cases hxd : x = d
        · simp [hxd]
        · simpa [hxd] using hx
      rw [ihl _ _ _ x hupd]
      unfold updStatus
      by_cases hxd : x = d
      · subst hxd; exact absurd hx (by simpa using hd)
      · simp [hxd]

theorem statusWalk_lookup (xc init cap adv : ℚ) :
    ∀ (l : List YMD) (events : List TimelineEvent) (ys : List VacationYearState)
      (result : YMD → Option DayStatus) (D : YMD),
      List.Sorted dateLe l → D ∈ l → result D = none →
      statusWalk xc init cap adv l events ys result D =
        some (statusFromBalance
          (computeTotalActiveBalance (walkStateAt xc init cap l (events, ys) D) init)
          adv) := by
  intro l
  induction l with
  | nil => intro _ _ _ D _ hD; simp at hD
  | cons a ds ihl =>
    intro events ys result D hsort hD hnone
    by_cases haD : a = D
    · subst haD
      have htake : (a :: ds).takeWhile (fun d => YMD.ltb d a) = [] := by
        simp [List.takeWhile, YMD.ltb]
      simp only [statusWalk, if_neg (by simp [hnone] : ¬ (result a).isSome = true)]
      have hres2 : (updStatus result a
          (statusFromBalance
            (computeTotalActiveBalance
              (allocateDay a (applyEventsUpTo a xc init cap events ys).2 init) init)
            adv) a).isSome := by
        simp [updStatus]
      rw [statusWalk_preserves xc init cap adv ds _ _ _ a hres2]
      unfold walkStateAt
      rw [htake]
      simp [updStatus, runConsume]
    · have hDds : D ∈ ds := by
        rcases List.mem_cons.mp hD with h | h
        · exact absurd h.symm haD
        · exact h
      have haleD : dateLe a D := (List.sorted_cons.mp hsort).1 D hDds
      have haltD : YMD.ltb a D = true := by
        rw [ltb_iff_not_leb]
        intro hDa
        exact haD (antisymm haleD hDa)
      have htake : (a :: ds).takeWhile (fun d => YMD.ltb d D) =
          a :: ds.takeWhile (fun d => YMD.ltb d D) := by
        simp [List.takeWhile, haltD]
      simp only [statusWalk]
      have hres2none :
          (if (result a).isSome then result
           else updStatus result a
            (statusFromBalance
              (computeTotalActiveBalance
                (allocateDay a (applyEventsUpTo a xc init cap events ys).2 init) init)
              adv)) D = none := by
        by_cases ha : (result a).isSome
        · rw [if_pos ha]; exact hnone
        · rw [if_neg ha]
          unfold updStatus
          rw [if_neg (fun h => haD h.symm)]
          exact hnone
      rw [ihl _ _ _ D (List.sorted_cons.mp hsort).2 hDds hres2none]
      unfold walkStateAt
      rw [htake]
      simp only [runConsume, List.foldl_cons]

theorem computeAllStatuses_eq (dates sel : List YMD) (hol : YMD → Bool)
    (startDate : YMD) (init : ℚ) (extraM : Int) (xc adv cap : ℚ) :
    computeAllStatuses dates sel hol startDate init extraM xc adv cap =
      (if (sortedNonHolidaySelected sel hol).isEmpty then
        classifyStaticDates dates startDate hol (fun x => decide (x ∈ sel))
      else
        statusWalk xc init cap adv (sortedNonHolidaySelected sel hol)
          (batchEnv sel hol startDate extraM).1 (batchEnv sel hol startDate extraM).2
          (classifyStaticDates dates startDate hol (fun x => decide (x ∈ sel)))) := by
  unfold computeAllStatuses batchEnv
  rfl

theorem activeBalanceSum_eq_sum :
    ∀ (ys : List VacationYearState) (init : ℚ),
      activeBalanceSum ys init =
        ((List.range ys.length).map (fun i =>
          if (ys.getD i dfltVY).expired then 0
          else stateBalance (initAt init i) (ys.getD i dfltVY))).sum := by
  intro ys
  induction ys with
  | nil => intro init; simp [activeBalanceSum]
  | cons vy rest ihl =>
    intro init
    have hstep : activeBalanceSum (vy :: rest) init =
        (if vy.expired then 0 else stateBalance init vy) + activeBalanceSum rest 0 := by
      simp only [activeBalanceSum, stateBalance]
    rw [hstep, ihl 0, List.length_cons, List.range_succ_eq_map, List.map_cons,
      List.sum_cons, List.map_map]
    congr 1
    apply congrArg
    apply List.map_congr_left
    intro i _
    simp [Function.comp, initAt]

/-- `computeTotalActiveBalance` is the sum, over the non-expired ledgers,
of `earned + extra + transferred − used`, plus the initial grant at the
first ledger. -/
theorem computeTotalActiveBalance_eq_sum (ys : List VacationYearState) (init : ℚ) :
    computeTotalActiveBalance ys init =
      ((List.range ys.length).map (fun i =>
        if (ys.getD i dfltVY).expired then 0
        else stateBalance (initAt init i) (ys.getD i dfltVY))).sum :=
  activeBalanceSum_eq_sum ys init

theorem statusWalk_congr (xc init cap adv : ℚ) :
    ∀ (l : List YMD) (events : List TimelineEvent) (ys : List VacationYearState)
      (r1 r2 : YMD → Option DayStatus), (∀ y, r1 y = r2 y) →
      ∀ x, statusWalk xc init cap adv l events ys r1 x =
        statusWalk xc init cap adv l events ys r2 x := by
  intro l
  induction l with
  | nil => intro events ys r1 r2 h x; exact h x
  | cons d ds ihl =>
    intro events ys r1 r2 h x
    simp only [statusWalk]
    rw [h d]
    by_cases hd : (r2 d).isSome
    · rw [if_pos hd, if_pos hd]
      exact ihl _ _ r1 r2 h x
    · rw [if_neg hd, if_neg hd]
      apply ihl
      intro y
      unfold updStatus
      by_cases hyd : y = d
      · simp [hyd]
      · simp only [if_neg hyd]
        exact h y

/-- **C7**.  In the batch evaluator, every consumed non-holiday date at or
after `employmentStartDate` is classified by applying `statusFromBalance`
(`≥ 0` → ok, `≥ −advanceDays` → warning, else overdrawn) to the total
active balance of the walk state immediately after allocating the date;
and that total is exactly the sum over all non-expired ledgers of
`earned + extra + transferred − used`, plus the initial grant when the
first ledger is non-expired. -/
theorem C7_theorem (dates selectedDates : List YMD) (hol : YMD → Bool)
    (startDate : YMD) (init : ℚ) (extraM : Int) (xc adv cap : ℚ) (D : YMD)
    (hmem : D ∈ selectedDates) (hhol : hol D = false)
    (hstart : YMD.leb startDate D = true) :
    computeAllStatuses dates selectedDates hol startDate init extraM xc adv cap D =
      some (statusFromBalance
        (computeTotalActiveBalance
          (batchStateAt selectedDates hol startDate init extraM xc cap D) init) adv) ∧
    (∀ (ys : List VacationYearState) (q : ℚ),
      computeTotalActiveBalance ys q =
        ((List.range ys.length).map (fun i =>
          if (ys.getD i dfltVY).expired then 0
          else stateBalance (initAt q i) (ys.getD i dfltVY))).sum) := by
  refine ⟨?_, computeTotalActiveBalance_eq_sum⟩
  have hDf : D ∈ selectedDates.filter (fun d => !hol d) :=
    List.mem_filter.mpr ⟨hmem, by simp [hhol]⟩
  have hDs : D ∈ sortedNonHolidaySelected selectedDates hol :=
    (sortDates_perm _).mem_iff.mpr hDf
  have hne : ¬ (sortedNonHolidaySelected selectedDates hol).isEmpty = true := by
    intro h
    rw [List.isEmpty_iff] at h
    rw [h] at hDs
    simp at hDs
  rw [computeAllStatuses_eq, if_neg hne]
  have hclass : classifyStaticDates dates startDate hol
      (fun x => decide (x ∈ selectedDates)) D = none := by
    rw [classifyStaticDates_lookup]
    have hstat : staticStatus startDate hol (fun x => decide (x ∈ selectedDates)) D =
        none := by
      unfold staticStatus
      rw [if_neg, if_neg, if_neg]
      · simp [hmem]
      · simp [hhol]
      · intro hcon
        rw [leb_iff_not_ltb] at hstart
        exact hstart hcon
    rw [hstat]
    simp
  have hsort : List.Sorted dateLe (sortedNonHolidaySelected selectedDates hol) :=
    sortDates_sorted _
  have hw := statusWalk_lookup xc init cap adv
    (sortedNonHolidaySelected selectedDates hol)
    (batchEnv selectedDates hol startDate extraM).1
    (batchEnv selectedDates hol startDate extraM).2
    (classifyStaticDates dates startDate hol (fun x => decide (x ∈ selectedDates)))
    D hsort hDs hclass
  rw [hw]
  rfl

/-- **C7** (witness).  A concrete instance: one consumed weekday after the
employment start is classified from the total active balance of the walk
state at that date. -/
theorem C7_witness :
    computeAllStatuses [] [⟨2026, 1, 5⟩] (fun _ => false) ⟨2026, 1, 1⟩ 10 5 0 0 5
        ⟨2026, 1, 5⟩ =
      some (statusFromBalance
        (computeTotalActiveBalance
          (batchStateAt [⟨2026, 1, 5⟩] (fun _ => false) ⟨2026, 1, 1⟩ 10 5 0 5
            ⟨2026, 1, 5⟩) 10) 0) :=
  (C7_theorem [] [⟨2026, 1, 5⟩] (fun _ => false) ⟨2026, 1, 1⟩ 10 5 0 0 5 ⟨2026, 1, 5⟩
    (by simp) rfl (by with_unfolding_all decide)).1

/-- **C9**.  A selected non-holiday date strictly before the employment
start that appears in the classified date list keeps the `before-start`
status (the merge-walk never overwrites an existing status), yet it *is*
in the consumption list fed to the walk (which filters only holidays), so
it is allocated like any other consumed day — concretely, adding the
before-start date `2026-01-15` to the selection flips `2026-02-03` from
`selected-ok` to `selected-overdrawn` while `2026-01-15` itself reads
`before-start`. -/
theorem C9_theorem (dates selectedDates : List YMD) (hol : YMD → Bool)
    (startDate : YMD) (init : ℚ) (extraM : Int) (xc adv cap : ℚ) (D : YMD)
    (hdates : D ∈ dates) (hlt : YMD.ltb D startDate = true) (hhol : hol D = false)
    (hsel : D ∈ selectedDates) :
    computeAllStatuses dates selectedDates hol startDate init extraM xc adv cap D =
        some DayStatus.beforeStart ∧
      D ∈ sortedNonHolidaySelected selectedDates hol ∧
      (computeAllStatuses [⟨2026, 1, 15⟩]
          [⟨2026, 1, 15⟩, ⟨2026, 2, 2⟩, ⟨2026, 2, 3⟩] (fun _ => false)
          ⟨2026, 2, 1⟩ 0 5 0 0 5 ⟨2026, 2, 3⟩ = some DayStatus.selectedOverdrawn ∧
        computeAllStatuses [] [⟨2026, 2, 2⟩, ⟨2026, 2, 3⟩] (fun _ => false)
          ⟨2026, 2, 1⟩ 0 5 0 0 5 ⟨2026, 2, 3⟩ = some DayStatus.selectedOk ∧
        computeAllStatuses [⟨2026, 1, 15⟩]
          [⟨2026, 1, 15⟩, ⟨2026, 2, 2⟩, ⟨2026, 2, 3⟩] (fun _ => false)
          ⟨2026, 2, 1⟩ 0 5 0 0 5 ⟨2026, 1, 15⟩ = some DayStatus.beforeStart) := by
  have hDf : D ∈ selectedDates.filter (fun d => !hol d) :=
    List.mem_filter.mpr ⟨hsel, by simp [hhol]⟩
  have hDs : D ∈ sortedNonHolidaySelected selectedDates hol :=
    (sortDates_perm _).mem_iff.mpr hDf
  refine ⟨?_, hDs, ?_, ?_, ?_⟩
  · have hclass : classifyStaticDates dates startDate hol
        (fun x => decide (x ∈ selectedDates)) D = some DayStatus.beforeStart := by
      rw [classifyStaticDates_lookup]
      have hstat : staticStatus startDate hol (fun x => decide (x ∈ selectedDates)) D =
          some DayStatus.beforeStart := by
        unfold staticStatus
        rw [if_pos hlt]
      rw [hstat]
      simp [hdates]
    rw [computeAllStatuses_eq]
    by_cases hemp : (sortedNonHolidaySelected selectedDates hol).isEmpty = true
    · rw [if_pos hemp]; exact hclass
    · rw [if_neg hemp]
      rw [statusWalk_preserves xc init cap adv _ _ _ _ D (by simp [hclass])]
      exact hclass
  · with_unfolding_all decide
  · with_unfolding_all decide
  · with_unfolding_all decide

/-- **C9** (witness).  The universal part of `C9_theorem` applied to the
concrete before-start date of its own scenario. -/
theorem C9_witness :
    computeAllStatuses [⟨2026, 1, 15⟩] [⟨2026, 1, 15⟩, ⟨2026, 2, 2⟩, ⟨2026, 2, 3⟩]
        (fun _ => false) ⟨2026, 2, 1⟩ 0 5 0 0 5 ⟨2026, 1, 15⟩ =
        some DayStatus.beforeStart ∧
      (⟨2026, 1, 15⟩ : YMD) ∈
        sortedNonHolidaySelected [⟨2026, 1, 15⟩, ⟨2026, 2, 2⟩, ⟨2026, 2, 3⟩]
          (fun _ => false) := by
  have h := C9_theorem [⟨2026, 1, 15⟩] [⟨2026, 1, 15⟩, ⟨2026, 2, 2⟩, ⟨2026, 2, 3⟩]
    (fun _ => false) ⟨2026, 2, 1⟩ 0 5 0 0 5 ⟨2026, 1, 15⟩
    (by simp) (by with_unfolding_all decide) rfl (by simp)
  exact ⟨h.1, h.2.1⟩

/-- **C10**.  `computeAllStatuses` is invariant under permutation of the
`dates` and `selectedDates` arrays: the status map it returns is
pointwise identical. -/
theorem C10_theorem (dates1 dates2 sel1 sel2 : List YMD) (hol : YMD → Bool)
    (startDate : YMD) (init : ℚ) (extraM : Int) (xc adv cap : ℚ)
    (hd : dates1.Perm dates2) (hs : sel1.Perm sel2) :
    ∀ x, computeAllStatuses dates1 sel1 hol startDate init extraM xc adv cap x =
      computeAllStatuses dates2 sel2 hol startDate init extraM xc adv cap x := by
  intro x
  have hsorted : sortedNonHolidaySelected sel1 hol = sortedNonHolidaySelected sel2 hol :=
    sortDates_eq_of_perm (hs.filter _)
  have hstatic : ∀ y, staticStatus startDate hol (fun z => decide (z ∈ sel1)) y =
      staticStatus startDate hol (fun z => decide (z ∈ sel2)) y := by
    intro y
    unfold staticStatus
    by_cases h1 : YMD.ltb y startDate = true
    · rw [if_pos h1, if_pos h1]
    · rw [if_neg h1, if_neg h1]
      by_cases h2 : hol y = true
      · rw [if_pos h2, if_pos h2]
      · rw [if_neg h2, if_neg h2]
        by_cases h3 : y ∈ sel1
        · have h4 : y ∈ sel2 := hs.mem_iff.mp h3
          simp [h3, h4]
        · have h4 : y ∉ sel2 := fun h => h3 (hs.mem_iff.mpr h)
          simp [h3, h4]
  have hclassify : ∀ y, classifyStaticDates dates1 startDate hol
      (fun z => decide (z ∈ sel1)) y =
      classifyStaticDates dates2 startDate hol (fun z => decide (z ∈ sel2)) y := by
    intro y
    rw [classifyStaticDates_lookup, classifyStaticDates_lookup, hstatic y]
    by_cases hy : y ∈ dates1 ∧
        (staticStatus startDate hol (fun z => decide (z ∈ sel2)) y).isSome
    · rw [if_pos hy, if_pos ⟨hd.mem_iff.mp hy.1, hy.2⟩]
    · rw [if_neg hy, if_neg (fun hc => hy ⟨hd.mem_iff.mpr hc.1, hc.2⟩)]
  rw [computeAllStatuses_eq, computeAllStatuses_eq, hsorted]
  by_cases hemp : (sortedNonHolidaySelected sel2 hol).isEmpty = true
  · rw [if_pos hemp, if_pos hemp]
    exact hclassify x
  · rw [if_neg hemp, if_neg hemp]
    unfold batchEnv
    rw [hsorted]
    exact statusWalk_congr xc init cap adv _ _ _ _ _ hclassify x

/-- **C10** (witness).  Two concrete permuted calls agree at a probed
date. -/
theorem C10_witness :
    computeAllStatuses [⟨2026, 1, 5⟩, ⟨2026, 1, 6⟩] [⟨2026, 1, 6⟩, ⟨2026, 1, 5⟩]
        (fun _ => false) ⟨2026, 1, 1⟩ 0 5 0 0 5 ⟨2026, 1, 6⟩ =
      computeAllStatuses [⟨2026, 1, 6⟩, ⟨2026, 1, 5⟩] [⟨2026, 1, 5⟩, ⟨2026, 1, 6⟩]
        (fun _ => false) ⟨2026, 1, 1⟩ 0 5 0 0 5 ⟨2026, 1, 6⟩ :=
  C10_theorem [⟨2026, 1, 5⟩, ⟨2026, 1, 6⟩] [⟨2026, 1, 6⟩, ⟨2026, 1, 5⟩]
    [⟨2026, 1, 6⟩, ⟨2026, 1, 5⟩] [⟨2026, 1, 5⟩, ⟨2026, 1, 6⟩]
    (fun _ => false) ⟨2026, 1, 1⟩ 0 5 0 0 5
    (List.Perm.swap _ _ _) (List.Perm.swap _ _ _) ⟨2026, 1, 6⟩

/-- **C2** (counterexample).  At `employmentStartDate = 2025-09-01`,
`initialDays = 0`, no extra grants, no consumption, as-of `2026-01-01`,
the snapshot evaluator returns a single 2025 ledger whose `earned` is
`10.4` — five monthly increments (Sep, Oct, Nov, Dec and the January of
the as-of date), not four increments `≈ 8.32` as the claim states; the
difference is a full increment of 2.08. -/
theorem C2_counterexample :
    (getVacationYearBalances ⟨2025, 9, 1⟩ 0 5 0 [] (fun _ => false) ⟨2026, 1, 1⟩ 5).map
        (fun b => b.earned) = [52/5] ∧
      (52/5 : ℚ) ≠ 4 * monthlyRate ∧ ¬ |52/5 - 4 * monthlyRate| < (2 : ℚ) := by
  refine ⟨?_, ?_, ?_⟩
  · with_unfolding_all decide
  · with_unfolding_all decide
  · with_unfolding_all decide

/-- **C2** (amended).  For `employmentStartDate = 2025-09-01`,
`initialDays = 0`, no extra grants, no consumption and as-of date
`2026-01-01`, the snapshot evaluator returns exactly one ledger with
`periodYear = 2025`, `earned = 10.4` (five monthly increments of 2.08:
September through January — the month of the as-of date is credited in
full), and `expired = false`. -/
theorem C2_amended_theorem :
    getVacationYearBalances ⟨2025, 9, 1⟩ 0 5 0 [] (fun _ => false) ⟨2026, 1, 1⟩ 5 =
        [⟨2025, 52/5, 0, 0, 0, 52/5, 0, false⟩] ∧
      (52/5 : ℚ) = 5 * monthlyRate := by
  constructor
  · with_unfolding_all decide
  · with_unfolding_all decide

/-- **C3**.  With `extraGrantMonth = 9` the code violates the claim: the
obtain-window check uses an inclusive upper bound `<= obtain.end`
(`Sep 1, periodYear+1`), so both overlapping calendar years qualify and
the grant is applied twice in one period — `extraInVacationYear` returns
`2 × extraGrantCount` and the timeline builder emits two `extra` events
for the period.  The claim (and the source's own documentation of the
obtain period as `Sep 1 → Aug 31`, exclusive end) says the grant date must
lie in the half-open window and be granted at most once. -/
theorem C3_theorem :
    extraInVacationYear 2025 ⟨2026, 9, 1⟩ ⟨2025, 9, 1⟩ 9 5 = 2 * 5 ∧
      ((buildTimelineEvents 2025 1 ⟨2025, 9, 1⟩ ⟨2025, 9, 1⟩ 9).filter
          (fun e => decide (e.kind = EventKind.extra))).length = 2 := by
  constructor
  · with_unfolding_all decide
  · with_unfolding_all decide

/-- **C4** (counterexample).  `statusFromBalance` has no finiteness guard:
with `advanceDays = Infinity`, the test `balance >= -advanceDays` is
`balance >= -Infinity`, true for every finite balance, so a negative
balance is classified `selected-warning`, while `advanceDays = 0`
classifies it `selected-overdrawn`. -/
theorem C4_counterexample :
    statusFromBalanceJS (.fin (-1)) .posInf = .selectedWarning ∧
      statusFromBalanceJS (.fin (-1)) (.fin 0) = .selectedOverdrawn ∧
      statusFromBalanceJS (.fin (-1)) .posInf ≠ statusFromBalanceJS (.fin (-1)) (.fin 0) := by
  refine ⟨?_, ?_, ?_⟩ <;> with_unfolding_all decide

/-- **C4** (amended).  Only `NaN` behaves like `0`: for every balance,
`statusFromBalance(b, NaN) = statusFromBalance(b, 0)` (a NaN comparison is
false, so any negative balance is overdrawn), but `advanceDays = Infinity`
never yields `selected-overdrawn` — non-finite `advanceDays` is **not**
uniformly treated as 0. -/
theorem C4_amended_theorem :
    (∀ b : JSNum, statusFromBalanceJS b .nan = statusFromBalanceJS b (.fin 0)) ∧
      (∀ q : ℚ, statusFromBalanceJS (.fin q) .posInf ≠ .selectedOverdrawn) := by
  constructor
  · intro b
    cases b with
    | nan => rfl
    | posInf => rfl
    | negInf => rfl
    | fin q =>
      by_cases h : (0 : ℚ) ≤ q <;>
        simp [statusFromBalanceJS, JSNum.geJS, JSNum.negJS, h]
  · intro q
    by_cases h : (0 : ℚ) ≤ q <;>
      simp [statusFromBalanceJS, JSNum.geJS, JSNum.negJS, h]

/-- Coherence of the IEEE model with the rational embedding: on finite
doubles, `statusFromBalanceJS` is `statusFromBalance`. -/
theorem statusFromBalanceJS_fin (b a : ℚ) :
    statusFromBalanceJS (.fin b) (.fin a) = statusFromBalance b a := by
  simp only [statusFromBalanceJS, statusFromBalance, JSNum.geJS, JSNum.negJS,
    decide_eq_true_eq]

/-! ### Evaluator equivalence (C1) -/

theorem Q25_zero : Q25 0 := ⟨0, by norm_num⟩

theorem Q25_one : Q25 1 := ⟨25, by norm_num⟩

theorem Q25_rate : Q25 monthlyRate := ⟨52, by norm_num [monthlyRate]⟩

theorem Q25_add {a b : ℚ} (ha : Q25 a) (hb : Q25 b) : Q25 (a + b) := by
  obtain ⟨k, hk⟩ := ha
  obtain ⟨l, hl⟩ := hb
  exact ⟨k + l, by rw [hk, hl]; push_cast; ring⟩

theorem Q25_sub {a b : ℚ} (ha : Q25 a) (hb : Q25 b) : Q25 (a - b) := by
  obtain ⟨k, hk⟩ := ha
  obtain ⟨l, hl⟩ := hb
  exact ⟨k - l, by rw [hk, hl]; push_cast; ring⟩

theorem Q25_min {a b : ℚ} (ha : Q25 a) (hb : Q25 b) : Q25 (min a b) := by
  rcases le_total a b with h | h
  · rw [min_eq_left h]; exact ha
  · rw [min_eq_right h]; exact hb

theorem Q25_natCast_mul {r : ℚ} (n : ℕ) (h : Q25 r) : Q25 (r * (n : ℚ)) := by
  obtain ⟨k, hk⟩ := h
  exact ⟨k * n, by rw [hk]; push_cast; ring⟩

theorem Q25_intCast_mul {r : ℚ} (n : ℤ) (h : Q25 r) : Q25 ((n : ℚ) * r) := by
  obtain ⟨k, hk⟩ := h
  exact ⟨n * k, by rw [hk]; push_cast; ring⟩

theorem Q25_small {r : ℚ} (h : Q25 r) (h0 : 0 ≤ r) (he : r ≤ EPS) : r = 0 := by
  obtain ⟨k, hk⟩ := h
  subst hk
  rw [EPS] at he
  have h1 : (0 : ℚ) ≤ (k : ℚ) := by linarith
  have h2 : (k : ℚ) < 1 := by linarith
  have h3 : (0 : ℤ) ≤ k := by exact_mod_cast h1
  have h4 : k < 1 := by exact_mod_cast h2
  have h5 : k = 0 := by omega
  subst h5
  norm_num

theorem leb_of_ltb {a b : YMD} (h : YMD.ltb a b = true) : YMD.leb a b = true := by
  rw [ltb_iff] at h
  rw [leb_iff, dateLe_iff]
  omega

theorem leb_trans {a b c : YMD} (h₁ : YMD.leb a b = true) (h₂ : YMD.leb b c = true) :
    YMD.leb a c = true :=
  leb_iff.mpr (dateLe_trans (leb_iff.mp h₁) (leb_iff.mp h₂))

theorem leb_monthStart (sy sm : Int) (D : YMD) (hm1 : 1 ≤ sm) (hm2 : sm ≤ 12)
    (hD1 : 1 ≤ D.m) (hD2 : D.m ≤ 12) (hD3 : 1 ≤ D.d) :
    YMD.leb ⟨sy, sm, 1⟩ D = decide (sy * 12 + (sm - 1) ≤ mIdx D) := by
  rw [Bool.eq_iff_iff, leb_iff, dateLe_iff, decide_eq_true_eq]
  simp only [YMD_y_mk, YMD_m_mk, YMD_d_mk, mIdx]
  omega

theorem mIdx_effEarn (yr : Int) (start : YMD) (h1 : 1 ≤ start.m) (h2 : start.m ≤ 12) :
    mIdx (if YMD.ltb (startOfMonth start) (obtainStart yr) then obtainStart yr
      else startOfMonth start) =
      max (mIdx (obtainStart yr)) (mIdx (startOfMonth start)) := by
  simp only [startOfMonth, obtainStart, ltb_iff, YMD_y_mk, YMD_m_mk, YMD_d_mk, mIdx]
  split_ifs with h <;> simp only [YMD_y_mk, YMD_m_mk] <;> omega

theorem countP_range_le (A K : Int) :
    ∀ N : ℕ, (((List.range N).countP (fun (m : ℕ) => decide (A + (m : Int) ≤ K))) : ℤ) =
      max 0 (min (N : ℤ) (K - A + 1)) := by
  intro N
  induction N with
  | zero => simp
  | succ n ih =>
    rw [List.range_succ, List.countP_append]
    have hsingle : List.countP (fun (m : ℕ) => decide (A + (m : Int) ≤ K)) [n] =
        if A + (n : Int) ≤ K then 1 else 0 := by
      simp only [List.countP_cons, List.countP_nil, decide_eq_true_eq]
      split_ifs with h <;> omega
    rw [hsingle]
    split_ifs with h <;> push_cast <;> omega

theorem countP_flatMap {α β : Type} (f : α → List β) (p : β → Bool) :
    ∀ xs : List α, (xs.flatMap f).countP p = (xs.map (fun x => (f x).countP p)).sum := by
  intro xs
  induction xs with
  | nil => simp
  | cons x rest ih => simp [List.flatMap_cons, List.countP_append, ih]

theorem sum_map_range_single (c : ℕ → ℕ) :
    ∀ n i : ℕ, ((List.range n).map (fun j => if j = i then c j else 0)).sum =
      if i < n then c i else 0 := by
  intro n i
  induction n with
  | zero => simp
  | succ m ih =>
    rw [List.range_succ, List.map_append, List.sum_append]
    simp only [List.map_cons, List.map_nil, List.sum_cons, List.sum_nil]
    by_cases h : m = i
    · subst h
      rw [ih, if_neg (lt_irrefl m), if_pos rfl, if_pos (Nat.lt_succ_self m)]
      omega
    · rw [if_neg h, ih]
      by_cases h2 : i < m
      · rw [if_pos h2, if_pos (Nat.lt_succ_of_lt h2)]
        omega
      · rw [if_neg h2, if_neg (by omega)]
        omega

theorem dropWhile_events_ge (dd : YMD) :
    ∀ E : List TimelineEvent, List.Sorted eventLe E →
      ∀ e ∈ E.dropWhile (fun e => YMD.leb e.date dd), YMD.leb e.date dd = false := by
  intro E
  induction E with
  | nil => intro _ e he; simp [List.dropWhile] at he
  | cons a E ih =>
    intro hs e he
    rw [List.dropWhile_cons] at he
    by_cases ha : YMD.leb a.date dd = true
    · rw [if_pos ha] at he
      exact ih hs.of_cons e he
    · rw [if_neg ha] at he
      rcases List.mem_cons.mp he with rfl | hmem
      · simpa using ha
      · have hae : eventLe a e := (List.sorted_cons.mp hs).1 e hmem
        rw [Bool.eq_false_iff]
        intro hc
        have h1 : YMD.leb a.date e.date = true := by
          rcases hae with h | ⟨h, _⟩
          · exact leb_of_ltb h
          · rw [h]; exact leb_iff.mpr (dateLe_refl _)
        exact ha (leb_trans h1 hc)

theorem takeWhile_eq_filter_lt (D : YMD) :
    ∀ l : List YMD, List.Sorted dateLe l →
      l.takeWhile (fun d => YMD.ltb d D) = l.filter (fun d => YMD.ltb d D) := by
  intro l
  induction l with
  | nil => simp
  | cons a l ih =>
    intro hs
    rw [List.takeWhile_cons, List.filter_cons]
    by_cases ha : YMD.ltb a D = true
    · rw [if_pos ha, if_pos ha, ih hs.of_cons]
    · rw [if_neg ha, if_neg ha]
      have hnil : l.filter (fun d => YMD.ltb d D) = [] := by
        rw [List.filter_eq_nil_iff]
        intro e hmem
        have hae : dateLe a e := (List.sorted_cons.mp hs).1 e hmem
        simp only [Bool.not_eq_true]
        rw [Bool.eq_false_iff]
        intro hc
        have hlt : YMD.ltb a D = true := by
          rw [ltb_iff] at hc ⊢
          rw [dateLe_iff] at hae
          omega
        exact ha hlt
      rw [hnil]

theorem countP_le_split (D : YMD) :
    ∀ l : List YMD, l.countP (fun d => YMD.leb d D) =
      l.countP (fun d => YMD.ltb d D) + l.count D := by
  intro l
  induction l with
  | nil => simp
  | cons a l ih =>
    simp only [List.countP_cons, List.count_cons, ih, beq_iff_eq]
    have htri : (YMD.leb a D = true) ↔ (YMD.ltb a D = true ∨ a = D) := by
      obtain ⟨ay, am, ad⟩ := a
      obtain ⟨dy, dm, dd⟩ := D
      simp only [leb_iff, dateLe_iff, ltb_iff, YMD.mk.injEq, YMD_y_mk, YMD_m_mk, YMD_d_mk]
      omega
    by_cases h1 : YMD.leb a D = true
    · rcases htri.mp h1 with h2 | h2
      · have h3 : a ≠ D := by
          intro he
          subst he
          rw [ltb_iff] at h2
          omega
        rw [if_pos h1, if_pos h2, if_neg h3]
        omega
      · subst h2
        have h3 : YMD.ltb a a = false := by
          rw [Bool.eq_false_iff]
          intro hc
          rw [ltb_iff] at hc
          omega
        rw [if_pos h1, if_neg (by simp [h3] : ¬ YMD.ltb a a = true), if_pos rfl]
        omega
    · have h2 : ¬ YMD.ltb a D = true := fun hc => h1 (htri.mpr (Or.inl hc))
      have h3 : a ≠ D := fun hc => h1 (htri.mpr (Or.inr hc))
      rw [if_neg h1, if_neg h2, if_neg h3]
      omega

theorem sum_map_eq_range {α : Type} (f : α → ℚ) (dflt : α) :
    ∀ l : List α, (l.map f).sum =
      ((List.range l.length).map (fun i => f (l.getD i dflt))).sum := by
  intro l
  induction l with
  | nil => simp
  | cons a l ih =>
    rw [List.map_cons, List.sum_cons, ih, List.length_cons, List.range_succ_eq_map,
      List.map_cons, List.sum_cons, List.map_map]
    congr 1

theorem sumUsed_eq_map : ∀ ys : List VacationYearState,
    sumUsed ys = (ys.map (fun s => s.used)).sum := by
  intro ys
  induction ys with
  | nil => simp [sumUsed]
  | cons vy rest ih => simp [sumUsed, ih]

theorem sumAccrued_eq_map : ∀ ys : List VacationYearState,
    sumAccrued ys = (ys.map (fun s => s.earned + s.extra + s.transferred)).sum := by
  intro ys
  induction ys with
  | nil => simp [sumAccrued]
  | cons vy rest ih => simp [sumAccrued, ih]

theorem snapSumUsed_eq_map : ∀ bs : List VacationYearBalance,
    snapSumUsed bs = (bs.map (fun b => b.used)).sum := by
  intro bs
  induction bs with
  | nil => simp [snapSumUsed]
  | cons b rest ih => simp [snapSumUsed, ih]

theorem snapSumAccrued_eq_map : ∀ bs : List VacationYearBalance,
    snapSumAccrued bs = (bs.map (fun b => b.earned + b.extra + b.transferred)).sum := by
  intro bs
  induction bs with
  | nil => simp [snapSumAccrued]
  | cons b rest ih => simp [snapSumAccrued, ih]

theorem allocPass1_core (d : YMD) (ys : List VacationYearState) (rem ih : ℚ) (i : Nat) :
    (((allocPass1 d ys rem ih).1.getD i dfltVY).earned = (ys.getD i dfltVY).earned ∧
      ((allocPass1 d ys rem ih).1.getD i dfltVY).extra = (ys.getD i dfltVY).extra ∧
      ((allocPass1 d ys rem ih).1.getD i dfltVY).transferred =
        (ys.getD i dfltVY).transferred) ∧
    (((allocPass1 d ys rem ih).1.getD i dfltVY).expired = (ys.getD i dfltVY).expired ∧
      ((allocPass1 d ys rem ih).1.getD i dfltVY).usableEnd =
        (ys.getD i dfltVY).usableEnd) := by
  by_cases hi : i < ys.length
  · rcases allocPass1_elem d ys rem ih i hi with h | ⟨_, _, c, _, _, h⟩ <;>
      · rw [h]
        exact ⟨⟨rfl, rfl, rfl⟩, rfl, rfl⟩
  · have h1 : ys.getD i dfltVY = dfltVY := List.getD_eq_default _ _ (by omega)
    have h2 : (allocPass1 d ys rem ih).1.getD i dfltVY = dfltVY :=
      List.getD_eq_default _ _ (by rw [allocPass1_length]; omega)
    rw [h1, h2]
    exact ⟨⟨rfl, rfl, rfl⟩, rfl, rfl⟩

theorem allocPass2_length (d : YMD) (rem : ℚ) (ys : List VacationYearState) :
    (allocPass2 d rem ys).1.length = ys.length := by
  rcases Bool.eq_false_or_eq_true (allocPass2 d rem ys).2 with hb | hb
  · obtain ⟨t, htl, _, _, heq⟩ := (allocPass2_spec d rem ys).2 hb
    rw [heq, List.length_set]
  · rw [((allocPass2_spec d rem ys).1 hb).1]

theorem allocPass2_core (d : YMD) (rem : ℚ) (ys : List VacationYearState) (i : Nat) :
    (((allocPass2 d rem ys).1.getD i dfltVY).earned = (ys.getD i dfltVY).earned ∧
      ((allocPass2 d rem ys).1.getD i dfltVY).extra = (ys.getD i dfltVY).extra ∧
      ((allocPass2 d rem ys).1.getD i dfltVY).transferred =
        (ys.getD i dfltVY).transferred) ∧
    (((allocPass2 d rem ys).1.getD i dfltVY).expired = (ys.getD i dfltVY).expired ∧
      ((allocPass2 d rem ys).1.getD i dfltVY).usableEnd =
        (ys.getD i dfltVY).usableEnd) := by
  rcases Bool.eq_false_or_eq_true (allocPass2 d rem ys).2 with hb | hb
  · obtain ⟨t, htl, _, _, heq⟩ := (allocPass2_spec d rem ys).2 hb
    rw [heq]
    by_cases hit : t = i
    · subst hit
      rw [getD_set_self _ _ _ _ htl]
      exact ⟨⟨rfl, rfl, rfl⟩, rfl, rfl⟩
    · rw [getD_set_ne _ _ _ _ _ hit]
      exact ⟨⟨rfl, rfl, rfl⟩, rfl, rfl⟩
  · rw [((allocPass2_spec d rem ys).1 hb).1]
    exact ⟨⟨rfl, rfl, rfl⟩, rfl, rfl⟩

theorem allocateDay_length (d : YMD) (ys : List VacationYearState) (init : ℚ) :
    (allocateDay d ys init).length = ys.length := by
  unfold allocateDay
  by_cases h : EPS < (allocPass1 d ys 1 init).2
  · rw [if_pos h, allocPass2_length, allocPass1_length]
  · rw [if_neg h, allocPass1_length]

theorem allocateDay_core (d : YMD) (ys : List VacationYearState) (init : ℚ) (i : Nat) :
    (((allocateDay d ys init).getD i dfltVY).earned = (ys.getD i dfltVY).earned ∧
      ((allocateDay d ys init).getD i dfltVY).extra = (ys.getD i dfltVY).extra ∧
      ((allocateDay d ys init).getD i dfltVY).transferred =
        (ys.getD i dfltVY).transferred) ∧
    (((allocateDay d ys init).getD i dfltVY).expired = (ys.getD i dfltVY).expired ∧
      ((allocateDay d ys init).getD i dfltVY).usableEnd =
        (ys.getD i dfltVY).usableEnd) := by
  unfold allocateDay
  by_cases h : EPS < (allocPass1 d ys 1 init).2
  · rw [if_pos h]
    obtain ⟨⟨a1, a2, a3⟩, a4, a5⟩ := allocPass2_core d (allocPass1 d ys 1 init).2
      (allocPass1 d ys 1 init).1 i
    obtain ⟨⟨b1, b2, b3⟩, b4, b5⟩ := allocPass1_core d ys 1 init i
    exact ⟨⟨a1.trans b1, a2.trans b2, a3.trans b3⟩, a4.trans b4, a5.trans b5⟩
  · rw [if_neg h]
    exact allocPass1_core d ys 1 init i

theorem allocPass1_Q (d : YMD) :
    ∀ (ys : List VacationYearState) (rem ih : ℚ), Q25 rem → Q25 ih →
      (∀ i, i < ys.length →
        Q25 (ys.getD i dfltVY).earned ∧ Q25 (ys.getD i dfltVY).extra ∧
          Q25 (ys.getD i dfltVY).transferred ∧ Q25 (ys.getD i dfltVY).used) →
      Q25 (allocPass1 d ys rem ih).2 ∧
      ∀ i, i < ys.length → Q25 (((allocPass1 d ys rem ih).1.getD i dfltVY).used) := by
  intro ys
  induction ys with
  | nil =>
    intro rem ih hr _ _
    exact ⟨by simpa [allocPass1] using hr, fun i hi => by simp at hi⟩
  | cons vy rest ihl =>
    intro rem ih hr hib hQ
    by_cases hre : rem ≤ EPS
    · rw [allocPass1_stop d _ rem ih hre]
      exact ⟨hr, fun i hi => (hQ i hi).2.2.2⟩
    · simp only [allocPass1, if_neg hre]
      have hQ0 := hQ 0 (by simp)
      simp only [List.getD_cons_zero] at hQ0
      have hQbal : Q25 (stateBalance ih vy) := by
        unfold stateBalance
        exact Q25_add (Q25_sub (Q25_add (Q25_add hQ0.1 hQ0.2.1) hQ0.2.2.1) hQ0.2.2.2) hib
      have hQtail : ∀ i, i < rest.length →
          Q25 (rest.getD i dfltVY).earned ∧ Q25 (rest.getD i dfltVY).extra ∧
            Q25 (rest.getD i dfltVY).transferred ∧ Q25 (rest.getD i dfltVY).used := by
        intro i hi
        have := hQ (i + 1) (by simpa using hi)
        simpa using this
      rcases allocStep_cases d ih rem vy with ⟨heq, _⟩ | ⟨h1, h2, heq⟩
      · rw [heq]
        have hrest := ihl rem 0 hr Q25_zero hQtail
        refine ⟨hrest.1, ?_⟩
        intro i hi
        cases i with
        | zero => simpa using hQ0.2.2.2
        | succ n =>
          simp only [List.getD_cons_succ]
          exact hrest.2 n (by simpa using hi)
      · rw [heq]
        have hQc : Q25 (min (stateBalance ih vy) rem) := Q25_min hQbal hr
        have hrest := ihl (rem - min (stateBalance ih vy) rem) 0 (Q25_sub hr hQc)
          Q25_zero hQtail
        refine ⟨hrest.1, ?_⟩
        intro i hi
        cases i with
        | zero => simpa using Q25_add hQ0.2.2.2 hQc
        | succ n =>
          simp only [List.getD_cons_succ]
          exact hrest.2 n (by simpa using hi)

theorem allocateDay_used (d : YMD) (ys : List VacationYearState) (init : ℚ)
    (hQi : Q25 init)
    (hQ : ∀ i, i < ys.length →
      Q25 (ys.getD i dfltVY).earned ∧ Q25 (ys.getD i dfltVY).extra ∧
        Q25 (ys.getD i dfltVY).transferred ∧ Q25 (ys.getD i dfltVY).used)
    (hne : 0 < ys.length)
    (hel : YMD.leb d ((ys.getD 0 dfltVY).usableEnd) = true) :
    sumUsed (allocateDay d ys init) = sumUsed ys + 1 ∧
    ∀ i, i < ys.length → Q25 ((allocateDay d ys init).getD i dfltVY).used := by
  unfold allocateDay
  have hQ1 := allocPass1_Q d ys 1 init Q25_one hQi hQ
  have hr0 : 0 ≤ (allocPass1 d ys 1 init).2 :=
    allocPass1_rem_nonneg d ys 1 init zero_le_one
  have hsum1 : sumUsed (allocPass1 d ys 1 init).1 =
      sumUsed ys + (1 - (allocPass1 d ys 1 init).2) := allocPass1_sumUsed d ys 1 init
  by_cases hgt : EPS < (allocPass1 d ys 1 init).2
  · rw [if_pos hgt]
    rcases Bool.eq_false_or_eq_true
      (allocPass2 d (allocPass1 d ys 1 init).2 (allocPass1 d ys 1 init).1).2 with hb | hb
    swap
    · exfalso
      have hspec := (allocPass2_spec d _ (allocPass1 d ys 1 init).1).1 hb
      have h0 : YMD.leb d (((allocPass1 d ys 1 init).1.getD 0 dfltVY).usableEnd) = false :=
        hspec.2 0 (by rw [allocPass1_length]; exact hne)
      rw [allocPass1_usableEnd d ys 1 init 0 hne, hel] at h0
      cases h0
    · obtain ⟨t, htl, _, _, heq⟩ := (allocPass2_spec d _ _).2 hb
      rw [heq, sumUsed_set _ _ t htl, hsum1]
      refine ⟨by ring, ?_⟩
      intro i hi
      by_cases hit : t = i
      · subst hit
        rw [getD_set_self _ _ _ _ htl]
        exact Q25_add (hQ1.2 t (by rwa [allocPass1_length] at htl)) hQ1.1
      · rw [getD_set_ne _ _ _ _ _ hit]
        exact hQ1.2 i hi
  · rw [if_neg hgt]
    have hz : (allocPass1 d ys 1 init).2 = 0 :=
      Q25_small hQ1.1 hr0 (le_of_not_lt hgt)
    rw [hsum1, hz]
    exact ⟨by ring, hQ1.2⟩

theorem applyEvent_nonexpiry (e : TimelineEvent) (ys : List VacationYearState)
    (xc init cap : ℚ) (hk : ¬ e.kind = EventKind.expiry) (hin : e.yearIndex < ys.length) :
    (applyEvent e ys xc init cap).length = ys.length ∧
    ∀ i,
      ((applyEvent e ys xc init cap).getD i dfltVY).earned =
        (ys.getD i dfltVY).earned + (if isEarnAt i e then monthlyRate else 0) ∧
      ((applyEvent e ys xc init cap).getD i dfltVY).extra =
        (ys.getD i dfltVY).extra + (if isExtraAt i e then xc else 0) ∧
      ((applyEvent e ys xc init cap).getD i dfltVY).used = (ys.getD i dfltVY).used ∧
      ((applyEvent e ys xc init cap).getD i dfltVY).transferred =
        (ys.getD i dfltVY).transferred ∧
      ((applyEvent e ys xc init cap).getD i dfltVY).expired = (ys.getD i dfltVY).expired ∧
      ((applyEvent e ys xc init cap).getD i dfltVY).usableEnd =
        (ys.getD i dfltVY).usableEnd := by
  obtain ⟨ed, ep, ei, ek⟩ := e
  simp only at hk hin
  have hget : ys.get? ei = some (ys.getD ei dfltVY) := get?_eq_some_getD ys ei dfltVY hin
  cases ek with
  | expiry => exact absurd rfl hk
  | earn =>
    simp only [applyEvent, hget]
    refine ⟨List.length_set _ _ _, ?_⟩
    intro i
    by_cases hie : ei = i
    · subst hie
      rw [getD_set_self _ _ _ _ hin]
      simp [isEarnAt, isExtraAt]
    · rw [getD_set_ne _ _ _ _ _ hie]
      simp [isEarnAt, isExtraAt, hie]
  | extra =>
    simp only [applyEvent, hget]
    refine ⟨List.length_set _ _ _, ?_⟩
    intro i
    by_cases hie : ei = i
    · subst hie
      rw [getD_set_self _ _ _ _ hin]
      simp [isEarnAt, isExtraAt]
    · rw [getD_set_ne _ _ _ _ _ hie]
      simp [isEarnAt, isExtraAt, hie]

theorem applyEvents_spec (xc init cap : ℚ) :
    ∀ (es : List TimelineEvent) (ys : List VacationYearState),
      (∀ e ∈ es, ¬ e.kind = EventKind.expiry ∧ e.yearIndex < ys.length) →
      (applyEvents xc init cap es ys).length = ys.length ∧
      ∀ i,
        ((applyEvents xc init cap es ys).getD i dfltVY).earned =
          (ys.getD i dfltVY).earned + monthlyRate * (es.countP (isEarnAt i) : ℚ) ∧
        ((applyEvents xc init cap es ys).getD i dfltVY).extra =
          (ys.getD i dfltVY).extra + xc * (es.countP (isExtraAt i) : ℚ) ∧
        ((applyEvents xc init cap es ys).getD i dfltVY).used = (ys.getD i dfltVY).used ∧
        ((applyEvents xc init cap es ys).getD i dfltVY).transferred =
          (ys.getD i dfltVY).transferred ∧
        ((applyEvents xc init cap es ys).getD i dfltVY).expired =
          (ys.getD i dfltVY).expired ∧
        ((applyEvents xc init cap es ys).getD i dfltVY).usableEnd =
          (ys.getD i dfltVY).usableEnd := by
  intro es
  induction es with
  | nil =>
    intro ys _
    refine ⟨rfl, fun i => ?_⟩
    simp [applyEvents]
  | cons e es ih =>
    intro ys hes
    have hmain := hes e (List.mem_cons_self e es)
    have h1 := applyEvent_nonexpiry e ys xc init cap hmain.1 hmain.2
    have hrec := ih (applyEvent e ys xc init cap) (fun e' he' =>
      ⟨(hes e' (List.mem_cons_of_mem e he')).1, by
        rw [h1.1]
        exact (hes e' (List.mem_cons_of_mem e he')).2⟩)
    have hstep : applyEvents xc init cap (e :: es) ys =
        applyEvents xc init cap es (applyEvent e ys xc init cap) := rfl
    rw [hstep]
    refine ⟨hrec.1.trans h1.1, ?_⟩
    intro i
    obtain ⟨e1, e2, e3, e4, e5, e6⟩ := h1.2 i
    obtain ⟨r1, r2, r3, r4, r5, r6⟩ := hrec.2 i
    refine ⟨?_, ?_, r3.trans e3, r4.trans e4, r5.trans e5, r6.trans e6⟩
    · rw [r1, e1, List.countP_cons]
      split_ifs <;> push_cast <;> ring
    · rw [r2, e2, List.countP_cons]
      split_ifs <;> push_cast <;> ring

theorem applyEventsUpTo_eq (d : YMD) (xc init cap : ℚ) :
    ∀ (E : List TimelineEvent) (ys : List VacationYearState),
      applyEventsUpTo d xc init cap E ys =
        (E.dropWhile (fun e => YMD.leb e.date d),
          applyEvents xc init cap (E.takeWhile (fun e => YMD.leb e.date d)) ys) := by
  intro E
  induction E with
  | nil => intro ys; simp [applyEventsUpTo, applyEvents]
  | cons e E ih =>
    intro ys
    rw [List.dropWhile_cons, List.takeWhile_cons]
    by_cases he : YMD.leb e.date d = true
    · rw [if_pos he, if_pos he]
      simp only [applyEventsUpTo, if_pos he]
      rw [ih]
      rfl
    · rw [if_neg he, if_neg he]
      simp only [applyEventsUpTo, if_neg he]
      rfl

theorem sumUsed_congr {ys zs : List VacationYearState} (hlen : zs.length = ys.length)
    (h : ∀ i, (zs.getD i dfltVY).used = (ys.getD i dfltVY).used) :
    sumUsed zs = sumUsed ys := by
  rw [sumUsed_eq_map, sumUsed_eq_map, sum_map_eq_range _ dfltVY,
    sum_map_eq_range _ dfltVY, hlen]
  apply congrArg
  apply List.map_congr_left
  intro i _
  rw [h i]

theorem runConsume_cons (xc init cap : ℚ) (d : YMD) (ds : List YMD)
    (st : List TimelineEvent × List VacationYearState) :
    runConsume xc init cap (d :: ds) st =
      runConsume xc init cap ds
        ((applyEventsUpTo d xc init cap st.1 st.2).1,
          allocateDay d (applyEventsUpTo d xc init cap st.1 st.2).2 init) := rfl

theorem runConsume_spec (xc init cap : ℚ) (D : YMD) (hQxc : Q25 xc) (hQinit : Q25 init) :
    ∀ (ds : List YMD) (E : List TimelineEvent) (ys : List VacationYearState),
      List.Sorted eventLe E →
      (∀ e ∈ E, e.yearIndex < ys.length) →
      (∀ e ∈ E, e.kind = EventKind.expiry → YMD.leb e.date D = false) →
      (∀ d ∈ ds, YMD.leb d D = true) →
      0 < ys.length →
      YMD.leb D ((ys.getD 0 dfltVY).usableEnd) = true →
      QFields ys →
      ∃ applied : List TimelineEvent,
        E = applied ++ (runConsume xc init cap ds (E, ys)).1 ∧
        (∀ e ∈ applied, YMD.leb e.date D = true) ∧
        List.Sorted eventLe (runConsume xc init cap ds (E, ys)).1 ∧
        (runConsume xc init cap ds (E, ys)).2.length = ys.length ∧
        (∀ i,
          (((runConsume xc init cap ds (E, ys)).2.getD i dfltVY).earned =
            (ys.getD i dfltVY).earned +
              monthlyRate * (applied.countP (isEarnAt i) : ℚ) ∧
          ((runConsume xc init cap ds (E, ys)).2.getD i dfltVY).extra =
            (ys.getD i dfltVY).extra + xc * (applied.countP (isExtraAt i) : ℚ)) ∧
          ((runConsume xc init cap ds (E, ys)).2.getD i dfltVY).transferred =
            (ys.getD i dfltVY).transferred ∧
          ((runConsume xc init cap ds (E, ys)).2.getD i dfltVY).expired =
            (ys.getD i dfltVY).expired ∧
          ((runConsume xc init cap ds (E, ys)).2.getD i dfltVY).usableEnd =
            (ys.getD i dfltVY).usableEnd) ∧
        sumUsed (runConsume xc init cap ds (E, ys)).2 =
          sumUsed ys + (ds.length : ℚ) ∧
        QFields (runConsume xc init cap ds (E, ys)).2 := by
  intro ds
  induction ds with
  | nil =>
    intro E ys hsE _ _ _ _ _ hQ
    have hrc : runConsume xc init cap [] (E, ys) = (E, ys) := rfl
    rw [hrc]
    refine ⟨[], by simp, by simp, hsE, rfl,
      fun i => ⟨⟨by simp, by simp⟩, rfl, rfl, rfl⟩, by simp, hQ⟩
  | cons d ds ihd =>
    intro E ys hsE hin hexp hds hne h0el hQ
    have hd : YMD.leb d D = true := hds d (List.mem_cons_self d ds)
    rw [runConsume_cons]
    simp only [applyEventsUpTo_eq]
    have hAmem : ∀ e ∈ E.takeWhile (fun e => YMD.leb e.date d),
        YMD.leb e.date D = true ∧ ¬ e.kind = EventKind.expiry ∧ e.yearIndex < ys.length := by
      intro e he
      have heE : e ∈ E := (List.takeWhile_sublist _).subset he
      have hp := List.mem_takeWhile_imp he
      have heD : YMD.leb e.date D = true := leb_trans hp hd
      refine ⟨heD, ?_, hin e heE⟩
      intro hk
      rw [hexp e heE hk] at heD
      cases heD
    have happly := applyEvents_spec xc init cap (E.takeWhile (fun e => YMD.leb e.date d))
      ys (fun e he => ⟨(hAmem e he).2.1, (hAmem e he).2.2⟩)
    have hlen1 : (applyEvents xc init cap (E.takeWhile (fun e => YMD.leb e.date d)) ys).length
        = ys.length := happly.1
    have hQ1 : QFields (applyEvents xc init cap (E.takeWhile (fun e => YMD.leb e.date d)) ys) := by
      intro i hi
      rw [hlen1] at hi
      obtain ⟨f1, f2, f3, f4, f5, f6⟩ := happly.2 i
      rw [f1, f2, f3, f4]
      obtain ⟨q1, q2, q3, q4⟩ := hQ i hi
      exact ⟨Q25_add q1 (Q25_natCast_mul _ Q25_rate), Q25_add q2 (Q25_natCast_mul _ hQxc),
        q3, q4⟩
    have hel1 : YMD.leb d
        (((applyEvents xc init cap (E.takeWhile (fun e => YMD.leb e.date d)) ys).getD 0
          dfltVY).usableEnd) = true := by
      rw [(happly.2 0).2.2.2.2.2]
      exact leb_trans hd h0el
    have hne1 : 0 < (applyEvents xc init cap
        (E.takeWhile (fun e => YMD.leb e.date d)) ys).length := by
      rw [hlen1]; exact hne
    have huse := allocateDay_used d
      (applyEvents xc init cap (E.takeWhile (fun e => YMD.leb e.date d)) ys) init
      hQinit hQ1 hne1 hel1
    have hcore := fun i => allocateDay_core d
      (applyEvents xc init cap (E.takeWhile (fun e => YMD.leb e.date d)) ys) init i
    have hlen2 : (allocateDay d
        (applyEvents xc init cap (E.takeWhile (fun e => YMD.leb e.date d)) ys) init).length
        = ys.length := by
      rw [allocateDay_length, hlen1]
    have hsE2 : List.Sorted eventLe (E.dropWhile (fun e => YMD.leb e.date d)) :=
      hsE.sublist (List.dropWhile_sublist _)
    have hrec := ihd (E.dropWhile (fun e => YMD.leb e.date d))
      (allocateDay d (applyEvents xc init cap (E.takeWhile (fun e => YMD.leb e.date d)) ys)
        init)
      hsE2
      (fun e he => by
        rw [hlen2]
        exact hin e ((List.dropWhile_sublist _).subset he))
      (fun e he => hexp e ((List.dropWhile_sublist _).subset he))
      (fun x hx => hds x (List.mem_cons_of_mem d hx))
      (by rw [hlen2]; exact hne)
      (by
        rw [(hcore 0).2.2, (happly.2 0).2.2.2.2.2]
        exact h0el)
      (by
        intro i hi
        rw [hlen2] at hi
        obtain ⟨⟨c1, c2, c3⟩, _, _⟩ := hcore i
        rw [c1, c2, c3]
        have hi1 : i < (applyEvents xc init cap
            (E.takeWhile (fun e => YMD.leb e.date d)) ys).length := by
          rw [hlen1]; exact hi
        obtain ⟨q1, q2, q3, _⟩ := hQ1 i hi1
        exact ⟨q1, q2, q3, huse.2 i hi1⟩)
    obtain ⟨applied2, hEeq, happD, hsort, hlenF, hfieldsF, hsumF, hQF⟩ := hrec
    refine ⟨E.takeWhile (fun e => YMD.leb e.date d) ++ applied2, ?_, ?_, hsort, ?_, ?_, ?_, hQF⟩
    · rw [List.append_assoc, ← hEeq]
      exact (List.takeWhile_append_dropWhile (fun e => YMD.leb e.date d) E).symm
    · intro e he
      rcases List.mem_append.mp he with h | h
      · exact (hAmem e h).1
      · exact happD e h
    · rw [hlenF, hlen2]
    · intro i
      obtain ⟨⟨g1, g2⟩, g3, g4, g5⟩ := hfieldsF i
      obtain ⟨⟨c1, c2, c3⟩, c4, c5⟩ := hcore i
      obtain ⟨f1, f2, f3, f4, f5, f6⟩ := happly.2 i
      refine ⟨⟨?_, ?_⟩, ?_, ?_, ?_⟩
      · rw [g1, c1, f1, List.countP_append]
        push_cast
        ring
      · rw [g2, c2, f2, List.countP_append]
        push_cast
        ring
      · rw [g3, c3, f4]
      · rw [g4, c4, f5]
      · rw [g5, c5, f6]
    · rw [hsumF, huse.1]
      have hsu1 : sumUsed (applyEvents xc init cap
          (E.takeWhile (fun e => YMD.leb e.date d)) ys) = sumUsed ys :=
        sumUsed_congr hlen1 (fun i => (happly.2 i).2.2.1)
      rw [hsu1, List.length_cons]
      push_cast
      ring

theorem countP_and_dateLe (dd : YMD) (p : TimelineEvent → Bool) :
    ∀ l : List TimelineEvent, (∀ e ∈ l, YMD.leb e.date dd = true) →
      l.countP (fun e => p e && YMD.leb e.date dd) = l.countP p := by
  intro l
  induction l with
  | nil => intro _; rfl
  | cons e l ih =>
    intro h
    rw [List.countP_cons, List.countP_cons, ih (fun x hx => h x (List.mem_cons_of_mem e hx))]
    have he := h e (List.mem_cons_self e l)
    rw [he, Bool.and_true]

theorem countP_and_dateLe_zero (dd : YMD) (p : TimelineEvent → Bool) :
    ∀ l : List TimelineEvent, (∀ e ∈ l, YMD.leb e.date dd = false) →
      l.countP (fun e => p e && YMD.leb e.date dd) = 0 := by
  intro l
  induction l with
  | nil => intro _; rfl
  | cons e l ih =>
    intro h
    rw [List.countP_cons, ih (fun x hx => h x (List.mem_cons_of_mem e hx))]
    have he := h e (List.mem_cons_self e l)
    rw [he, Bool.and_false]
    rfl

theorem walkStateAt_spec (xc init cap : ℚ) (D : YMD) (hQxc : Q25 xc) (hQinit : Q25 init)
    (l : List YMD) (E : List TimelineEvent) (ys : List VacationYearState)
    (hsE : List.Sorted eventLe E)
    (hin : ∀ e ∈ E, e.yearIndex < ys.length)
    (hexp : ∀ e ∈ E, e.kind = EventKind.expiry → YMD.leb e.date D = false)
    (hne : 0 < ys.length)
    (h0el : YMD.leb D ((ys.getD 0 dfltVY).usableEnd) = true)
    (hQ : QFields ys) :
    (walkStateAt xc init cap l (E, ys) D).length = ys.length ∧
    (∀ i,
      (((walkStateAt xc init cap l (E, ys) D).getD i dfltVY).earned =
        (ys.getD i dfltVY).earned + monthlyRate *
          (E.countP (fun e => isEarnAt i e && YMD.leb e.date D) : ℚ) ∧
      ((walkStateAt xc init cap l (E, ys) D).getD i dfltVY).extra =
        (ys.getD i dfltVY).extra + xc *
          (E.countP (fun e => isExtraAt i e && YMD.leb e.date D) : ℚ)) ∧
      ((walkStateAt xc init cap l (E, ys) D).getD i dfltVY).transferred =
        (ys.getD i dfltVY).transferred ∧
      ((walkStateAt xc init cap l (E, ys) D).getD i dfltVY).expired =
        (ys.getD i dfltVY).expired ∧
      ((walkStateAt xc init cap l (E, ys) D).getD i dfltVY).usableEnd =
        (ys.getD i dfltVY).usableEnd) ∧
    sumUsed (walkStateAt xc init cap l (E, ys) D) =
      sumUsed ys + ((l.takeWhile (fun d => YMD.ltb d D)).length : ℚ) + 1 := by
  obtain ⟨app1, hEeq, happD, hsortE2, hlen2, hfields2, hsum2, hQ2⟩ :=
    runConsume_spec xc init cap D hQxc hQinit (l.takeWhile (fun d => YMD.ltb d D)) E ys
      hsE hin hexp
      (fun d hd => leb_of_ltb (by
        have hp := List.mem_takeWhile_imp hd
        exact hp))
      hne h0el hQ
  rcases hRC : runConsume xc init cap (l.takeWhile (fun d => YMD.ltb d D)) (E, ys)
    with ⟨E2, ys2⟩
  rw [hRC] at hEeq hsortE2 hlen2 hfields2 hsum2 hQ2
  dsimp only at hEeq hsortE2 hlen2 hfields2 hsum2 hQ2
  have hwalk : walkStateAt xc init cap l (E, ys) D =
      allocateDay D (applyEvents xc init cap
        (E2.takeWhile (fun e => YMD.leb e.date D)) ys2) init := by
    show allocateDay D (applyEventsUpTo D xc init cap
        (runConsume xc init cap (l.takeWhile (fun d => YMD.ltb d D)) (E, ys)).1
        (runConsume xc init cap (l.takeWhile (fun d => YMD.ltb d D)) (E, ys)).2).2 init = _
    rw [hRC, applyEventsUpTo_eq]
  have hmemE2 : ∀ e ∈ E2, e ∈ E := by
    intro e he
    rw [hEeq]
    exact List.mem_append.mpr (Or.inr he)
  have hBmem : ∀ e ∈ E2.takeWhile (fun e => YMD.leb e.date D),
      ¬ e.kind = EventKind.expiry ∧ e.yearIndex < ys2.length := by
    intro e he
    have heE2 := (List.takeWhile_sublist _).subset he
    have hp := List.mem_takeWhile_imp he
    refine ⟨?_, ?_⟩
    · intro hk
      have hfalse := hexp e (hmemE2 e heE2) hk
      rw [hfalse] at hp
      cases hp
    · rw [hlen2]
      exact hin e (hmemE2 e heE2)
  have happB := applyEvents_spec xc init cap (E2.takeWhile (fun e => YMD.leb e.date D))
    ys2 hBmem
  have hQ3 : QFields (applyEvents xc init cap
      (E2.takeWhile (fun e => YMD.leb e.date D)) ys2) := by
    intro i hi
    rw [happB.1] at hi
    obtain ⟨f1, f2, f3, f4, f5, f6⟩ := happB.2 i
    rw [f1, f2, f3, f4]
    obtain ⟨q1, q2, q3, q4⟩ := hQ2 i hi
    exact ⟨Q25_add q1 (Q25_natCast_mul _ Q25_rate), Q25_add q2 (Q25_natCast_mul _ hQxc),
      q3, q4⟩
  have hne3 : 0 < (applyEvents xc init cap
      (E2.takeWhile (fun e => YMD.leb e.date D)) ys2).length := by
    rw [happB.1, hlen2]
    exact hne
  have hel3 : YMD.leb D (((applyEvents xc init cap
      (E2.takeWhile (fun e => YMD.leb e.date D)) ys2).getD 0 dfltVY).usableEnd) = true := by
    rw [(happB.2 0).2.2.2.2.2, (hfields2 0).2.2.2]
    exact h0el
  have huse3 := allocateDay_used D (applyEvents xc init cap
    (E2.takeWhile (fun e => YMD.leb e.date D)) ys2) init hQinit hQ3 hne3 hel3
  have hcntE : ∀ p : TimelineEvent → Bool,
      E.countP (fun e => p e && YMD.leb e.date D) =
        app1.countP p + (E2.takeWhile (fun e => YMD.leb e.date D)).countP p := by
    intro p
    rw [hEeq, List.countP_append, countP_and_dateLe D p app1 happD]
    conv_lhs => rw [← List.takeWhile_append_dropWhile (fun e => YMD.leb e.date D) E2]
    rw [List.countP_append,
      countP_and_dateLe D p _ (fun e he => by
        have hp := List.mem_takeWhile_imp he
        exact hp),
      countP_and_dateLe_zero D p _ (dropWhile_events_ge D E2 hsortE2), Nat.add_zero]
  refine ⟨?_, ?_, ?_⟩
  · rw [hwalk, allocateDay_length, happB.1, hlen2]
  · intro i
    obtain ⟨⟨c1, c2, c3⟩, c4, c5⟩ := allocateDay_core D (applyEvents xc init cap
      (E2.takeWhile (fun e => YMD.leb e.date D)) ys2) init i
    obtain ⟨f1, f2, f3, f4, f5, f6⟩ := happB.2 i
    obtain ⟨⟨g1, g2⟩, g3, g4, g5⟩ := hfields2 i
    refine ⟨⟨?_, ?_⟩, ?_, ?_, ?_⟩
    · rw [hwalk, c1, f1, g1, hcntE (isEarnAt i)]
      push_cast
      ring
    · rw [hwalk, c2, f2, g2, hcntE (isExtraAt i)]
      push_cast
      ring
    · rw [hwalk, c3, f4, g3]
    · rw [hwalk, c4, f5, g4]
    · rw [hwalk, c5, f6, g5]
  · rw [hwalk, huse3.1, sumUsed_congr happB.1 (fun i => (happB.2 i).2.2.1), hsum2]

theorem countP_congr_mem {α : Type} (p q : α → Bool) :
    ∀ l : List α, (∀ a ∈ l, p a = q a) → l.countP p = l.countP q := by
  intro l
  induction l with
  | nil => intro _; rfl
  | cons a l ih =>
    intro h
    rw [List.countP_cons, List.countP_cons, h a (List.mem_cons_self a l),
      ih (fun x hx => h x (List.mem_cons_of_mem a hx))]

theorem sum_map_range_eq_of_single (g : ℕ → ℕ) :
    ∀ n i : ℕ, i < n → (∀ j, j < n → j ≠ i → g j = 0) →
      ((List.range n).map g).sum = g i := by
  intro n
  induction n with
  | zero => intro i hi; omega
  | succ m ih =>
    intro i hi hz
    rw [List.range_succ, List.map_append, List.sum_append]
    simp only [List.map_cons, List.map_nil, List.sum_cons, List.sum_nil]
    by_cases hmi : m = i
    · subst hmi
      have hzero : ((List.range m).map g).sum = 0 := by
        apply List.sum_eq_zero
        intro x hx
        rw [List.mem_map] at hx
        obtain ⟨j, hj, hgj⟩ := hx
        rw [List.mem_range] at hj
        rw [← hgj]
        exact hz j (by omega) (by omega)
      rw [hzero]
      omega
    · have hi2 : i < m := by omega
      rw [ih i hi2 (fun j hj hne => hz j (by omega) hne), hz m (by omega) hmi]
      omega

theorem leb_addMonths (s : YMD) (m : Int) (D : YMD) (hD1 : 1 ≤ D.m) (hD2 : D.m ≤ 12)
    (hD3 : 1 ≤ D.d) :
    YMD.leb (addMonthsMS s m) D = decide (mIdx s + m ≤ mIdx D) := by
  unfold addMonthsMS
  rw [leb_monthStart _ _ D (by omega) (by omega) hD1 hD2 hD3, decide_eq_decide]
  simp only [mIdx]
  omega

theorem countP_range_leb (eff D : YMD) (hD1 : 1 ≤ D.m) (hD2 : D.m ≤ 12) (hD3 : 1 ≤ D.d) :
    ∀ N : ℕ, (((List.range N).countP
        (fun (m : ℕ) => YMD.leb (addMonthsMS eff (m : Int)) D)) : ℤ) =
      max 0 (min (N : ℤ) (mIdx D - mIdx eff + 1)) := by
  intro N
  have hc : ∀ m ∈ List.range N, (YMD.leb (addMonthsMS eff (m : Int)) D) =
      (fun (m : ℕ) => decide (mIdx eff + (m : Int) ≤ mIdx D)) m := by
    intro m _
    rw [leb_addMonths eff _ D hD1 hD2 hD3]
  rw [countP_congr_mem _ _ _ hc, countP_range_le]

theorem extraCount_ledger (yr : Int) (start D : YMD) (extraM : Int) (xc : ℚ) (ix : Nat) :
    xc * ((List.countP (fun e => isExtraAt ix e && YMD.leb e.date D)
      ([yr, yr + 1].filterMap (fun calendarYear =>
        if YMD.leb (if YMD.ltb start (obtainStart yr) then obtainStart yr else start)
              ⟨calendarYear, extraM, 1⟩ &&
            YMD.leb ⟨calendarYear, extraM, 1⟩ (obtainEnd yr) then
          some (⟨⟨calendarYear, extraM, 1⟩, 0, ix, EventKind.extra⟩ : TimelineEvent)
        else none))) : ℚ) = extraInVacationYear yr D start extraM xc := by
  unfold extraInVacationYear
  simp only [List.filterMap_cons, List.filterMap_nil, List.foldl_cons, List.foldl_nil]
  by_cases h1 : (YMD.leb (if YMD.ltb start (obtainStart yr) then obtainStart yr else start)
      ⟨yr, extraM, 1⟩ && YMD.leb ⟨yr, extraM, 1⟩ (obtainEnd yr)) = true <;>
  by_cases h2 : (YMD.leb (if YMD.ltb start (obtainStart yr) then obtainStart yr else start)
      ⟨yr + 1, extraM, 1⟩ && YMD.leb ⟨yr + 1, extraM, 1⟩ (obtainEnd yr)) = true <;>
  by_cases hd1 : YMD.leb ⟨yr, extraM, 1⟩ D = true <;>
  by_cases hd2 : YMD.leb ⟨yr + 1, extraM, 1⟩ D = true <;>
  simp [h1, h2, hd1, hd2, isExtraAt, List.countP_cons] <;>
  push_cast <;>
  ring

theorem countP_earnRange_zero (p : TimelineEvent → Bool) (eff : YMD) (j : Nat) (N : ℕ)
    (hp : ∀ m : ℕ, p ⟨addMonthsMS eff (m : Int), 0, j, EventKind.earn⟩ = false) :
    List.countP (p ∘ (fun m : ℕ =>
      (⟨addMonthsMS eff (m : Int), 0, j, EventKind.earn⟩ : TimelineEvent)))
      (List.range N) = 0 := by
  rw [List.countP_eq_zero]
  intro a _
  simp only [Function.comp]
  rw [hp a]
  simp

theorem countP_earnRange_congr (i : Nat) (D eff : YMD) (N : ℕ) :
    List.countP ((fun e => isEarnAt i e && YMD.leb e.date D) ∘ (fun m : ℕ =>
      (⟨addMonthsMS eff (m : Int), 0, i, EventKind.earn⟩ : TimelineEvent)))
      (List.range N) =
    List.countP (fun (m : ℕ) => YMD.leb (addMonthsMS eff (m : Int)) D) (List.range N) := by
  apply countP_congr_mem
  intro m _
  simp [Function.comp, isEarnAt]

theorem countP_extraBlock_zero (p : TimelineEvent → Bool) (eff oE : YMD) (extraM : Int)
    (ix : Nat) (hp : ∀ cy : Int, p ⟨⟨cy, extraM, 1⟩, 0, ix, EventKind.extra⟩ = false) :
    ∀ cys : List Int,
      List.countP p (cys.filterMap (fun cy =>
        if YMD.leb eff ⟨cy, extraM, 1⟩ && YMD.leb ⟨cy, extraM, 1⟩ oE then
          some (⟨⟨cy, extraM, 1⟩, 0, ix, EventKind.extra⟩ : TimelineEvent)
        else none)) = 0 := by
  intro cys
  induction cys with
  | nil => rfl
  | cons cy cys ih =>
    rw [List.filterMap_cons]
    by_cases hc : (YMD.leb eff ⟨cy, extraM, 1⟩ && YMD.leb ⟨cy, extraM, 1⟩ oE) = true
    · rw [if_pos hc]
      dsimp only
      rw [List.countP_cons, ih, hp cy]
      simp
    · rw [if_neg hc]
      dsimp only
      exact ih

theorem ite_expiry_zero_earn (i : Nat) (yv : Int) (D : YMD) (ipr : Int) (ix : Nat) :
    (if (isEarnAt i ⟨⟨yv, 1, 1⟩, ipr, ix, EventKind.expiry⟩ &&
        YMD.leb ⟨yv, 1, 1⟩ D) = true then 1 else 0) = 0 := by
  simp [isEarnAt]

theorem ite_expiry_zero_extra (i : Nat) (yv : Int) (D : YMD) (ipr : Int) (ix : Nat) :
    (if (isExtraAt i ⟨⟨yv, 1, 1⟩, ipr, ix, EventKind.expiry⟩ &&
        YMD.leb ⟨yv, 1, 1⟩ D) = true then 1 else 0) = 0 := by
  simp [isExtraAt]

theorem buildTimeline_countEarn (fvy : Int) (cnt : Nat) (start D : YMD) (extraM : Int)
    (hsm1 : 1 ≤ start.m) (hsm2 : start.m ≤ 12)
    (hD1 : 1 ≤ D.m) (hD2 : D.m ≤ 12) (hD3 : 1 ≤ D.d) (i : Nat) (hi : i < cnt) :
    (((buildTimelineEvents fvy cnt (startOfMonth start) start extraM).countP
      (fun e => isEarnAt i e && YMD.leb e.date D)) : ℤ) =
      earnedMonthsInt (fvy + (i : Int)) D start := by
  unfold buildTimelineEvents sortEvents
  rw [List.Perm.countP_eq _ (List.perm_insertionSort eventLe _), countP_flatMap,
    sum_map_range_eq_of_single _ cnt i hi (by
      intro j hj hne
      simp only [List.countP_append, List.countP_map, List.countP_singleton]
      rw [countP_earnRange_zero _ _ _ _ (fun m => by simp [isEarnAt, hne]),
        countP_extraBlock_zero _ _ _ _ _ (fun cy => by simp [isEarnAt]),
        if_neg (by simp [isEarnAt])])]
  simp only [List.countP_append, List.countP_map, List.countP_singleton]
  rw [countP_earnRange_congr i D,
    countP_extraBlock_zero _ _ _ _ _ (fun cy => by simp [isEarnAt]),
    ite_expiry_zero_earn, Nat.add_zero,
    countP_range_leb _ D hD1 hD2 hD3,
    earnedMonthsInt_closed _ _ _ hsm1 hsm2, Int.toNat_eq_max, diffMonthsMS,
    mIdx_effEarn _ start hsm1 hsm2]
  simp only [mIdx, obtainStart, obtainEnd, startOfMonth, YMD_y_mk, YMD_m_mk]
  omega

theorem buildTimeline_countExtra (fvy : Int) (cnt : Nat) (start D : YMD) (extraM : Int)
    (xc : ℚ) (i : Nat) (hi : i < cnt) :
    xc * (((buildTimelineEvents fvy cnt (startOfMonth start) start extraM).countP
      (fun e => isExtraAt i e && YMD.leb e.date D)) : ℚ) =
      extraInVacationYear (fvy + (i : Int)) D start extraM xc := by
  unfold buildTimelineEvents sortEvents
  rw [List.Perm.countP_eq _ (List.perm_insertionSort eventLe _), countP_flatMap,
    sum_map_range_eq_of_single _ cnt i hi (by
      intro j hj hne
      simp only [List.countP_append, List.countP_map, List.countP_singleton]
      rw [countP_earnRange_zero _ _ _ _ (fun m => by simp [isExtraAt]),
        countP_extraBlock_zero _ _ _ _ _ (fun cy => by simp [isExtraAt, hne]),
        if_neg (by simp [isExtraAt])])]
  simp only [List.countP_append, List.countP_map, List.countP_singleton]
  rw [countP_earnRange_zero _ _ _ _ (fun m => by simp [isExtraAt]),
    ite_expiry_zero_extra, Nat.zero_add, Nat.add_zero]
  exact extraCount_ledger (fvy + (i : Int)) start D extraM xc i

theorem snapPass1_stop (d : YMD) (bs : List VacationYearBalance) (rem : ℚ)
    (h : rem ≤ EPS) : snapPass1 d bs rem = (bs, rem) := by
  cases bs with
  | nil => simp [snapPass1]
  | cons b rest => simp [snapPass1, h]

theorem snapPass1_spec (d : YMD) :
    ∀ (bs : List VacationYearBalance) (rem : ℚ),
      (snapPass1 d bs rem).1.length = bs.length ∧
      (0 ≤ rem → 0 ≤ (snapPass1 d bs rem).2) ∧
      snapSumUsed (snapPass1 d bs rem).1 =
        snapSumUsed bs + (rem - (snapPass1 d bs rem).2) ∧
      (∀ i, ((snapPass1 d bs rem).1.getD i dfltB).year = (bs.getD i dfltB).year ∧
        ((snapPass1 d bs rem).1.getD i dfltB).earned = (bs.getD i dfltB).earned ∧
        ((snapPass1 d bs rem).1.getD i dfltB).extra = (bs.getD i dfltB).extra ∧
        ((snapPass1 d bs rem).1.getD i dfltB).transferred =
          (bs.getD i dfltB).transferred ∧
        ((snapPass1 d bs rem).1.getD i dfltB).balance = (bs.getD i dfltB).balance ∧
        ((snapPass1 d bs rem).1.getD i dfltB).lost = (bs.getD i dfltB).lost ∧
        ((snapPass1 d bs rem).1.getD i dfltB).expired = (bs.getD i dfltB).expired) ∧
      (Q25 rem →
        (∀ i, i < bs.length → Q25 (bs.getD i dfltB).balance ∧ Q25 (bs.getD i dfltB).used) →
        Q25 (snapPass1 d bs rem).2 ∧
          ∀ i, i < bs.length → Q25 (((snapPass1 d bs rem).1.getD i dfltB).used)) := by
  intro bs
  induction bs with
  | nil =>
    intro rem
    refine ⟨rfl, fun h => by simpa [snapPass1] using h, by simp [snapPass1, snapSumUsed],
      fun i => ⟨rfl, rfl, rfl, rfl, rfl, rfl, rfl⟩, fun hq _ => ⟨by simpa [snapPass1] using hq,
        fun i hi => by simp at hi⟩⟩
  | cons b rest ih =>
    intro rem
    by_cases hre : rem ≤ EPS
    · rw [snapPass1_stop d _ rem hre]
      refine ⟨rfl, fun h => h, by ring, fun i => ⟨rfl, rfl, rfl, rfl, rfl, rfl, rfl⟩,
        fun hq hQ => ⟨hq, fun i hi => (hQ i hi).2⟩⟩
    · by_cases hel : YMD.leb d (usablePeriodEnd b.year) = true
      · by_cases hav : EPS < b.balance - b.used
        · simp only [snapPass1, if_neg hre, if_pos hel, if_pos hav]
          obtain ⟨l1, n1, s1, c1, q1⟩ := ih (rem - min (b.balance - b.used) rem)
          refine ⟨?_, ?_, ?_, ?_, ?_⟩
          · simpa using l1
          · intro h0
            apply n1
            have : min (b.balance - b.used) rem ≤ rem := min_le_right _ _
            linarith
          · simp only [snapSumUsed]
            rw [s1]
            ring
          · intro i
            cases i with
            | zero => exact ⟨rfl, rfl, rfl, rfl, rfl, rfl, rfl⟩
            | succ n =>
              simpa using c1 n
          · intro hq hQ
            have hQ0 := hQ 0 (by simp)
            simp only [List.getD_cons_zero] at hQ0
            have hqc : Q25 (min (b.balance - b.used) rem) :=
              Q25_min (Q25_sub hQ0.1 hQ0.2) hq
            have hrest := q1 (Q25_sub hq hqc) (fun i hi => by
              have := hQ (i + 1) (by simpa using hi)
              simpa using this)
            refine ⟨hrest.1, ?_⟩
            intro i hi
            cases i with
            | zero => simpa using Q25_add hQ0.2 hqc
            | succ n =>
              simp only [List.getD_cons_succ]
              exact hrest.2 n (by simpa using hi)
        · simp only [snapPass1, if_neg hre, if_pos hel, if_neg hav]
          obtain ⟨l1, n1, s1, c1, q1⟩ := ih rem
          refine ⟨by simpa using l1, n1, ?_, ?_, ?_⟩
          · simp only [snapSumUsed]
            rw [s1]
            ring
          · intro i
            cases i with
            | zero => exact ⟨rfl, rfl, rfl, rfl, rfl, rfl, rfl⟩
            | succ n => simpa using c1 n
          · intro hq hQ
            have hrest := q1 hq (fun i hi => by
              have := hQ (i + 1) (by simpa using hi)
              simpa using this)
            refine ⟨hrest.1, ?_⟩
            intro i hi
            cases i with
            | zero =>
              have hQ0 := hQ 0 (by simp)
              simp only [List.getD_cons_zero] at hQ0 ⊢
              exact hQ0.2
            | succ n =>
              simp only [List.getD_cons_succ]
              exact hrest.2 n (by simpa using hi)
      · simp only [snapPass1, if_neg hre, if_neg hel]
        obtain ⟨l1, n1, s1, c1, q1⟩ := ih rem
        refine ⟨by simpa using l1, n1, ?_, ?_, ?_⟩
        · simp only [snapSumUsed]
          rw [s1]
          ring
        · intro i
          cases i with
          | zero => exact ⟨rfl, rfl, rfl, rfl, rfl, rfl, rfl⟩
          | succ n => simpa using c1 n
        · intro hq hQ
          have hrest := q1 hq (fun i hi => by
            have := hQ (i + 1) (by simpa using hi)
            simpa using this)
          refine ⟨hrest.1, ?_⟩
          intro i hi
          cases i with
          | zero =>
            have hQ0 := hQ 0 (by simp)
            simp only [List.getD_cons_zero] at hQ0 ⊢
            exact hQ0.2
          | succ n =>
            simp only [List.getD_cons_succ]
            exact hrest.2 n (by simpa using hi)

theorem snapPass2_spec (d : YMD) (rem : ℚ) :
    ∀ bs : List VacationYearBalance,
      ((snapPass2 d rem bs).2 = false →
        (snapPass2 d rem bs).1 = bs ∧
        ∀ i, i < bs.length →
          YMD.leb d (usablePeriodEnd ((bs.getD i dfltB).year)) = false) ∧
      ((snapPass2 d rem bs).2 = true →
        ∃ t, t < bs.length ∧
          (snapPass2 d rem bs).1 =
            bs.set t { bs.getD t dfltB with
              used := (bs.getD t dfltB).used + rem }) := by
  intro bs
  induction bs with
  | nil =>
    constructor
    · intro _; exact ⟨rfl, fun i hi => by simp at hi⟩
    · intro h; simp [snapPass2] at h
  | cons b rest ih =>
    by_cases ht : (snapPass2 d rem rest).2 = true
    · have hout : snapPass2 d rem (b :: rest) =
          (b :: (snapPass2 d rem rest).1, true) := by
        simp [snapPass2, ht]
      constructor
      · intro h; rw [hout] at h; cases h
      · intro _
        obtain ⟨t, htl, heq⟩ := ih.2 ht
        refine ⟨t + 1, by simpa using htl, ?_⟩
        rw [hout]
        simp only [List.getD_cons_succ, List.set_cons_succ]
        rw [heq]
    · have ht2 : (snapPass2 d rem rest).2 = false := by simpa using ht
      obtain ⟨hrest, hnone⟩ := ih.1 ht2
      by_cases he : YMD.leb d (usablePeriodEnd b.year) = true
      · have hout : snapPass2 d rem (b :: rest) =
            ({ b with used := b.used + rem } :: (snapPass2 d rem rest).1, true) := by
          simp [snapPass2, ht2, he]
        constructor
        · intro h; rw [hout] at h; cases h
        · intro _
          refine ⟨0, by simp, ?_⟩
          rw [hout, hrest]
          simp
      · have he2 : YMD.leb d (usablePeriodEnd b.year) = false := by simpa using he
        have hout : snapPass2 d rem (b :: rest) =
            (b :: (snapPass2 d rem rest).1, false) := by
          simp [snapPass2, ht2, he2]
        constructor
        · intro _
          constructor
          · rw [hout, hrest]
          · intro i hi
            cases i with
            | zero => simpa using he2
            | succ m =>
              simp only [List.getD_cons_succ]
              exact hnone m (by simpa using hi)
        · intro h; rw [hout] at h; cases h

theorem snapSumUsed_set (v : VacationYearBalance) :
    ∀ (bs : List VacationYearBalance) (t : Nat), t < bs.length →
      snapSumUsed (bs.set t v) =
        snapSumUsed bs - (bs.getD t dfltB).used + v.used := by
  intro bs
  induction bs with
  | nil => intro t h; simp at h
  | cons b rest ih =>
    intro t h
    cases t with
    | zero => simp [snapSumUsed]; ring
    | succ n =>
      simp only [List.set_cons_succ, List.getD_cons_succ, snapSumUsed]
      rw [ih n (by simpa using h)]
      ring

theorem snapAllocateDate_spec (d : YMD) (bs : List VacationYearBalance)
    (hQ : ∀ i, i < bs.length → Q25 (bs.getD i dfltB).balance ∧ Q25 (bs.getD i dfltB).used)
    (hne : 0 < bs.length)
    (hel : YMD.leb d (usablePeriodEnd ((bs.getD 0 dfltB).year)) = true) :
    (snapAllocateDate d bs).length = bs.length ∧
    snapSumUsed (snapAllocateDate d bs) = snapSumUsed bs + 1 ∧
    (∀ i, ((snapAllocateDate d bs).getD i dfltB).year = (bs.getD i dfltB).year ∧
      ((snapAllocateDate d bs).getD i dfltB).earned = (bs.getD i dfltB).earned ∧
      ((snapAllocateDate d bs).getD i dfltB).extra = (bs.getD i dfltB).extra ∧
      ((snapAllocateDate d bs).getD i dfltB).transferred = (bs.getD i dfltB).transferred ∧
      ((snapAllocateDate d bs).getD i dfltB).balance = (bs.getD i dfltB).balance ∧
      ((snapAllocateDate d bs).getD i dfltB).lost = (bs.getD i dfltB).lost ∧
      ((snapAllocateDate d bs).getD i dfltB).expired = (bs.getD i dfltB).expired) ∧
    (∀ i, i < bs.length → Q25 ((snapAllocateDate d bs).getD i dfltB).used) := by
  unfold snapAllocateDate
  obtain ⟨l1, n1, s1, c1, q1⟩ := snapPass1_spec d bs 1
  have hq1 := q1 Q25_one hQ
  have hr0 : 0 ≤ (snapPass1 d bs 1).2 := n1 zero_le_one
  by_cases hgt : EPS < (snapPass1 d bs 1).2
  · rw [if_pos hgt]
    rcases Bool.eq_false_or_eq_true (snapPass2 d (snapPass1 d bs 1).2
      (snapPass1 d bs 1).1).2 with hb | hb
    swap
    · exfalso
      have hspec := (snapPass2_spec d _ (snapPass1 d bs 1).1).1 hb
      have h0 : YMD.leb d
          (usablePeriodEnd (((snapPass1 d bs 1).1.getD 0 dfltB).year)) = false :=
        hspec.2 0 (by rw [l1]; exact hne)
      rw [(c1 0).1, hel] at h0
      cases h0
    · obtain ⟨t, htl, heq⟩ := (snapPass2_spec d _ _).2 hb
      rw [heq]
      have htb : t < bs.length := by rwa [l1] at htl
      refine ⟨?_, ?_, ?_, ?_⟩
      · rw [List.length_set, l1]
      · rw [snapSumUsed_set _ _ t htl, s1]
        ring
      · intro i
        by_cases hit : t = i
        · subst hit
          rw [getD_set_self _ _ _ _ htl]
          obtain ⟨a1, a2, a3, a4, a5, a6, a7⟩ := c1 t
          exact ⟨a1, a2, a3, a4, a5, a6, a7⟩
        · rw [getD_set_ne _ _ _ _ _ hit]
          exact c1 i
      · intro i hi
        by_cases hit : t = i
        · subst hit
          rw [getD_set_self _ _ _ _ htl]
          exact Q25_add (hq1.2 t htb) hq1.1
        · rw [getD_set_ne _ _ _ _ _ hit]
          exact hq1.2 i hi
  · rw [if_neg hgt]
    have hz : (snapPass1 d bs 1).2 = 0 := Q25_small hq1.1 hr0 (le_of_not_lt hgt)
    refine ⟨l1, ?_, c1, hq1.2⟩
    rw [s1, hz]
    ring

theorem snapConsume_spec :
    ∀ (ds : List YMD) (bs : List VacationYearBalance),
      (∀ d ∈ ds, YMD.leb d (usablePeriodEnd ((bs.getD 0 dfltB).year)) = true) →
      (∀ i, i < bs.length → Q25 (bs.getD i dfltB).balance ∧ Q25 (bs.getD i dfltB).used) →
      0 < bs.length →
      (ds.foldl (fun bs d => snapAllocateDate d bs) bs).length = bs.length ∧
      snapSumUsed (ds.foldl (fun bs d => snapAllocateDate d bs) bs) =
        snapSumUsed bs + (ds.length : ℚ) ∧
      (∀ i, ((ds.foldl (fun bs d => snapAllocateDate d bs) bs).getD i dfltB).year =
          (bs.getD i dfltB).year ∧
        ((ds.foldl (fun bs d => snapAllocateDate d bs) bs).getD i dfltB).earned =
          (bs.getD i dfltB).earned ∧
        ((ds.foldl (fun bs d => snapAllocateDate d bs) bs).getD i dfltB).extra =
          (bs.getD i dfltB).extra ∧
        ((ds.foldl (fun bs d => snapAllocateDate d bs) bs).getD i dfltB).transferred =
          (bs.getD i dfltB).transferred ∧
        ((ds.foldl (fun bs d => snapAllocateDate d bs) bs).getD i dfltB).balance =
          (bs.getD i dfltB).balance ∧
        ((ds.foldl (fun bs d => snapAllocateDate d bs) bs).getD i dfltB).lost =
          (bs.getD i dfltB).lost ∧
        ((ds.foldl (fun bs d => snapAllocateDate d bs) bs).getD i dfltB).expired =
          (bs.getD i dfltB).expired) := by
  intro ds
  induction ds with
  | nil =>
    intro bs _ _ _
    exact ⟨rfl, by simp, fun i => ⟨rfl, rfl, rfl, rfl, rfl, rfl, rfl⟩⟩
  | cons d ds ih =>
    intro bs hel hQ hne
    have hstep := snapAllocateDate_spec d bs hQ hne (hel d (List.mem_cons_self d ds))
    obtain ⟨sl, ss, sc, sq⟩ := hstep
    have hrec := ih (snapAllocateDate d bs)
      (fun x hx => by
        rw [(sc 0).1]
        exact hel x (List.mem_cons_of_mem d hx))
      (fun i hi => by
        rw [sl] at hi
        obtain ⟨_, _, _, _, b5, _, _⟩ := sc i
        rw [b5]
        exact ⟨(hQ i hi).1, sq i hi⟩)
      (by rw [sl]; exact hne)
    obtain ⟨rl, rs, rc⟩ := hrec
    have hfold : (d :: ds).foldl (fun bs d => snapAllocateDate d bs) bs =
        ds.foldl (fun bs d => snapAllocateDate d bs) (snapAllocateDate d bs) := rfl
    rw [hfold]
    refine ⟨rl.trans sl, ?_, ?_⟩
    · rw [rs, ss, List.length_cons]
      push_cast
      ring
    · intro i
      obtain ⟨r1, r2, r3, r4, r5, r6, r7⟩ := rc i
      obtain ⟨s1, s2, s3, s4, s5, s6, s7⟩ := sc i
      exact ⟨r1.trans s1, r2.trans s2, r3.trans s3, r4.trans s4, r5.trans s5,
        r6.trans s6, r7.trans s7⟩

theorem getD_map_core (g : VacationYearBalance → VacationYearBalance)
    (hg : ∀ b, (g b).year = b.year ∧ (g b).earned = b.earned ∧ (g b).extra = b.extra ∧
      (g b).used = b.used ∧ (g b).transferred = b.transferred ∧ (g b).lost = b.lost ∧
      (g b).expired = b.expired) :
    ∀ (l : List VacationYearBalance) (n : Nat),
      ((l.map g).getD n dfltB).year = (l.getD n dfltB).year ∧
      ((l.map g).getD n dfltB).earned = (l.getD n dfltB).earned ∧
      ((l.map g).getD n dfltB).extra = (l.getD n dfltB).extra ∧
      ((l.map g).getD n dfltB).used = (l.getD n dfltB).used ∧
      ((l.map g).getD n dfltB).transferred = (l.getD n dfltB).transferred ∧
      ((l.map g).getD n dfltB).lost = (l.getD n dfltB).lost ∧
      ((l.map g).getD n dfltB).expired = (l.getD n dfltB).expired := by
  intro l
  induction l with
  | nil => intro n; exact ⟨rfl, rfl, rfl, rfl, rfl, rfl, rfl⟩
  | cons b rest ih =>
    intro n
    cases n with
    | zero =>
      simp only [List.map_cons, List.getD_cons_zero]
      exact hg b
    | succ m =>
      simp only [List.map_cons, List.getD_cons_succ]
      exact ih m

theorem recomputeBalances_core (init : ℚ) (bs : List VacationYearBalance) :
    (recomputeBalances init bs).length = bs.length ∧
    ∀ i, ((recomputeBalances init bs).getD i dfltB).year = (bs.getD i dfltB).year ∧
      ((recomputeBalances init bs).getD i dfltB).earned = (bs.getD i dfltB).earned ∧
      ((recomputeBalances init bs).getD i dfltB).extra = (bs.getD i dfltB).extra ∧
      ((recomputeBalances init bs).getD i dfltB).used = (bs.getD i dfltB).used ∧
      ((recomputeBalances init bs).getD i dfltB).transferred =
        (bs.getD i dfltB).transferred ∧
      ((recomputeBalances init bs).getD i dfltB).lost = (bs.getD i dfltB).lost ∧
      ((recomputeBalances init bs).getD i dfltB).expired = (bs.getD i dfltB).expired := by
  cases bs with
  | nil => exact ⟨rfl, fun i => ⟨rfl, rfl, rfl, rfl, rfl, rfl, rfl⟩⟩
  | cons b rest =>
    have hg : ∀ x : VacationYearBalance, (recomputeBalance 0 x).year = x.year ∧
        (recomputeBalance 0 x).earned = x.earned ∧ (recomputeBalance 0 x).extra = x.extra ∧
        (recomputeBalance 0 x).used = x.used ∧
        (recomputeBalance 0 x).transferred = x.transferred ∧
        (recomputeBalance 0 x).lost = x.lost ∧
        (recomputeBalance 0 x).expired = x.expired :=
      fun x => ⟨rfl, rfl, rfl, rfl, rfl, rfl, rfl⟩
    constructor
    · simp [recomputeBalances]
    · intro i
      cases i with
      | zero =>
        simp only [recomputeBalances, List.getD_cons_zero]
        exact ⟨rfl, rfl, rfl, rfl, rfl, rfl, rfl⟩
      | succ n =>
        simp only [recomputeBalances, List.getD_cons_succ]
        exact getD_map_core (recomputeBalance 0) hg rest n

theorem processTransfersAux_nonexpired (cap : ℚ) :
    ∀ (l : List VacationYearBalance) (b : VacationYearBalance),
      b.expired = false → (∀ x ∈ l, x.expired = false) →
      processTransfersAux cap b l = b :: l := by
  intro l
  induction l with
  | nil => intro b _ _; rfl
  | cons nxt rest ih =>
    intro b hb hl
    unfold processTransfersAux
    rw [if_neg (by simp [hb])]
    rw [ih nxt (hl nxt (List.mem_cons_self nxt rest))
      (fun x hx => hl x (List.mem_cons_of_mem nxt hx))]

theorem processTransfers_nonexpired (cap : ℚ) (bs : List VacationYearBalance)
    (h : ∀ x ∈ bs, x.expired = false) : processTransfers cap bs = bs := by
  cases bs with
  | nil => rfl
  | cons b rest =>
    unfold processTransfers
    exact processTransfersAux_nonexpired cap rest b (h b (List.mem_cons_self b rest))
      (fun x hx => h x (List.mem_cons_of_mem b hx))

theorem snapActiveTotal_nonexpired :
    ∀ (bs : List VacationYearBalance) (ih : ℚ), (∀ x ∈ bs, x.expired = false) →
      snapActiveTotal bs ih =
        snapSumAccrued bs - snapSumUsed bs + (if bs.isEmpty then 0 else ih) := by
  intro bs
  induction bs with
  | nil => intro ih _; simp [snapActiveTotal, snapSumAccrued, snapSumUsed]
  | cons b rest ihl =>
    intro ih h
    simp only [snapActiveTotal, snapSumAccrued, snapSumUsed]
    rw [h b (List.mem_cons_self b rest),
      ihl 0 (fun x hx => h x (List.mem_cons_of_mem b hx))]
    simp only [List.isEmpty_cons, ite_self, if_false, Bool.false_eq_true]
    ring

theorem activeBalanceSum_nonexpired :
    ∀ (ys : List VacationYearState) (ih : ℚ), (∀ x ∈ ys, x.expired = false) →
      activeBalanceSum ys ih =
        sumAccrued ys - sumUsed ys + (if ys.isEmpty then 0 else ih) := by
  intro ys
  induction ys with
  | nil => intro ih _; simp [activeBalanceSum, sumAccrued, sumUsed]
  | cons vy rest ihl =>
    intro ih h
    simp only [activeBalanceSum, sumAccrued, sumUsed]
    rw [h vy (List.mem_cons_self vy rest),
      ihl 0 (fun x hx => h x (List.mem_cons_of_mem vy hx))]
    simp only [List.isEmpty_cons, ite_self, if_false, Bool.false_eq_true]
    ring

theorem getD_map_range {α : Type} (g : ℕ → α) (dflt : α) (n i : ℕ) (hi : i < n) :
    (((List.range n).map g).getD i dflt) = g i := by
  rw [List.getD_eq_getElem _ _ (by simpa using hi)]
  simp

theorem leb_refl (a : YMD) : YMD.leb a a = true := leb_iff.mpr (dateLe_refl a)

theorem vy_mono {a b : YMD} (h : YMD.leb a b = true) :
    getVacationYearForDate a ≤ getVacationYearForDate b := by
  rw [leb_iff, dateLe_iff] at h
  unfold getVacationYearForDate
  split_ifs <;> omega

theorem sorted_le_getLastD :
    ∀ (t : List YMD) (a : YMD), List.Sorted dateLe (a :: t) →
      YMD.leb a (t.getLastD a) = true ∧ ∀ x ∈ t, YMD.leb x (t.getLastD a) = true := by
  intro t
  induction t with
  | nil => intro a _; exact ⟨leb_refl a, by simp⟩
  | cons b t ih =>
    intro a hs
    have hab : dateLe a b := (List.sorted_cons.mp hs).1 b (List.mem_cons_self b t)
    have ht := ih b (List.sorted_cons.mp hs).2
    rw [List.getLastD_cons]
    refine ⟨leb_trans hab ht.1, ?_⟩
    intro x hx
    rcases List.mem_cons.mp hx with rfl | h
    · exact ht.1
    · exact ht.2 x h

theorem mem_le_getLastD (l : List YMD) (hs : List.Sorted dateLe l) (x : YMD)
    (hx : x ∈ l) : YMD.leb x (l.getLastD ⟨0, 0, 0⟩) = true := by
  cases l with
  | nil => simp at hx
  | cons a t =>
    rw [List.getLastD_cons]
    rcases List.mem_cons.mp hx with rfl | h
    · exact (sorted_le_getLastD t x hs).1
    · exact (sorted_le_getLastD t a hs).2 x h

theorem buildTimeline_sorted (a : Int) (b : Nat) (c d : YMD) (e : Int) :
    List.Sorted eventLe (buildTimelineEvents a b c d e) := by
  unfold buildTimelineEvents sortEvents
  exact List.sorted_insertionSort eventLe _

theorem buildTimeline_elem (fvy : Int) (cnt : Nat) (ms sd : YMD) (xm : Int) :
    ∀ e ∈ buildTimelineEvents fvy cnt ms sd xm,
      e.yearIndex < cnt ∧
        (e.kind = EventKind.expiry → e.date = ⟨fvy + (e.yearIndex : Int) + 2, 1, 1⟩) := by
  intro e he
  unfold buildTimelineEvents sortEvents at he
  have he2 := (List.perm_insertionSort eventLe _).mem_iff.mp he
  rw [List.mem_flatMap] at he2
  obtain ⟨j, hj, hee⟩ := he2
  rw [List.mem_range] at hj
  simp only at hee
  rcases List.mem_append.mp hee with h12 | hexp
  · rcases List.mem_append.mp h12 with hearn | hextra
    · rw [List.mem_map] at hearn
      obtain ⟨m, _, hme⟩ := hearn
      rw [← hme]
      exact ⟨hj, fun hk => by cases hk⟩
    · rw [List.mem_filterMap] at hextra
      obtain ⟨cy, _, hcy⟩ := hextra
      by_cases hc : (YMD.leb (if YMD.ltb sd (obtainStart (fvy + (j : Int))) then
          obtainStart (fvy + (j : Int)) else sd) ⟨cy, xm, 1⟩ &&
          YMD.leb ⟨cy, xm, 1⟩ (obtainEnd (fvy + (j : Int)))) = true
      · rw [if_pos hc] at hcy
        have he3 := Option.some.inj hcy
        rw [← he3]
        exact ⟨hj, fun hk => by cases hk⟩
      · rw [if_neg hc] at hcy
        cases hcy
  · rw [List.mem_singleton] at hexp
    rw [hexp]
    exact ⟨hj, fun _ => rfl⟩

theorem initialStates_length (fvy : Int) (cnt : Nat) :
    (initialVacationYearStates fvy cnt).length = cnt := by
  simp [initialVacationYearStates]

theorem initialStates_getD (fvy : Int) (cnt : Nat) (i : Nat) (hi : i < cnt) :
    (initialVacationYearStates fvy cnt).getD i dfltVY =
      { earned := 0, extra := 0, used := 0, transferred := 0, expired := false,
        usableEnd := ⟨fvy + (i : Int) + 1, 12, 31⟩ } := by
  unfold initialVacationYearStates
  exact getD_map_range _ dfltVY cnt i hi

theorem initialStates_sumUsed (fvy : Int) (cnt : Nat) :
    sumUsed (initialVacationYearStates fvy cnt) = 0 := by
  rw [sumUsed_eq_map]
  apply List.sum_eq_zero
  intro x hx
  rw [List.mem_map] at hx
  obtain ⟨s, hs, hxs⟩ := hx
  unfold initialVacationYearStates at hs
  rw [List.mem_map] at hs
  obtain ⟨i, _, hsi⟩ := hs
  rw [← hxs, ← hsi]

theorem forall_mem_of_getD {α : Type} (P : α → Prop) (dflt : α) (l : List α)
    (h : ∀ i, i < l.length → P (l.getD i dflt)) : ∀ x ∈ l, P x := by
  intro x hx
  obtain ⟨i, hi, hxe⟩ := List.mem_iff_getElem.mp hx
  have h2 := h i hi
  rwa [List.getD_eq_getElem _ _ hi, hxe] at h2

theorem snapSumUsed_congr {bs cs : List VacationYearBalance} (hlen : cs.length = bs.length)
    (h : ∀ i, (cs.getD i dfltB).used = (bs.getD i dfltB).used) :
    snapSumUsed cs = snapSumUsed bs := by
  rw [snapSumUsed_eq_map, snapSumUsed_eq_map, sum_map_eq_range _ dfltB,
    sum_map_eq_range _ dfltB, hlen]
  apply congrArg
  apply List.map_congr_left
  intro i _
  rw [h i]

theorem snapSumAccrued_congr {bs cs : List VacationYearBalance}
    (hlen : cs.length = bs.length)
    (h : ∀ i, (cs.getD i dfltB).earned = (bs.getD i dfltB).earned ∧
      (cs.getD i dfltB).extra = (bs.getD i dfltB).extra ∧
      (cs.getD i dfltB).transferred = (bs.getD i dfltB).transferred) :
    snapSumAccrued cs = snapSumAccrued bs := by
  rw [snapSumAccrued_eq_map, snapSumAccrued_eq_map, sum_map_eq_range _ dfltB,
    sum_map_eq_range _ dfltB, hlen]
  apply congrArg
  apply List.map_congr_left
  intro i _
  rw [(h i).1, (h i).2.1, (h i).2.2]

theorem Q25_earnedInVacationYear (yr : Int) (atDate emp : YMD) :
    Q25 (earnedInVacationYear yr atDate emp) := by
  rw [earned_eq_months]
  have := Q25_intCast_mul (earnedMonthsInt yr atDate emp) Q25_rate
  exact this

theorem Q25_extraInVacationYear (yr : Int) (atDate emp : YMD) (xm : Int) (xc : ℚ)
    (hq : Q25 xc) : Q25 (extraInVacationYear yr atDate emp xm xc) := by
  unfold extraInVacationYear
  simp only [List.foldl_cons, List.foldl_nil]
  split_ifs <;>
    first
      | exact Q25_add (Q25_add Q25_zero hq) hq
      | exact Q25_add Q25_zero hq
      | exact Q25_zero

theorem ltb_obtainStart_of_vy_lt (yr : Int) (D : YMD)
    (hD : getVacationYearForDate D < yr) : YMD.ltb D ⟨yr, 9, 1⟩ = true := by
  unfold getVacationYearForDate at hD
  rw [ltb_iff]
  simp only [YMD_y_mk, YMD_m_mk, YMD_d_mk]
  split_ifs at hD <;> omega

theorem earnedInVacationYear_zero_of_late (yr : Int) (D emp : YMD)
    (hD : getVacationYearForDate D < yr) (hD1 : 1 ≤ D.m) (hD2 : D.m ≤ 12)
    (he1 : 1 ≤ emp.m) (he2 : emp.m ≤ 12) :
    earnedInVacationYear yr D emp = 0 := by
  rw [earned_eq_months, earnedMonthsInt_closed yr D emp he1 he2]
  have hmd : mIdx D + 1 ≤ mIdx (obtainStart yr) := by
    unfold getVacationYearForDate at hD
    simp only [mIdx, obtainStart, YMD_y_mk, YMD_m_mk]
    split_ifs at hD <;> omega
  have hz : max 0 (min (mIdx (obtainEnd yr)) (mIdx D + 1) -
      max (mIdx (obtainStart yr)) (mIdx emp)) = 0 := by omega
  rw [hz]
  norm_num

theorem extraInVacationYear_zero_of_late (yr : Int) (D emp : YMD) (xm : Int) (xc : ℚ)
    (hD : getVacationYearForDate D < yr) :
    extraInVacationYear yr D emp xm xc = 0 := by
  unfold extraInVacationYear
  simp only [List.foldl_cons, List.foldl_nil]
  have heff : YMD.leb (obtainStart yr)
      (if YMD.ltb emp (obtainStart yr) then obtainStart yr else emp) = true := by
    split_ifs with h
    · exact leb_refl _
    · rw [leb_iff_not_ltb]
      simpa using h
  have hcond : ∀ cy : Int,
      (YMD.leb (if YMD.ltb emp (obtainStart yr) then obtainStart yr else emp)
          ⟨cy, xm, 1⟩ && YMD.leb ⟨cy, xm, 1⟩ (obtainEnd yr) &&
        YMD.leb ⟨cy, xm, 1⟩ D) = false := by
    intro cy
    rw [Bool.eq_false_iff]
    intro hc
    simp only [Bool.and_eq_true] at hc
    obtain ⟨⟨h1, _⟩, h3⟩ := hc
    have hOSD : YMD.leb (obtainStart yr) D = true := leb_trans (leb_trans heff h1) h3
    have hlt := ltb_obtainStart_of_vy_lt yr D hD
    rw [leb_iff_not_ltb] at hOSD
    exact hOSD hlt
  rw [if_neg (by simp only [hcond (yr + 1)]; exact Bool.false_ne_true),
    if_neg (by simp only [hcond yr]; exact Bool.false_ne_true)]

theorem addInitialToFirst_spec (init : ℚ) (bs : List VacationYearBalance) :
    (addInitialToFirst init bs).length = bs.length ∧
    (∀ i, ((addInitialToFirst init bs).getD i dfltB).year = (bs.getD i dfltB).year ∧
      ((addInitialToFirst init bs).getD i dfltB).earned = (bs.getD i dfltB).earned ∧
      ((addInitialToFirst init bs).getD i dfltB).extra = (bs.getD i dfltB).extra ∧
      ((addInitialToFirst init bs).getD i dfltB).used = (bs.getD i dfltB).used ∧
      ((addInitialToFirst init bs).getD i dfltB).transferred =
        (bs.getD i dfltB).transferred ∧
      ((addInitialToFirst init bs).getD i dfltB).lost = (bs.getD i dfltB).lost ∧
      ((addInitialToFirst init bs).getD i dfltB).expired = (bs.getD i dfltB).expired) ∧
    (∀ i, i < bs.length → ((addInitialToFirst init bs).getD i dfltB).balance =
      (bs.getD i dfltB).balance + (if i = 0 then init else 0)) := by
  cases bs with
  | nil =>
    exact ⟨rfl, fun i => ⟨rfl, rfl, rfl, rfl, rfl, rfl, rfl⟩, fun i hi => by simp at hi⟩
  | cons b rest =>
    refine ⟨rfl, ?_, ?_⟩
    · intro i
      cases i with
      | zero => exact ⟨rfl, rfl, rfl, rfl, rfl, rfl, rfl⟩
      | succ n => exact ⟨rfl, rfl, rfl, rfl, rfl, rfl, rfl⟩
    · intro i _
      cases i with
      | zero => simp [addInitialToFirst]
      | succ n => simp [addInitialToFirst]

/-- **C1** (counterexample).  The two evaluators do *not* agree on the
classification balance in general.  With employment start `2023-09-01`,
no initial or extra days, transfer cap 5, selection
`2023-09-02, 2023-09-03, 2023-09-04, 2026-01-15` and no holidays, the
batch evaluator's total active balance immediately after allocating the
consumed date `2026-01-15` is `13.48`, while the snapshot evaluator
invoked with as-of date `2026-01-15` yields a total of `14.4` (the three
September days are charged to different ledgers by the two evaluators —
the batch walk borrows against the then-unearned first period — and the
difference is then washed through the expiry transfer caps). -/
theorem C1_counterexample :
    computeTotalActiveBalance
        (batchStateAt [⟨2023, 9, 2⟩, ⟨2023, 9, 3⟩, ⟨2023, 9, 4⟩, ⟨2026, 1, 15⟩]
          (fun _ => false) ⟨2023, 9, 1⟩ 0 5 0 5 ⟨2026, 1, 15⟩) 0 = 337 / 25 ∧
      snapActiveTotal
        (getVacationYearBalances ⟨2023, 9, 1⟩ 0 5 0
          [⟨2023, 9, 2⟩, ⟨2023, 9, 3⟩, ⟨2023, 9, 4⟩, ⟨2026, 1, 15⟩]
          (fun _ => false) ⟨2026, 1, 15⟩ 5) 0 = 72 / 5 ∧
      (337 / 25 : ℚ) ≠ 72 / 5 := by
  refine ⟨by with_unfolding_all decide, by with_unfolding_all decide, by norm_num⟩

/-- **C1** (amended).  The restricted equivalence that does hold: the two
evaluators agree on the classification balance of a consumed non-holiday
date `D` whenever (1) `D` occurs exactly once in the non-holiday selection,
(2) `D` is at or after the employment start, (3) no period has expired at
or before `D` (`D` is within the first period's usable window), (4) the
configured day counts (`initialDays`, `extraDaysCount`) are multiples of
`0.04` like the accrual rate, so no sub-epsilon remainder is ever dropped,
and (5) the dates involved are calendar-valid.  Under these conditions the
batch evaluator's total active balance immediately after allocating `D`
equals the snapshot evaluator's total at as-of date `D`. -/
theorem C1_amended_theorem (sel : List YMD) (hol : YMD → Bool) (start D : YMD)
    (init xc cap : ℚ) (extraM : Int)
    (hcnt : (sel.filter (fun d => !hol d)).count D = 1)
    (hsd : YMD.leb start D = true)
    (hnoexp : YMD.leb D (usablePeriodEnd (getVacationYearForDate start)) = true)
    (hsm1 : 1 ≤ start.m) (hsm2 : start.m ≤ 12)
    (hD1 : 1 ≤ D.m) (hD2 : D.m ≤ 12) (hD3 : 1 ≤ D.d)
    (hQi : Q25 init) (hQx : Q25 xc) :
    computeTotalActiveBalance (batchStateAt sel hol start init extraM xc cap D) init =
      snapActiveTotal (getVacationYearBalances start init extraM xc sel hol D cap) init := by
  set fvy := getVacationYearForDate start with hfvy
  set l := sortedNonHolidaySelected sel hol with hldef
  set lastD := l.getLastD ⟨0, 0, 0⟩ with hlastD
  set lvy := getVacationYearForDate lastD with hlvy
  set cntB := (lvy - fvy + 1).toNat with hcntBdef
  set vyD := getVacationYearForDate D with hvyDdef
  set cntS := (vyD - fvy + 1).toNat with hcntSdef
  set E0 := buildTimelineEvents fvy cntB (startOfMonth start) start extraM with hE0def
  set ys0 := initialVacationYearStates fvy cntB with hys0def
  set g : Int → VacationYearBalance := fun year =>
    ({ year := year, earned := earnedInVacationYear year D start,
       extra := extraInVacationYear year D start extraM xc, used := 0, transferred := 0,
       balance := earnedInVacationYear year D start +
         extraInVacationYear year D start extraM xc,
       lost := 0, expired := YMD.ltb (usablePeriodEnd year) D } : VacationYearBalance)
    with hgdef
  set bal0 := (intRange fvy vyD).map g with hbal0def
  set bal1 := addInitialToFirst init bal0 with hbal1def
  set ds2 := sortDates (sel.filter (fun d => !hol d && YMD.leb d D)) with hds2def
  -- basic facts
  have hD_mem_f : D ∈ sel.filter (fun d => !hol d) :=
    List.count_pos_iff.mp (by rw [hcnt]; norm_num)
  have hsl : List.Sorted dateLe l := sortDates_sorted _
  have hD_mem_l : D ∈ l := (sortDates_perm _).mem_iff.mpr hD_mem_f
  have hDlast : YMD.leb D lastD = true := mem_le_getLastD l hsl D hD_mem_l
  have hfvy_le : fvy ≤ vyD := vy_mono hsd
  have hvyD_le : vyD ≤ lvy := vy_mono hDlast
  have hcntS_pos : 0 < cntS := by rw [hcntSdef]; omega
  have hcntB_pos : 0 < cntB := by rw [hcntBdef]; omega
  have hcntS_le : cntS ≤ cntB := by rw [hcntSdef, hcntBdef]; omega
  have hcastS : (cntS : ℤ) = vyD - fvy + 1 := by rw [hcntSdef]; omega
  have hexp_false : ∀ z : Int, 0 ≤ z → YMD.ltb (usablePeriodEnd (fvy + z)) D = false := by
    intro z hz
    rw [Bool.eq_false_iff]
    intro hc
    rw [ltb_iff] at hc
    have hno := hnoexp
    rw [leb_iff, dateLe_iff] at hno
    simp only [usablePeriodEnd, YMD_y_mk, YMD_m_mk, YMD_d_mk] at hc hno
    omega
  -- batch side
  have hbatchEq : batchStateAt sel hol start init extraM xc cap D =
      walkStateAt xc init cap l (E0, ys0) D := rfl
  have hin : ∀ e ∈ E0, e.yearIndex < ys0.length := by
    intro e he
    rw [hys0def, initialStates_length]
    exact (buildTimeline_elem fvy cntB (startOfMonth start) start extraM e he).1
  have hexp : ∀ e ∈ E0, e.kind = EventKind.expiry → YMD.leb e.date D = false := by
    intro e he hk
    rw [(buildTimeline_elem fvy cntB (startOfMonth start) start extraM e he).2 hk]
    rw [Bool.eq_false_iff]
    intro hc
    have htr := leb_trans hc hnoexp
    rw [leb_iff, dateLe_iff] at htr
    simp only [usablePeriodEnd, YMD_y_mk, YMD_m_mk, YMD_d_mk] at htr
    omega
  have hne0 : 0 < ys0.length := by rw [hys0def, initialStates_length]; exact hcntB_pos
  have h0el : YMD.leb D ((ys0.getD 0 dfltVY).usableEnd) = true := by
    rw [hys0def, initialStates_getD fvy cntB 0 hcntB_pos]
    simpa [usablePeriodEnd] using hnoexp
  have hQ0 : QFields ys0 := by
    intro i hi
    rw [hys0def, initialStates_length] at hi
    rw [hys0def, initialStates_getD fvy cntB i hi]
    exact ⟨Q25_zero, Q25_zero, Q25_zero, Q25_zero⟩
  obtain ⟨hlenF, hfieldsF, hsumF⟩ := walkStateAt_spec xc init cap D hQx hQi l E0 ys0
    (by rw [hE0def]; exact buildTimeline_sorted _ _ _ _ _) hin hexp hne0 h0el hQ0
  have hexpF : ∀ i, i < (walkStateAt xc init cap l (E0, ys0) D).length →
      ((walkStateAt xc init cap l (E0, ys0) D).getD i dfltVY).expired = false := by
    intro i hi
    rw [hlenF, hys0def, initialStates_length] at hi
    rw [(hfieldsF i).2.2.1, hys0def, initialStates_getD fvy cntB i hi]
  have hmemF : ∀ x ∈ walkStateAt xc init cap l (E0, ys0) D, x.expired = false :=
    forall_mem_of_getD _ dfltVY _ hexpF
  have hsumU0 : sumUsed ys0 = 0 := by rw [hys0def]; exact initialStates_sumUsed fvy cntB
  rw [hsumU0] at hsumF
  have haccF : sumAccrued (walkStateAt xc init cap l (E0, ys0) D) =
      ((List.range cntB).map (fun (i : ℕ) =>
        earnedInVacationYear (fvy + (i : Int)) D start +
          extraInVacationYear (fvy + (i : Int)) D start extraM xc)).sum := by
    rw [sumAccrued_eq_map, sum_map_eq_range _ dfltVY, hlenF, hys0def,
      initialStates_length]
    apply congrArg
    apply List.map_congr_left
    intro i hi
    rw [List.mem_range] at hi
    obtain ⟨⟨f1, f2⟩, f3, _, _⟩ := hfieldsF i
    rw [f1, f2, f3, hys0def, initialStates_getD fvy cntB i hi]
    have hE := buildTimeline_countEarn fvy cntB start D extraM hsm1 hsm2 hD1 hD2 hD3 i hi
    have hX := buildTimeline_countExtra fvy cntB start D extraM xc i hi
    have hE2 : monthlyRate *
        (((buildTimelineEvents fvy cntB (startOfMonth start) start extraM).countP
          (fun e => isEarnAt i e && YMD.leb e.date D) : ℕ) : ℚ) =
        earnedInVacationYear (fvy + (i : Int)) D start := by
      rw [earned_eq_months, ← hE]
      push_cast
      ring
    rw [hE0def, hE2, hX]
    dsimp only
    ring
  have hLHS : computeTotalActiveBalance (batchStateAt sel hol start init extraM xc cap D)
      init =
      ((List.range cntB).map (fun (i : ℕ) =>
        earnedInVacationYear (fvy + (i : Int)) D start +
          extraInVacationYear (fvy + (i : Int)) D start extraM xc)).sum + init -
        (((l.takeWhile (fun d => YMD.ltb d D)).length : ℚ) + 1) := by
    rw [hbatchEq]
    unfold computeTotalActiveBalance
    rw [activeBalanceSum_nonexpired _ init hmemF,
      if_neg (fun hc => List.ne_nil_of_length_pos
        (by rw [hlenF, hys0def, initialStates_length]; exact hcntB_pos)
        (List.isEmpty_iff.mp hc)),
      hsumF, haccF]
    ring
  -- snapshot side
  have hsnapEq : getVacationYearBalances start init extraM xc sel hol D cap =
      processTransfers cap (recomputeBalances init
        (ds2.foldl (fun bs d => snapAllocateDate d bs) bal1)) := rfl
  obtain ⟨hadjLen, hadjCore, hadjBal⟩ := addInitialToFirst_spec init bal0
  have hb0len : bal0.length = cntS := by
    rw [hbal0def, List.length_map]
    simp [intRange, hcntSdef]
  have hb0 : ∀ i, i < cntS → bal0.getD i dfltB = g (fvy + (i : Int)) := by
    intro i hi
    rw [hbal0def]
    unfold intRange
    rw [List.map_map]
    exact getD_map_range _ dfltB _ i hi
  have hb1len : bal1.length = cntS := by rw [hbal1def, hadjLen, hb0len]
  have hb1year0 : (bal1.getD 0 dfltB).year = fvy := by
    rw [hbal1def, (hadjCore 0).1, hb0 0 hcntS_pos]
    simp [hgdef]
  have hds2le : ∀ d ∈ ds2, YMD.leb d D = true := by
    intro d hd
    rw [hds2def] at hd
    have hd2 := (sortDates_perm _).mem_iff.mp hd
    have := (List.mem_filter.mp hd2).2
    simp only [Bool.and_eq_true] at this
    exact this.2
  have hds2el : ∀ d ∈ ds2, YMD.leb d (usablePeriodEnd ((bal1.getD 0 dfltB).year)) = true := by
    intro d hd
    rw [hb1year0]
    exact leb_trans (hds2le d hd) hnoexp
  have hb1Q : ∀ i, i < bal1.length →
      Q25 (bal1.getD i dfltB).balance ∧ Q25 (bal1.getD i dfltB).used := by
    intro i hi
    rw [hb1len] at hi
    constructor
    · rw [hbal1def, hadjBal i (by rw [hb0len]; exact hi), hb0 i hi]
      refine Q25_add ?_ ?_
      · exact Q25_add (Q25_earnedInVacationYear _ _ _)
          (Q25_extraInVacationYear _ _ _ _ _ hQx)
      · split_ifs with h
        · exact hQi
        · exact Q25_zero
    · rw [hbal1def, (hadjCore i).2.2.2.1, hb0 i hi]
      exact Q25_zero
  have hb1ne : 0 < bal1.length := by rw [hb1len]; exact hcntS_pos
  obtain ⟨hfoldLen, hfoldSum, hfoldCore⟩ := snapConsume_spec ds2 bal1 hds2el hb1Q hb1ne
  obtain ⟨hrecLen, hrecCore⟩ := recomputeBalances_core init
    (ds2.foldl (fun bs d => snapAllocateDate d bs) bal1)
  have hexpS : ∀ i, i < (recomputeBalances init
      (ds2.foldl (fun bs d => snapAllocateDate d bs) bal1)).length →
      ((recomputeBalances init
        (ds2.foldl (fun bs d => snapAllocateDate d bs) bal1)).getD i dfltB).expired =
        false := by
    intro i hi
    rw [hrecLen, hfoldLen, hb1len] at hi
    rw [(hrecCore i).2.2.2.2.2.2, (hfoldCore i).2.2.2.2.2.2, hbal1def,
      (hadjCore i).2.2.2.2.2.2, hb0 i hi]
    exact hexp_false (i : Int) (Int.natCast_nonneg i)
  have hmemS : ∀ x ∈ recomputeBalances init
      (ds2.foldl (fun bs d => snapAllocateDate d bs) bal1), x.expired = false :=
    forall_mem_of_getD _ dfltB _ hexpS
  have htrans : processTransfers cap (recomputeBalances init
      (ds2.foldl (fun bs d => snapAllocateDate d bs) bal1)) =
      recomputeBalances init (ds2.foldl (fun bs d => snapAllocateDate d bs) bal1) :=
    processTransfers_nonexpired cap _ hmemS
  have husedzero : ∀ x ∈ bal1, x.used = 0 :=
    forall_mem_of_getD (fun b => b.used = 0) dfltB bal1 (by
      intro i hi
      rw [hb1len] at hi
      rw [hbal1def, (hadjCore i).2.2.2.1, hb0 i hi])
  have hsumU1 : snapSumUsed bal1 = 0 := by
    rw [snapSumUsed_eq_map]
    apply List.sum_eq_zero
    intro x hx
    rw [List.mem_map] at hx
    obtain ⟨bb, hbb, hbx⟩ := hx
    rw [← hbx]
    exact husedzero bb hbb
  have hsumUsedS : snapSumUsed (recomputeBalances init
      (ds2.foldl (fun bs d => snapAllocateDate d bs) bal1)) = (ds2.length : ℚ) := by
    rw [snapSumUsed_congr hrecLen (fun i => (hrecCore i).2.2.2.1), hfoldSum, hsumU1]
    ring
  have haccS : snapSumAccrued (recomputeBalances init
      (ds2.foldl (fun bs d => snapAllocateDate d bs) bal1)) =
      ((List.range cntS).map (fun (i : ℕ) =>
        earnedInVacationYear (fvy + (i : Int)) D start +
          extraInVacationYear (fvy + (i : Int)) D start extraM xc)).sum := by
    rw [snapSumAccrued_congr hrecLen (fun i =>
        ⟨(hrecCore i).2.1, (hrecCore i).2.2.1, (hrecCore i).2.2.2.2.1⟩),
      snapSumAccrued_congr hfoldLen (fun i =>
        ⟨(hfoldCore i).2.1, (hfoldCore i).2.2.1, (hfoldCore i).2.2.2.1⟩),
      snapSumAccrued_eq_map, sum_map_eq_range _ dfltB, hb1len]
    apply congrArg
    apply List.map_congr_left
    intro i hi
    rw [List.mem_range] at hi
    rw [hbal1def, (hadjCore i).2.1, (hadjCore i).2.2.1, (hadjCore i).2.2.2.2.1,
      hb0 i hi]
    simp only [hgdef]
    ring
  have hRHS : snapActiveTotal (getVacationYearBalances start init extraM xc sel hol D cap)
      init =
      ((List.range cntS).map (fun (i : ℕ) =>
        earnedInVacationYear (fvy + (i : Int)) D start +
          extraInVacationYear (fvy + (i : Int)) D start extraM xc)).sum + init -
        (ds2.length : ℚ) := by
    rw [hsnapEq, htrans,
      snapActiveTotal_nonexpired _ init hmemS,
      if_neg (fun hc => List.ne_nil_of_length_pos
        (by rw [hrecLen, hfoldLen, hb1len]; exact hcntS_pos)
        (List.isEmpty_iff.mp hc)),
      hsumUsedS, haccS]
    ring
  -- day-count equality
  have hcount : ds2.length = (l.takeWhile (fun d => YMD.ltb d D)).length + 1 := by
    have h1 : ds2.length = (sel.filter (fun d => !hol d && YMD.leb d D)).length :=
      (sortDates_perm _).length_eq
    have h2 : (l.takeWhile (fun d => YMD.ltb d D)).length =
        List.countP (fun d => YMD.ltb d D) (sel.filter (fun d => !hol d)) := by
      rw [hldef]
      unfold sortedNonHolidaySelected
      rw [takeWhile_eq_filter_lt D _ (by rw [hldef] at hsl; exact hsl),
        ← List.countP_eq_length_filter]
      exact (sortDates_perm _).countP_eq _
    have h3 : List.countP (fun d => YMD.leb d D) (sel.filter (fun d => !hol d)) =
        (sel.filter (fun d => !hol d && YMD.leb d D)).length := by
      rw [List.countP_filter, ← List.countP_eq_length_filter]
      exact countP_congr_mem _ _ sel (fun a _ => Bool.and_comm _ _)
    have h4 := countP_le_split D (sel.filter (fun d => !hol d))
    rw [hcnt] at h4
    omega
  -- sum splitting
  have hsplit : ((List.range cntB).map (fun (i : ℕ) =>
      earnedInVacationYear (fvy + (i : Int)) D start +
        extraInVacationYear (fvy + (i : Int)) D start extraM xc)).sum =
      ((List.range cntS).map (fun (i : ℕ) =>
        earnedInVacationYear (fvy + (i : Int)) D start +
          extraInVacationYear (fvy + (i : Int)) D start extraM xc)).sum := by
    rw [show cntB = cntS + (cntB - cntS) by omega, List.range_add, List.map_append,
      List.sum_append, List.map_map]
    have hzero : ((List.range (cntB - cntS)).map ((fun (i : ℕ) =>
        earnedInVacationYear (fvy + (i : Int)) D start +
          extraInVacationYear (fvy + (i : Int)) D start extraM xc) ∘
        (fun x => cntS + x))).sum = 0 := by
      apply List.sum_eq_zero
      intro q hq
      rw [List.mem_map] at hq
      obtain ⟨x, _, hqx⟩ := hq
      rw [← hqx]
      simp only [Function.comp]
      have hlate : vyD < fvy + ((cntS + x : ℕ) : Int) := by
        push_cast
        omega
      rw [earnedInVacationYear_zero_of_late _ _ _ hlate hD1 hD2 hsm1 hsm2,
        extraInVacationYear_zero_of_late _ _ _ _ _ hlate, add_zero]
    rw [hzero, add_zero]
  rw [hLHS, hRHS, hsplit, hcount]
  push_cast
  ring

/-- **C1** (amended, witness).  A concrete instance of the restricted
equivalence: one consumed weekday, employment start 2026-01-01, ten
initial days. -/
theorem C1_amended_witness :
    computeTotalActiveBalance
        (batchStateAt [⟨2026, 1, 5⟩] (fun _ => false) ⟨2026, 1, 1⟩ 10 5 0 5
          ⟨2026, 1, 5⟩) 10 =
      snapActiveTotal
        (getVacationYearBalances ⟨2026, 1, 1⟩ 10 5 0 [⟨2026, 1, 5⟩] (fun _ => false)
          ⟨2026, 1, 5⟩ 5) 10 :=
  C1_amended_theorem [⟨2026, 1, 5⟩] (fun _ => false) ⟨2026, 1, 1⟩ ⟨2026, 1, 5⟩ 10 0 5 5
    (by with_unfolding_all decide) (by with_unfolding_all decide)
    (by with_unfolding_all decide)
    (by norm_num) (by norm_num) (by norm_num) (by norm_num) (by norm_num)
    ⟨250, by norm_num⟩ ⟨0, by norm_num⟩

end Ferie

